import Mathlib

/-!
# Catalog synchronisation (`pkg/catalog/manager/traverse.go`)

A shallow embedding of `traverseAndUpdate` and of the node-driver whitelist
handler, followed by theorems about them.

Conventions of the embedding.

* A Go `map[string]V` is an association list with unique keys (`GoMap V`).  The
  order of the entries stands for the order in which a `range` loop visits the
  keys, so a statement quantified over every `GoMap` covers every iteration
  order.  Two maps have the same content when `lookup` agrees on every key.
* Pointers that the code tests against `nil` are `Option`s; a `nil` slice that
  the code tests against `nil` is `none`.
* Collaborators that are not defined in the translated file (the store, the
  helm reader, YAML decoding, the status persistence, the helpers of the
  package) are fields of `World`.  Stateful collaborators receive the list of
  all calls made so far, so their answers may depend on the whole history.
* Every call to a stateful collaborator is logged, with its answer, in the
  `trace` of the run.  Logging calls (`logrus`) and the four counters that are
  only logged are left out.
-/

namespace Rancher

/-! ## Data model -/

/-- A Go `map[string]V`. -/
abbrev GoMap (V : Type) := AList (fun _ : String => V)

/-- Go `len(m)`. -/
def GoMap.len {V : Type} (m : GoMap V) : Nat := m.entries.length

/-- An error value produced by a collaborator: its `Error()` text and whether
`apierrors.IsNotFound` holds of it. -/
structure GoError where
  text : String
  isNotFound : Bool
  deriving DecidableEq

/-- The error value returned by `traverseAndUpdate`. -/
inductive Returned where
  /-- Value `nil` -/
  | nil
  /-- An error of a collaborator, returned as it was received -/
  | err (e : GoError)
  /-- Either `errors.New(text)`, or `errors.Errorf` whose text is fully rendered -/
  | new (text : String)
  /-- Call `errors.Errorf(format)` with no operand: `format` is used as the format -/
  | errorf (format : String)
  /-- A `controller.ForgetError` around `errors.Errorf(..)`, with the rendered text -/
  | forgetError (text : String)
  deriving DecidableEq

/-- Type `helmlib.ChartVersion`: the fields read by `traverseAndUpdate`. -/
structure ChartVersion where
  Version : String
  Digest : String
  Description : String
  Sources : List String
  KubeVersion : String
  Dir : String
  Name : String
  URLs : List String
  deriving DecidableEq

/-- Type `helmlib.ChartVersions`. -/
abbrev ChartVersions := List ChartVersion

/-- Type `v3.VersionCommits`; `Value` may be a nil map. -/
structure VersionCommits where
  Value : Option (GoMap String)

/-- One entry of `Status.Conditions`; `CondType` is its field `Type`. -/
structure CatalogCondition where
  CondType : String
  Status : String
  Message : String
  deriving DecidableEq

/-- Type `v3.CatalogStatus`. -/
structure CatalogStatus where
  Commit : String
  HelmVersionCommits : GoMap VersionCommits
  Conditions : Option (List CatalogCondition)

/-- Type `v3.Catalog` (object meta, `Spec.HelmVersion`, status). -/
structure Catalog where
  Name : String
  Namespace : String
  HelmVersion : String
  Status : CatalogStatus

/-- Type `v3.ProjectCatalog`: embeds a `Catalog` by value. -/
structure ProjectCatalog where
  Catalog : Catalog
  ProjectName : String

/-- Type `v3.ClusterCatalog`: embeds a `Catalog` by value. -/
structure ClusterCatalog where
  Catalog : Catalog
  ClusterName : String

/-- Type `CatalogInfo`: three pointers. -/
structure CatalogInfo where
  catalog : Option Catalog
  projectCatalog : Option ProjectCatalog
  clusterCatalog : Option ClusterCatalog

/-- Type `v3.TemplateVersionSpec`. -/
structure TemplateVersionSpec where
  Version : String
  RancherMinVersion : String := ""
  RancherMaxVersion : String := ""
  RequiredNamespace : String := ""
  KubeVersion : String := ""
  Digest : String := ""
  VersionDir : String := ""
  VersionName : String := ""
  VersionURLs : List String := []
  UpgradeVersionLinks : Option (GoMap String) := none
  ExternalID : String := ""

/-- Type `v3.CatalogTemplate`, flattened: object meta, `Spec`, `Status.HelmVersion`. -/
structure CatalogTemplate where
  Name : String
  Namespace : String := ""
  Labels : GoMap String := ∅
  Description : String := ""
  DefaultVersion : String := ""
  ProjectURL : String := ""
  Icon : String := ""
  IconFilename : String := ""
  FolderName : String := ""
  DisplayName : String := ""
  Categories : List String := []
  Versions : List TemplateVersionSpec := []
  CatalogID : String := ""
  ClusterCatalogID : String := ""
  ClusterID : String := ""
  ProjectCatalogID : String := ""
  ProjectID : String := ""
  HelmVersion : String := ""

/-- A fetched local file. -/
structure File where
  Name : String
  Contents : String
  deriving DecidableEq

/-- Type `catalogYml`. -/
structure catalogYml where
  RancherMin : String
  RancherMax : String
  Categories : List String
  Namespace : String
  Labels : GoMap String

/-- Type `ChartsWithErrors`: the embedded `error`. -/
structure ChartsWithErrors where
  error : GoError
  deriving DecidableEq

/-- A logged call to a collaborator, with the answer it gave.  The calls of
`yaml.Unmarshal` are logged too, although their answer depends on the contents
only. -/
inductive Event where
  | updateCatalogInfo (cmt : CatalogInfo) (catalogType templateName : String)
      (condition updateOnly : Bool) (res : Except GoError CatalogInfo)
  | Icon (metadata : ChartVersions) (res : Except GoError (String × String))
  | FetchLocalFiles (version : ChartVersion) (res : Except GoError (List File))
  | yamlUnmarshal (contents : String) (res : Except GoError catalogYml)
  | templateListerGet (ns name : String) (res : Except GoError CatalogTemplate)
  | createTemplate (template : CatalogTemplate) (catalog : Catalog) (res : Option GoError)
  | updateTemplate (existing template : CatalogTemplate) (res : Option GoError)
  | deleteChart (name ns : String) (res : Option GoError)

/-- Everything `traverseAndUpdate` calls that is defined outside the translated
file.  The first argument of a stateful collaborator is the trace so far. -/
structure World where
  /-- Call `helm.LoadIndex()`: the entries of the index file, or an error -/
  LoadIndex : Except GoError (GoMap ChartVersions)
  getCatalogType : CatalogInfo → String
  updateCatalogInfo : List Event → CatalogInfo → String → String → Bool → Bool →
    Except GoError CatalogInfo
  preprocessCatalog : Catalog → GoMap ChartVersions →
    List ChartsWithErrors × GoMap ChartVersions
  hasAllUpdates : Catalog → Bool
  isUpToDate : String → Catalog → Bool
  /-- Call `helm.Icon(metadata)`: `(iconFilename, iconURL)` or an error -/
  Icon : List Event → ChartVersions → Except GoError (String × String)
  FetchLocalFiles : List Event → ChartVersion → Except GoError (List File)
  /-- Call `yaml.Unmarshal([]byte(contents), &value)` -/
  yamlUnmarshal : String → Except GoError catalogYml
  showUpgradeLinks : String → String → Bool
  getValidTemplateName : String → String → String
  templateListerGet : List Event → String → String → Except GoError CatalogTemplate
  createTemplate : List Event → CatalogTemplate → Catalog → Option GoError
  updateTemplate : List Event → CatalogTemplate → CatalogTemplate → Option GoError
  deleteChart : List Event → String → String → Option GoError
  /-- Constant `client.CatalogType` -/
  CatalogType : String
  /-- Constant `client.ClusterCatalogType` -/
  ClusterCatalogType : String
  /-- Constant `client.ProjectCatalogType` -/
  ProjectCatalogType : String
  /-- Constant `namespace.GlobalNamespace` -/
  GlobalNamespace : String
  /-- Go `strings.ToLower` -/
  ToLower : String → String
  /-- Go `strings.EqualFold` -/
  EqualFold : String → String → Bool
  /-- Call `fmt.Sprintf(cutils.CatalogExternalIDFormat, catalogName, folder, version)` -/
  CatalogExternalID : String → String → String → String
  /-- The order in which `range` visits the keys of the `keywords` set -/
  rangeKeywords : List String → List String
  /-- What `setTraverseCompleted` does to the conditions of the catalog -/
  traverseCompletedConditions : Option (List CatalogCondition) → Option (List CatalogCondition)

/-! ## Change detector (lines 60–81) -/

/-- State of the loop of lines 68–77. -/
structure Detect where
  commits : GoMap String
  hasChanged : Bool
  versionNumber : Nat

/-- Body of the loop of lines 68–77 for one release. -/
def detectStep (existing : GoMap String) (d : Detect) (version : ChartVersion) : Detect :=
  let commits := d.commits.insert version.Version version.Digest
  match existing.lookup version.Version with
  | none => { commits := commits, hasChanged := true, versionNumber := d.versionNumber }
  | some digest =>
    { commits := commits
      hasChanged := if digest ≠ version.Digest then true else d.hasChanged
      versionNumber := d.versionNumber + 1 }

/-- Lines 66–77: the loop over the releases of one chart. -/
def detectLoop (existing : GoMap String) (metadata : ChartVersions) : Detect :=
  metadata.foldl (detectStep existing) { commits := ∅, hasChanged := false, versionNumber := 0 }

/-- Lines 66–81: the value of `hasChanged` after the count check of line 79. -/
def hasChanged (existing : GoMap String) (metadata : ChartVersions) : Bool :=
  let d := detectLoop existing metadata
  if d.versionNumber ≠ existing.len then true else d.hasChanged

/-- Lines 60–63: the old version-to-digest map of a chart, empty when the
snapshot has no entry for it or the entry holds a nil map. -/
def existingHelmVersionCommits (catalog : Catalog) (chart : String) : GoMap String :=
  match catalog.Status.HelmVersionCommits.lookup chart with
  | some ⟨some value⟩ => value
  | _ => ∅

/-! ## Conditions (`norman/condition`) and the run-start test (line 48) -/

/-- The condition `v3.CatalogConditionRefreshed`. -/
def CatalogConditionRefreshed : String := "Refreshed"

/-- Library `condition.Cond.GetStatus`: the `Status` field of the condition of the
given type, the empty string when the object has no such condition. -/
def GetStatus (cond : String) (catalog : Catalog) : String :=
  match catalog.Status.Conditions with
  | none => ""
  | some conditions =>
    match conditions.find? (fun c => c.CondType == cond) with
    | some c => c.Status
    | none => ""

/-- Library `condition.Cond.IsUnknown`. -/
def IsUnknown (cond : String) (catalog : Catalog) : Bool :=
  GetStatus cond catalog == "Unknown"

/-- Library `condition.Cond.IsTrue`. -/
def IsTrue (cond : String) (catalog : Catalog) : Bool :=
  GetStatus cond catalog == "True"

/-- Library `condition.Cond.GetMessage`; the code of line 48 does not call it. -/
def GetMessage (cond : String) (catalog : Catalog) : String :=
  match catalog.Status.Conditions with
  | none => ""
  | some conditions =>
    match conditions.find? (fun c => c.CondType == cond) with
    | some c => c.Message
    | none => ""

/-- Go `strings.Contains`. -/
def stringsContains (s substr : String) : Bool :=
  s.data.tails.any fun t => substr.data.isPrefixOf t

/-- The test of line 48. -/
def needsSyncMarker (catalog : Catalog) : Bool :=
  (IsUnknown CatalogConditionRefreshed catalog &&
      !stringsContains (GetStatus CatalogConditionRefreshed catalog) "syncing catalog") ||
    IsTrue CatalogConditionRefreshed catalog ||
    catalog.Status.Conditions.isNone

/-! ## Results -/

/-- How a call of `traverseAndUpdate` ends. -/
inductive Outcome where
  /-- A run-time panic (nil dereference, index out of range) -/
  | panic
  /-- The function returns this error value -/
  | returned (r : Returned)
  deriving DecidableEq

/-- A finished call: how it ended, the calls it made, and the object behind the
local variable `catalog` when it stopped. -/
structure Run where
  outcome : Outcome
  trace : List Event
  catalog : Option Catalog

/-- One step of a loop or of a straight-line block: go on with a state, or stop
the whole function. -/
inductive Step (α : Type) where
  | next (a : α)
  | exit (r : Run)

/-- The local variables that live across the iterations of the package loop. -/
structure LoopState where
  catalog : Catalog
  projectCatalog : Option ProjectCatalog
  clusterCatalog : Option ClusterCatalog
  newHelmVersionCommits : GoMap VersionCommits
  errs : List GoError
  updateErrors : List GoError
  createErrors : List GoError
  trace : List Event

/-! ## Metadata extraction and template building (lines 88–204) -/

/-- The allow-list of line 317. -/
def supportedFiles : List String :=
  ["catalog.yml", "catalog.yaml", "questions.yml", "questions.yaml"]

/-- Library `labels.Merge`: the entries of the first map, overridden by the second. -/
def labelsMerge (a b : GoMap String) : GoMap String := b ∪ a

/-- What the scan of the fetched files reads and writes (lines 121–139). -/
structure FileScan where
  v : TemplateVersionSpec
  label : GoMap String
  keywords : GoMap Unit
  errs : List GoError
  trace : List Event

/-- Lines 122–138: the inner loop over `supportedFiles` for one fetched file.  A
parse failure is recorded and the loop goes on with the next name (`continue`);
a parsed file sets the fields and ends this inner loop (`break`). -/
def scanSupported (w : World) (chart : String) (file : File) :
    List String → FileScan → FileScan
  | [], s => s
  | f :: rest, s =>
    if w.EqualFold (chart ++ "/" ++ f) file.Name then
      let res := w.yamlUnmarshal file.Contents
      let trace := s.trace ++ [Event.yamlUnmarshal file.Contents res]
      match res with
      | .error err =>
        scanSupported w chart file rest { s with errs := s.errs ++ [err], trace := trace }
      | .ok value =>
        { v := { s.v with
                  RancherMinVersion := value.RancherMin
                  RancherMaxVersion := value.RancherMax
                  RequiredNamespace := value.Namespace }
          label := labelsMerge s.label value.Labels
          keywords := value.Categories.foldl (fun k category => k.insert category ()) s.keywords
          errs := s.errs
          trace := trace }
    else scanSupported w chart file rest s

/-- Lines 121–139: the loop over the fetched files. -/
def scanFiles (w : World) (chart : String) (files : List File) (s : FileScan) : FileScan :=
  files.foldl (fun s file => scanSupported w chart file supportedFiles s) s

/-- Lines 149–156: the body of the upgrade-link loop for one earlier version spec. -/
def upgradeLinkStep (w : World) (templateName : String) (v versionSpec : TemplateVersionSpec) :
    TemplateVersionSpec :=
  let links : GoMap String := match v.UpgradeVersionLinks with
    | none => ∅
    | some links => links
  if w.showUpgradeLinks v.Version versionSpec.Version then
    let link := templateName ++ "-" ++ versionSpec.Version
    { v with UpgradeVersionLinks := some (links.insert versionSpec.Version link) }
  else { v with UpgradeVersionLinks := some links }

/-- Lines 159–163: the external identifier of a version. -/
def externalID (w : World) (catalog : Catalog) (catalogType templateNamespace folderName
    version : String) : String :=
  if catalogType = w.CatalogType then
    w.CatalogExternalID catalog.Name folderName version
  else
    "catalog://?catalog=" ++ templateNamespace ++ "/" ++ catalog.Name ++ "&type=" ++
      catalogType ++ "&template=" ++ folderName ++ "&version=" ++ version

/-- The variables written by the version loop of lines 111–165. -/
structure BuildAcc where
  label : GoMap String
  keywords : GoMap Unit
  versions : List TemplateVersionSpec
  errs : List GoError
  trace : List Event

/-- Lines 112–164: the body of the version loop.  `template` is the template as
it stands during the loop: its `Versions` are assigned only at line 173. -/
def buildVersion (w : World) (catalog : Catalog) (catalogType templateNamespace chart : String)
    (template : CatalogTemplate) (acc : BuildAcc) (version : ChartVersion) : Step BuildAcc :=
  let v : TemplateVersionSpec := { Version := w.ToLower version.Version }
  let res := w.FetchLocalFiles acc.trace version
  let trace := acc.trace ++ [Event.FetchLocalFiles version res]
  match res with
  | .error err => .exit { outcome := .returned (.err err), trace := trace, catalog := some catalog }
  | .ok files =>
    let s := scanFiles w chart files
      { v := v, label := acc.label, keywords := acc.keywords, errs := acc.errs, trace := trace }
    let v := { s.v with
                KubeVersion := version.KubeVersion
                Digest := version.Digest
                VersionDir := version.Dir
                VersionName := version.Name
                VersionURLs := version.URLs }
    let v := template.Versions.foldl (upgradeLinkStep w template.Name) v
    let v := { v with ExternalID :=
                externalID w catalog catalogType templateNamespace template.FolderName v.Version }
    .next { label := s.label, keywords := s.keywords, versions := acc.versions ++ [v],
            errs := s.errs, trace := s.trace }

/-- Lines 111–165: the version loop. -/
def buildVersions (w : World) (catalog : Catalog) (catalogType templateNamespace chart : String)
    (template : CatalogTemplate) : ChartVersions → BuildAcc → Step BuildAcc
  | [], acc => .next acc
  | version :: rest, acc =>
    match buildVersion w catalog catalogType templateNamespace chart template acc version with
    | .exit r => .exit r
    | .next acc => buildVersions w catalog catalogType templateNamespace chart template rest acc

/-- Go `strings.SplitN(s, ":", 2)`: the text before the first colon, when there is one. -/
def splitNColon (s : String) : Option String :=
  match s.data.span (fun c => c != ':') with
  | (_, []) => none
  | (before, _ :: _) => some (String.mk before)

/-- Lines 175–204: the fields that depend on the type of the catalog; an error
text when the function returns `errors.New` of it. -/
def scopeTemplate (w : World) (catalogType : String) (catalog : Catalog)
    (projectCatalog : Option ProjectCatalog) (clusterCatalog : Option ClusterCatalog)
    (template : CatalogTemplate) : Except String CatalogTemplate :=
  if catalogType = w.CatalogType then
    .ok { template with CatalogID := catalog.Name }
  else if catalogType = w.ClusterCatalogType then
    match clusterCatalog with
    | none => .error "Cluster catalog is no longer available"
    | some cc =>
      if cc.Catalog.Name = "" then .error "Cluster catalog is no longer available"
      else
        let labelMap : GoMap String :=
          (∅ : GoMap String).insert (cc.ClusterName ++ "-" ++ cc.Catalog.Name) cc.Catalog.Name
        .ok { template with
                ClusterCatalogID := cc.Catalog.Namespace ++ ":" ++ cc.Catalog.Name
                ClusterID := cc.ClusterName
                Labels := labelsMerge template.Labels labelMap }
  else if catalogType = w.ProjectCatalogType then
    match projectCatalog with
    | none => .error "Project catalog is no longer available"
    | some pc =>
      if pc.Catalog.Name = "" then .error "Project catalog is no longer available"
      else
        match splitNColon pc.ProjectName with
        | none => .error "Project ID invalid while creating template"
        | some split0 =>
          let labelMap : GoMap String :=
            (∅ : GoMap String).insert
              (split0 ++ "-" ++ pc.Catalog.Namespace ++ "-" ++ pc.Catalog.Name) pc.Catalog.Name
          .ok { template with
                  ProjectCatalogID := pc.Catalog.Namespace ++ ":" ++ pc.Catalog.Name
                  ProjectID := pc.ProjectName
                  Labels := labelsMerge template.Labels labelMap }
  else .ok template

/-- Lines 88–204: build the template of a chart that is not skipped.  Only `errs`
and `trace` of the loop state change. -/
def buildTemplate (w : World) (catalogType templateNamespace : String) (st : LoopState)
    (chart : String) (metadata : ChartVersions) : Step (LoopState × CatalogTemplate) :=
  match metadata with
  | [] => .exit { outcome := .panic, trace := st.trace, catalog := some st.catalog }
  | first :: _ =>
    let projectURL : String := match first.Sources with
      | [] => ""
      | source :: _ => source
    let template : CatalogTemplate :=
      { Name := w.ToLower chart
        Namespace := templateNamespace
        Description := first.Description
        DefaultVersion := first.Version
        ProjectURL := projectURL }
    let res := w.Icon st.trace metadata
    let trace := st.trace ++ [Event.Icon metadata res]
    match res with
    | .error err =>
      .exit { outcome := .returned (.err err), trace := trace, catalog := some st.catalog }
    | .ok (iconFilename, iconURL) =>
      let template := { template with
                          Icon := iconURL
                          IconFilename := iconFilename
                          FolderName := chart
                          DisplayName := chart
                          HelmVersion := st.catalog.HelmVersion }
      match buildVersions w st.catalog catalogType templateNamespace chart template metadata
          { label := ∅, keywords := ∅, versions := [], errs := st.errs, trace := trace } with
      | .exit r => .exit r
      | .next acc =>
        let template := { template with
                            Labels := acc.label
                            Categories := w.rangeKeywords acc.keywords.keys
                            Versions := acc.versions
                            Name := w.getValidTemplateName st.catalog.Name template.FolderName }
        match scopeTemplate w catalogType st.catalog st.projectCatalog st.clusterCatalog
            template with
        | .error text =>
          .exit { outcome := .returned (.new text), trace := acc.trace,
                  catalog := some st.catalog }
        | .ok template => .next ({ st with errs := acc.errs, trace := acc.trace }, template)

/-! ## Reconciler (lines 206–240) -/

/-- Lines 206–215: reload the locals from `cmt`, stop when the catalog is gone or
already up to date. -/
def refreshLocals (w : World) (commit : String) (cmt : CatalogInfo) (st : LoopState) :
    Step LoopState :=
  match cmt.catalog with
  | none =>
    .exit { outcome := .returned (.new "Catalog is no longer available"), trace := st.trace,
            catalog := none }
  | some catalog =>
    if catalog.Name = "" then
      .exit { outcome := .returned (.new "Catalog is no longer available"), trace := st.trace,
              catalog := some catalog }
    else if w.isUpToDate commit catalog then
      .exit { outcome := .returned .nil, trace := st.trace, catalog := some catalog }
    else
      .next { st with catalog := catalog, projectCatalog := cmt.projectCatalog,
                      clusterCatalog := cmt.clusterCatalog }

/-- Lines 218–239: look the template up, create it when it is not found, update
it when it is found; when `err` is not nil at line 237 the chart is deleted from
the new snapshot. -/
def reconcile (w : World) (st : LoopState) (template : CatalogTemplate) : LoopState :=
  let got := w.templateListerGet st.trace template.Namespace template.Name
  let trace := st.trace ++ [Event.templateListerGet template.Namespace template.Name got]
  match got with
  | .error err =>
    if err.isNotFound then
      let res := w.createTemplate trace template st.catalog
      let trace := trace ++ [Event.createTemplate template st.catalog res]
      match res with
      | some err =>
        { st with createErrors := st.createErrors ++ [err], trace := trace,
                  newHelmVersionCommits := st.newHelmVersionCommits.erase template.DisplayName }
      | none => { st with trace := trace }
    else
      { st with trace := trace,
                newHelmVersionCommits := st.newHelmVersionCommits.erase template.DisplayName }
  | .ok existing =>
    let res := w.updateTemplate trace existing template
    let trace := trace ++ [Event.updateTemplate existing template res]
    match res with
    | some err =>
      { st with updateErrors := st.updateErrors ++ [err], trace := trace,
                newHelmVersionCommits := st.newHelmVersionCommits.erase template.DisplayName }
    | none => { st with trace := trace }

/-! ## The package loop (lines 56–240) -/

/-- Lines 57–240: the body of the package loop for one chart. -/
def processChart (w : World) (commit : String) (cmt : CatalogInfo)
    (catalogType templateNamespace : String) (st : LoopState) (chart : String)
    (metadata : ChartVersions) : Step LoopState :=
  let existing := existingHelmVersionCommits st.catalog chart
  let st := { st with newHelmVersionCommits :=
                st.newHelmVersionCommits.insert chart ⟨some (detectLoop existing metadata).commits⟩ }
  if !hasChanged existing metadata && w.hasAllUpdates st.catalog then .next st
  else
    match buildTemplate w catalogType templateNamespace st chart metadata with
    | .exit r => .exit r
    | .next (st, template) =>
      match refreshLocals w commit cmt st with
      | .exit r => .exit r
      | .next st => .next (reconcile w st template)

/-- Lines 56–240: the package loop, over the entries in the order of the `range`. -/
def packageLoop (w : World) (commit : String) (cmt : CatalogInfo)
    (catalogType templateNamespace : String) :
    List (Σ _ : String, ChartVersions) → LoopState → Step LoopState
  | [], st => .next st
  | ⟨chart, metadata⟩ :: rest, st =>
    match processChart w commit cmt catalogType templateNamespace st chart metadata with
    | .exit r => .exit r
    | .next st => packageLoop w commit cmt catalogType templateNamespace rest st

/-! ## Pruner (lines 242–255) -/

/-- Lines 242–247: the template names of the charts of the old snapshot that the
index no longer has. -/
def toDeleteChart (w : World) (catalog : Catalog) (index : GoMap ChartVersions) : List String :=
  (catalog.Status.HelmVersionCommits.keys.filter fun chart => (index.lookup chart).isNone).map
    (w.getValidTemplateName catalog.Name)

/-- Lines 249–255: delete the templates one after the other, stop at the first
failure. -/
def deleteLoop (w : World) (templateNamespace : String) (catalog : Catalog) :
    List String → List Event → Step (List Event)
  | [], trace => .next trace
  | toDelete :: rest, trace =>
    let res := w.deleteChart trace toDelete templateNamespace
    let trace := trace ++ [Event.deleteChart toDelete templateNamespace res]
    match res with
    | some err => .exit { outcome := .returned (.err err), trace := trace, catalog := some catalog }
    | none => deleteLoop w templateNamespace catalog rest trace

/-! ## Status tracker (lines 256–315) -/

/-- Library `condition.Cond.False` and the like: set the status (and, when given,
the message) of the condition of the given type, adding it when absent. -/
def setCondition (conditions : Option (List CatalogCondition)) (cond status : String)
    (message : Option String) : Option (List CatalogCondition) :=
  let conditions := conditions.getD []
  if conditions.any (fun c => c.CondType == cond) then
    some (conditions.map fun c =>
      if c.CondType == cond then
        { c with Status := status, Message := message.getD c.Message }
      else c)
  else some (conditions ++ [{ CondType := cond, Status := status, Message := message.getD "" }])

/-- Lines 261–265 and 302–306: copy the catalog into the project or cluster catalog. -/
def embedCatalog (catalog : Catalog) (projectCatalog : Option ProjectCatalog)
    (clusterCatalog : Option ClusterCatalog) :
    Option ProjectCatalog × Option ClusterCatalog :=
  match projectCatalog, clusterCatalog with
  | some pc, cc => (some { pc with Catalog := catalog }, cc)
  | none, some cc => (none, some { cc with Catalog := catalog })
  | none, none => (none, none)

/-- The helper `setTraverseCompleted` is not among the translated sources; the
comment at its call site says that it sets conditions, and what it sets is the
field `traverseCompletedConditions` of the world. -/
def setTraverseCompleted (w : World) (catalog : Catalog) : Catalog :=
  { catalog with Status :=
      { catalog.Status with Conditions := w.traverseCompletedConditions catalog.Status.Conditions } }

/-- Modelled from the spec: `setCatalogErrorState` is not among the translated
sources.  Following §4.5 (a) and the invariant stated there, the refreshed
condition becomes `False` and the commit is reset to empty; the locals are
stored in `cmt` the way lines 302–309 do it. -/
def setCatalogErrorState (_cmt : CatalogInfo) (catalog : Catalog)
    (projectCatalog : Option ProjectCatalog) (clusterCatalog : Option ClusterCatalog) :
    CatalogInfo :=
  let catalog : Catalog := { catalog with Status :=
    { catalog.Status with
        Commit := ""
        Conditions := setCondition catalog.Status.Conditions CatalogConditionRefreshed "False"
          none } }
  let (projectCatalog, clusterCatalog) := embedCatalog catalog projectCatalog clusterCatalog
  { catalog := some catalog, projectCatalog := projectCatalog, clusterCatalog := clusterCatalog }

/-- Modelled from the spec: `setCatalogIgnoreErrorState` is not among the
translated sources.  Following §4.5 (b), the refreshed condition becomes `False`
with the given message (the list of invalid charts), the commit and the snapshot
are adopted; the locals are stored in `cmt` the way lines 302–309 do it. -/
def setCatalogIgnoreErrorState (commit : String) (_cmt : CatalogInfo) (catalog : Catalog)
    (projectCatalog : Option ProjectCatalog) (clusterCatalog : Option ClusterCatalog)
    (stateMessage : String) : CatalogInfo :=
  let catalog : Catalog := { catalog with Status :=
    { catalog.Status with
        Commit := commit
        Conditions := setCondition catalog.Status.Conditions CatalogConditionRefreshed "False"
          (some stateMessage) } }
  let (projectCatalog, clusterCatalog) := embedCatalog catalog projectCatalog clusterCatalog
  { catalog := some catalog, projectCatalog := projectCatalog, clusterCatalog := clusterCatalog }

/-- Go `strings.Join`. -/
def stringsJoin (sep : String) : List String → String
  | [] => ""
  | [a] => a
  | a :: b :: rest => a ++ sep ++ stringsJoin sep (b :: rest)

/-- The text `fmt` prints for a slice of errors under `%v`. -/
def fmtErrors (errors : List GoError) : String :=
  "[" ++ stringsJoin " " (errors.map fun e => e.text) ++ "]"

/-- Lines 327–333. -/
def processInvalidChartErrors (entriesWithErrors : List ChartsWithErrors) : String :=
  entriesWithErrors.foldl (fun acc errorInfo => acc ++ errorInfo.error.text ++ ";") ""

/-- Lines 270–276: the texts of the create and update failures. -/
def errstrings (createErrors updateErrors : List GoError) : List String :=
  (if createErrors.length > 0 then
      ["failed to create templates. Multiple error(s) occurred: " ++ fmtErrors createErrors]
    else []) ++
  (if updateErrors.length > 0 then
      ["failed to update templates. Multiple error(s) occurred: " ++ fmtErrors updateErrors]
    else [])

/-- The last call of a branch: persist `cmt`, return the error of the persistence
when it fails and `result` otherwise (lines 280–284, 290–293, 310–314). -/
def persistAndReturn (w : World) (catalogType : String) (condition : Bool) (cmt : CatalogInfo)
    (trace : List Event) (result : Returned) : Run :=
  let res := w.updateCatalogInfo trace cmt catalogType "" condition true
  let trace := trace ++ [Event.updateCatalogInfo cmt catalogType "" condition true res]
  match res with
  | .error err => { outcome := .returned (.err err), trace := trace, catalog := cmt.catalog }
  | .ok _ => { outcome := .returned result, trace := trace, catalog := cmt.catalog }

/-- Line 259: the catalog with the new snapshot. -/
def adoptSnapshot (st : LoopState) : Catalog :=
  { st.catalog with Status :=
      { st.catalog.Status with HelmVersionCommits := st.newHelmVersionCommits } }

/-- Lines 256–315: adopt the new snapshot and decide how the run ends. -/
def endOfRun (w : World) (commit : String) (cmt : CatalogInfo) (catalogType : String)
    (entriesWithErrors : List ChartsWithErrors) (st : LoopState) : Run :=
  let catalog : Catalog := adoptSnapshot st
  let (projectCatalog, clusterCatalog) := embedCatalog catalog st.projectCatalog st.clusterCatalog
  let catalog := setTraverseCompleted w catalog
  let errstrings := errstrings st.createErrors st.updateErrors
  if entriesWithErrors.length > 0 && errstrings.length == 0 then
    let invalidChartErrors := processInvalidChartErrors entriesWithErrors
    let cmt := setCatalogIgnoreErrorState commit cmt catalog projectCatalog clusterCatalog
      ("Error in chart(s): " ++ invalidChartErrors)
    persistAndReturn w catalogType false cmt st.trace
      (.forgetError ("failed to sync templates. Multiple error(s) occurred: " ++
        invalidChartErrors))
  else if errstrings.length > 0 then
    let invalidChartErrors := processInvalidChartErrors entriesWithErrors
    let errstrings := errstrings ++ [invalidChartErrors]
    let cmt := setCatalogErrorState cmt catalog projectCatalog clusterCatalog
    persistAndReturn w catalogType false cmt st.trace (.errorf (stringsJoin ";" errstrings))
  else
    let finalError : Returned :=
      if st.errs.length > 0 then
        .new ("failed to sync templates. Resetting commit. Multiple error occurred: " ++
          fmtErrors st.errs)
      else .nil
    let commit := if st.errs.length > 0 then "" else commit
    let catalog : Catalog := { catalog with Status := { catalog.Status with Commit := commit } }
    let (projectCatalog, clusterCatalog) := embedCatalog catalog projectCatalog clusterCatalog
    let cmt : CatalogInfo :=
      { catalog := some catalog, projectCatalog := projectCatalog,
        clusterCatalog := clusterCatalog }
    persistAndReturn w catalogType true cmt st.trace finalError

/-! ## The function -/

/-- Lines 33–40: the namespace of the templates; `none` when the code dereferences
a nil pointer. -/
def templateNamespaceOf (w : World) (catalogType : String) (cmt : CatalogInfo) : Option String :=
  if catalogType = w.CatalogType then some w.GlobalNamespace
  else if catalogType = w.ClusterCatalogType then cmt.clusterCatalog.map fun cc => cc.Catalog.Namespace
  else if catalogType = w.ProjectCatalogType then cmt.projectCatalog.map fun pc => pc.Catalog.Namespace
  else some ""

/-- Lines 55–315, after the run-start transition: `cmt` and `trace` are what the
transition left, `catalog`, `projectCatalog` and `clusterCatalog` are the locals
read from the caller's `cmt` at lines 23–25. -/
def syncCharts (w : World) (commit : String) (cmt : CatalogInfo)
    (catalogType templateNamespace : String) (catalog : Catalog)
    (projectCatalog : Option ProjectCatalog) (clusterCatalog : Option ClusterCatalog)
    (index : GoMap ChartVersions) (trace : List Event) : Run :=
  let (entriesWithErrors, entriesToProcess) := w.preprocessCatalog catalog index
  let st : LoopState :=
    { catalog := catalog, projectCatalog := projectCatalog, clusterCatalog := clusterCatalog,
      newHelmVersionCommits := ∅, errs := [], updateErrors := [], createErrors := [],
      trace := trace }
  match packageLoop w commit cmt catalogType templateNamespace entriesToProcess.entries st with
  | .exit r => r
  | .next st =>
    match deleteLoop w templateNamespace st.catalog (toDeleteChart w st.catalog index)
        st.trace with
    | .exit r => r
    | .next trace => endOfRun w commit cmt catalogType entriesWithErrors { st with trace := trace }

/-- The function `traverseAndUpdate` (lines 21–315). -/
def traverseAndUpdate (w : World) (commit : String) (cmt : CatalogInfo) : Run :=
  let catalogType := w.getCatalogType cmt
  match w.LoadIndex with
  | .error err => { outcome := .returned (.err err), trace := [], catalog := cmt.catalog }
  | .ok index =>
    match templateNamespaceOf w catalogType cmt, cmt.catalog with
    | none, _ => { outcome := .panic, trace := [], catalog := cmt.catalog }
    | some _, none => { outcome := .panic, trace := [], catalog := none }
    | some templateNamespace, some catalog =>
      if needsSyncMarker catalog then
        let res := w.updateCatalogInfo [] cmt catalogType "sync" true false
        let trace := [Event.updateCatalogInfo cmt catalogType "sync" true false res]
        match res with
        | .error err =>
          { outcome := .returned (.err err), trace := trace, catalog := some catalog }
        | .ok cmt1 =>
          syncCharts w commit cmt1 catalogType templateNamespace catalog cmt.projectCatalog
            cmt.clusterCatalog index trace
      else
        syncCharts w commit cmt catalogType templateNamespace catalog cmt.projectCatalog
          cmt.clusterCatalog index []

/-! ## Reading a run -/

/-- The final status persistence: a call of `updateCatalogInfo` with `updateOnly`
set (the run-start marker is persisted with `updateOnly` unset). -/
def Event.isFinalPersist : Event → Bool
  | .updateCatalogInfo _ _ _ _ true _ => true
  | _ => false

/-- A call of `updateCatalogInfo`. -/
def Event.isStatusPersistence : Event → Bool
  | .updateCatalogInfo _ _ _ _ _ _ => true
  | _ => false

/-- The calls made while a template is built: `Icon`, `FetchLocalFiles`,
`yaml.Unmarshal`. -/
def Event.isBuild : Event → Bool
  | .Icon _ _ => true
  | .FetchLocalFiles _ _ => true
  | .yamlUnmarshal _ _ => true
  | _ => false

/-- The error of a failed `createTemplate` call. -/
def Event.createFailure : Event → Option GoError
  | .createTemplate _ _ (some err) => some err
  | _ => none

/-- The error of a failed `updateTemplate` call. -/
def Event.updateFailure : Event → Option GoError
  | .updateTemplate _ _ (some err) => some err
  | _ => none

/-- The error of a failed `yaml.Unmarshal` call. -/
def Event.yamlFailure : Event → Option GoError
  | .yamlUnmarshal _ (.error err) => some err
  | _ => none

/-- The errors of the failed `createTemplate` calls of a trace, in order. -/
def createFailures (trace : List Event) : List GoError := trace.filterMap Event.createFailure

/-- The errors of the failed `updateTemplate` calls of a trace, in order. -/
def updateFailures (trace : List Event) : List GoError := trace.filterMap Event.updateFailure

/-- The errors of the failed `yaml.Unmarshal` calls of a trace, in order. -/
def yamlFailures (trace : List Event) : List GoError := trace.filterMap Event.yamlFailure

/-- The chart (display name of the template) whose create or update failed. -/
def Event.failedChart : Event → Option String
  | .createTemplate template _ (some _) => some template.DisplayName
  | .updateTemplate _ template (some _) => some template.DisplayName
  | _ => none

/-- The chart (display name of the template) whose create or update succeeded. -/
def Event.succeededChart : Event → Option String
  | .createTemplate template _ none => some template.DisplayName
  | .updateTemplate _ template none => some template.DisplayName
  | _ => none

/-- The catalog information handed to the final status persistence of a run
whose last call is that persistence and succeeded. -/
def Run.persisted (r : Run) : Option CatalogInfo :=
  match r.trace.getLast? with
  | some (.updateCatalogInfo cmt _ _ _ true (.ok _)) => some cmt
  | _ => none

/-- The digest of the last release of the list that has the given version. -/
def lastDigest (metadata : ChartVersions) (version : String) : Option String :=
  (metadata.reverse.find? fun r => r.Version == version).map fun r => r.Digest

/-- The digest a snapshot records for a version of a chart. -/
def digestOf (snapshot : GoMap VersionCommits) (chart version : String) : Option String :=
  (snapshot.lookup chart).bind fun vc => vc.Value.bind fun value => value.lookup version

/-- A block that only builds: the trace grows by build calls and `errs` grows by
the failures of the `yaml.Unmarshal` calls among them. -/
def BuildExt (trace : List Event) (errs : List GoError) (trace1 : List Event)
    (errs1 : List GoError) : Prop :=
  ∃ ext, trace1 = trace ++ ext ∧ (∀ e ∈ ext, e.isBuild = true) ∧ errs1 = errs ++ yamlFailures ext

/-- A snapshot holds, for a chart, the digests of the given releases. -/
def HoldsDigests (snapshot : GoMap VersionCommits) (chart : String) (metadata : ChartVersions) :
    Prop :=
  ∃ value, snapshot.lookup chart = some ⟨some value⟩ ∧
    ∀ version, value.lookup version = lastDigest metadata version

/-- Calls that are neither a create, nor an update, nor the final persistence. -/
def Event.isNeutral : Event → Bool
  | .createTemplate _ _ _ => false
  | .updateTemplate _ _ _ => false
  | .updateCatalogInfo _ _ _ _ true _ => false
  | _ => true

/-- The invariant of the package loop, over the variables it writes: `done` lists
the charts whose iteration is over. -/
structure Inv (entries : GoMap ChartVersions) (done : List String)
    (snapshot : GoMap VersionCommits) (createErrors updateErrors errs : List GoError)
    (trace : List Event) : Prop where
  createErrors : createErrors = createFailures trace
  updateErrors : updateErrors = updateFailures trace
  errs : errs = yamlFailures trace
  noFinal : ∀ e ∈ trace, e.isFinalPersist = false
  keys : ∀ chart, chart ∈ snapshot → chart ∈ done
  content : ∀ chart, chart ∈ snapshot →
    ∃ metadata, entries.lookup chart = some metadata ∧ HoldsDigests snapshot chart metadata
  failed : ∀ e ∈ trace, ∀ chart, e.failedChart = some chart → chart ∈ done ∧ chart ∉ snapshot
  succeeded : ∀ e ∈ trace, ∀ chart, e.succeededChart = some chart → chart ∈ snapshot

/-- The invariant, on a loop state. -/
def LoopInv (entries : GoMap ChartVersions) (done : List String) (st : LoopState) : Prop :=
  Inv entries done st.newHelmVersionCommits st.createErrors st.updateErrors st.errs st.trace

/-- What is known of a run that reaches the final status persistence and whose
persistence succeeds: the loop state `st` at the end-of-run decision, the
catalog `catF` handed to the persistence, and which of the three ways was taken. -/
structure RunEnd (w : World) (commit : String) (cmt : CatalogInfo) (cmtF : CatalogInfo)
    (catalog : Catalog) (index : GoMap ChartVersions) (done : List String) (st : LoopState)
    (catF : Catalog) (cond : Bool) (result : Returned) : Prop where
  fromCatalog : cmt.catalog = some catalog
  fromIndex : w.LoadIndex = .ok index
  inv : LoopInv (w.preprocessCatalog catalog index).2 done st
  lastCall : ∃ res, (traverseAndUpdate w commit cmt).trace =
    st.trace ++ [Event.updateCatalogInfo cmtF (w.getCatalogType cmt) "" cond true (.ok res)]
  outcome : (traverseAndUpdate w commit cmt).outcome = .returned result
  handed : cmtF.catalog = some catF
  snapshot : catF.Status.HelmVersionCommits = st.newHelmVersionCommits
  ways :
    ((st.createErrors ≠ [] ∨ st.updateErrors ≠ []) ∧ cond = false ∧
        catF.Status.Commit = "" ∧ GetStatus CatalogConditionRefreshed catF = "False" ∧
        result = .errorf (stringsJoin ";"
          (errstrings st.createErrors st.updateErrors ++ [processInvalidChartErrors (w.preprocessCatalog catalog index).1]))) ∨
      (st.createErrors = [] ∧ st.updateErrors = [] ∧
        (w.preprocessCatalog catalog index).1 ≠ [] ∧ cond = false ∧
        catF.Status.Commit = commit ∧ GetStatus CatalogConditionRefreshed catF = "False" ∧
        GetMessage CatalogConditionRefreshed catF =
          "Error in chart(s): " ++
            processInvalidChartErrors (w.preprocessCatalog catalog index).1 ∧
        result = .forgetError ("failed to sync templates. Multiple error(s) occurred: " ++
          processInvalidChartErrors (w.preprocessCatalog catalog index).1)) ∨
      (st.createErrors = [] ∧ st.updateErrors = [] ∧
        (w.preprocessCatalog catalog index).1 = [] ∧ cond = true ∧
        ((st.errs = [] ∧ catF.Status.Commit = commit ∧ result = .nil) ∨
          (st.errs ≠ [] ∧ catF.Status.Commit = "" ∧
            result = .new
              ("failed to sync templates. Resetting commit. Multiple error occurred: " ++
                fmtErrors st.errs))))

/-- A release with a version and a digest and nothing else. -/
def release (version digest : String) : ChartVersion :=
  { Version := version, Digest := digest, Description := "", Sources := [], KubeVersion := "",
    Dir := "", Name := "", URLs := [] }

/-- A world for concrete runs of a global catalog: the index is given, no entry is
invalid, the catalog has pending updates and is not up to date, no file is
fetched, every lookup answers not found, and every other call succeeds. -/
def sampleWorld (index : GoMap ChartVersions) : World where
  LoadIndex := .ok index
  getCatalogType := fun _ => "catalog"
  updateCatalogInfo := fun _ cmt _ _ _ _ => .ok cmt
  preprocessCatalog := fun _ entries => ([], entries)
  hasAllUpdates := fun _ => false
  isUpToDate := fun _ _ => false
  Icon := fun _ _ => .ok ("", "")
  FetchLocalFiles := fun _ _ => .ok []
  yamlUnmarshal := fun _ => .ok { RancherMin := "", RancherMax := "", Categories := [],
                                  Namespace := "", Labels := ∅ }
  showUpgradeLinks := fun _ _ => true
  getValidTemplateName := fun catalogName chart => catalogName ++ "-" ++ chart
  templateListerGet := fun _ _ _ => .error { text := "not found", isNotFound := true }
  createTemplate := fun _ _ _ => none
  updateTemplate := fun _ _ _ => none
  deleteChart := fun _ _ _ => none
  CatalogType := "catalog"
  ClusterCatalogType := "clusterCatalog"
  ProjectCatalogType := "projectCatalog"
  GlobalNamespace := "cattle-global-data"
  ToLower := fun s => s
  EqualFold := fun a b => a == b
  CatalogExternalID := fun catalogName folder version =>
    "catalog://?catalog=" ++ catalogName ++ "&template=" ++ folder ++ "&version=" ++ version
  rangeKeywords := fun keys => keys
  traverseCompletedConditions := fun conditions => conditions

/-- A global catalog named `mycatalog` with the given snapshot and conditions. -/
def sampleCatalog (snapshot : GoMap VersionCommits)
    (conditions : Option (List CatalogCondition)) : CatalogInfo :=
  { catalog := some { Name := "mycatalog", Namespace := "", HelmVersion := "",
                      Status := { Commit := "", HelmVersionCommits := snapshot,
                                  Conditions := conditions } }
    projectCatalog := none
    clusterCatalog := none }

/-- An index with the charts `a` and `b`, one release each. -/
def indexAB : GoMap ChartVersions :=
  (AList.insert "b" [release "1.0.0" "y"] ∅).insert "a" [release "1.0.0" "x"]

/-- The sample world where the creation of the template of chart `a` fails. -/
def worldCreateFails : World :=
  { sampleWorld indexAB with
    createTemplate := fun _ template _ =>
      if template.DisplayName = "a" then some { text := "boom", isNotFound := false } else none }

/-- The text `t` occurs in the text `s`. -/
def Occurs (t s : String) : Prop := ∃ pre post, s = pre ++ t ++ post

/-- The run-start marker: a call of `updateCatalogInfo` with `"sync"`. -/
def Event.isSyncMarker : Event → Bool
  | .updateCatalogInfo _ _ templateName true false _ => templateName == "sync"
  | _ => false

/-- A catalog whose refreshed condition is already `Unknown` with the message
`syncing catalog`. -/
def syncingCatalog : CatalogInfo :=
  sampleCatalog ∅
    (some [{ CondType := "Refreshed", Status := "Unknown", Message := "syncing catalog" }])

/-- A catalog whose refreshed condition is `False`. -/
def failedCatalog : CatalogInfo :=
  sampleCatalog ∅ (some [{ CondType := "Refreshed", Status := "False", Message := "" }])

/-- A snapshot that records digest `x0` for version `1.0.0` of chart `a`. -/
def snapshotA : GoMap VersionCommits :=
  AList.insert "a" ⟨some (AList.insert "1.0.0" "x0" ∅)⟩ ∅

/-- An index with the single chart `a`, one release. -/
def indexA : GoMap ChartVersions := AList.insert "a" [release "1.0.0" "x"] ∅

/-- The sample world where the release of chart `a` comes with a descriptor file
that does not parse. -/
def worldBadDescriptor : World :=
  { sampleWorld indexA with
    FetchLocalFiles := fun _ _ => .ok [{ Name := "a/catalog.yml", Contents := "]" }]
    yamlUnmarshal := fun _ => .error { text := "yaml: did not find expected node",
                                       isNotFound := false } }

/-- The sample world where `preprocessCatalog` reports one invalid chart and
hands chart `a` to the loop. -/
def worldInvalidEntry : World :=
  { sampleWorld indexA with
    preprocessCatalog := fun _ entries =>
      ([{ error := { text := "invalid chart z", isNotFound := false } }], entries) }

/-- The world of `worldBadDescriptor` where an invalid chart is reported too. -/
def worldBadDescriptorInvalidEntry : World :=
  { worldBadDescriptor with
    preprocessCatalog := fun _ entries =>
      ([{ error := { text := "invalid chart z", isNotFound := false } }], entries) }

/-- The commit of the catalog handed to the final status persistence. -/
def Run.persistedCommit (r : Run) : Option String :=
  (r.persisted.bind fun cmt => cmt.catalog).map fun c => c.Status.Commit

/-- The snapshot of the catalog handed to the final status persistence. -/
def Run.persistedSnapshot (r : Run) : Option (GoMap VersionCommits) :=
  (r.persisted.bind fun cmt => cmt.catalog).map fun c => c.Status.HelmVersionCommits

/-- The world of `worldInvalidEntry` where the final status persistence fails. -/
def worldInvalidEntryPersistFails : World :=
  { worldInvalidEntry with
    updateCatalogInfo := fun _ cmt _ _ _ updateOnly =>
      if updateOnly then .error { text := "conflict", isNotFound := false } else .ok cmt }

/-- Line 83: the chart is skipped. -/
def skipsChart (w : World) (st : LoopState) (chart : String) (metadata : ChartVersions) : Bool :=
  !hasChanged (existingHelmVersionCommits st.catalog chart) metadata && w.hasAllUpdates st.catalog

/-- The loop state after lines 57–81 of the iteration of a chart. -/
def withEntry (st : LoopState) (chart : String) (metadata : ChartVersions) : LoopState :=
  { st with newHelmVersionCommits := (AList.insert chart (VersionCommits.mk (some
      (detectLoop (existingHelmVersionCommits st.catalog chart) metadata).commits))
      st.newHelmVersionCommits) }

/-- The trace of a step, whether the function goes on or stops. -/
def Step.trace : Step LoopState → List Event
  | .next st => st.trace
  | .exit r => r.trace

/-- A call of `templateLister.Get`. -/
def Event.isLookup : Event → Bool
  | .templateListerGet _ _ _ => true
  | _ => false

/-- The loop state at the start of the package loop of a run over `sampleCatalog`. -/
def sampleState : LoopState :=
  { catalog := { Name := "mycatalog", Namespace := "", HelmVersion := "",
                 Status := { Commit := "", HelmVersionCommits := ∅, Conditions := none } }
    projectCatalog := none, clusterCatalog := none, newHelmVersionCommits := ∅, errs := [],
    updateErrors := [], createErrors := [], trace := [] }

/-- The sample world where the lookup of the template of chart `a` fails with an
error that is not a not-found error. -/
def worldLookupFails : World :=
  { sampleWorld indexAB with
    templateListerGet := fun _ _ name =>
      if name = "mycatalog-a" then .error { text := "timeout", isNotFound := false }
      else .error { text := "not found", isNotFound := true } }

/-- The sample world of a catalog that has all its updates applied and whose
templates exist in the store. -/
def worldSettled (index : GoMap ChartVersions) : World :=
  { sampleWorld index with
    hasAllUpdates := fun _ => true
    templateListerGet := fun _ ns name => .ok { Name := name, Namespace := ns } }

/-- An index whose chart `a` lists version `1.0.0` twice, with the same digest. -/
def indexDuplicate : GoMap ChartVersions :=
  AList.insert "a" [release "1.0.0" "x", release "1.0.0" "x"] ∅

/-- The snapshot `{a: {1.0.0: x}}`: the content of `indexA` and of `indexDuplicate`. -/
def snapshotOfA : GoMap VersionCommits :=
  AList.insert "a" ⟨some (AList.insert "1.0.0" "x" ∅)⟩ ∅

/-- A call of `updateTemplate`. -/
def Event.isUpdate : Event → Bool
  | .updateTemplate _ _ _ => true
  | _ => false

/-- A call of `deleteChart`. -/
def Event.isDelete : Event → Bool
  | .deleteChart _ _ _ => true
  | _ => false

/-- The error of a failed `deleteChart` call. -/
def Event.deleteFailure : Event → Option GoError
  | .deleteChart _ _ (some err) => some err
  | _ => none

/-- The calls of the package loop: building, lookup, create, update. -/
def Event.isLoopCall : Event → Bool
  | .deleteChart _ _ _ => false
  | .updateCatalogInfo _ _ _ _ _ _ => false
  | _ => true

/-- The catalog in the answer of a successful `updateCatalogInfo` call. -/
def Event.answeredCatalog : Event → Option Catalog
  | .updateCatalogInfo _ _ _ _ _ (.ok cmt) => cmt.catalog
  | _ => none

/-- The successful `deleteChart` calls for a list of template names. -/
def deleteCalls (templateNamespace : String) (names : List String) : List Event :=
  names.map fun name => Event.deleteChart name templateNamespace none

/-- The catalog `c` is one the function received and did not modify: the catalog
of the caller's `cmt`, or the catalog answered by the first call of the run (the
run-start persistence). -/
def HeldCatalog (cmt : CatalogInfo) (run : Run) (c : Option Catalog) : Prop :=
  c = cmt.catalog ∨ c = run.trace.head?.bind Event.answeredCatalog

/-- A snapshot with the chart `old`, which `indexA` does not have, and nothing
else. -/
def snapshotOld : GoMap VersionCommits :=
  AList.insert "old" ⟨some (AList.insert "0.1.0" "o" ∅)⟩ ∅

/-- The sample world where `deleteChart` fails. -/
def worldDeleteFails : World :=
  { sampleWorld indexA with
    deleteChart := fun _ _ _ => some { text := "delete refused", isNotFound := false } }

/-- The descriptor read from a fetched file: the file has a supported name for
the chart and its contents parse (lines 123–125). -/
def parsedDescriptor (w : World) (chart : String) (names : List String) (file : File) :
    Option catalogYml :=
  if names.any (fun f => w.EqualFold (chart ++ "/" ++ f) file.Name) then
    match w.yamlUnmarshal file.Contents with
    | .ok value => some value
    | .error _ => none
  else none

/-- Lines 129–135 for one parsed descriptor. -/
def applyDescriptor (s : FileScan) (value : catalogYml) : FileScan :=
  { s with
    v := { s.v with
            RancherMinVersion := value.RancherMin
            RancherMaxVersion := value.RancherMax
            RequiredNamespace := value.Namespace }
    label := labelsMerge s.label value.Labels
    keywords := value.Categories.foldl (fun k category => k.insert category ()) s.keywords }

/-- The value decoded by a successful `yaml.Unmarshal` call. -/
def Event.parsedValue : Event → Option catalogYml
  | .yamlUnmarshal _ (.ok value) => some value
  | _ => none

/-- The template handed to a `createTemplate` call. -/
def Event.createdTemplate : Event → Option CatalogTemplate
  | .createTemplate template _ _ => some template
  | _ => none

/-- The left-to-right merge of the labels of a list of descriptors (`labels.Merge`,
the later map overriding). -/
def mergeLabels (label : GoMap String) (descriptors : List catalogYml) : GoMap String :=
  descriptors.foldl (fun l d => labelsMerge l d.Labels) label

/-- The keywords after the categories of a list of descriptors were added, one
descriptor after the other (lines 133–135). -/
def mergeCategories (keywords : GoMap Unit) (descriptors : List catalogYml) : GoMap Unit :=
  descriptors.foldl
    (fun k d => d.Categories.foldl (fun k category => k.insert category ()) k) keywords

/-- Two scans agree on what the descriptors write: the version spec, the labels
and the keywords. -/
def SameScan (a b : FileScan) : Prop :=
  a.v = b.v ∧ a.label = b.label ∧ a.keywords = b.keywords

/-- The variables of the version loop agree with a trace extension: the labels are
the merge of the labels decoded by the new `yaml.Unmarshal` calls. -/
def LabelExt (trace : List Event) (label : GoMap String) (trace1 : List Event)
    (label1 : GoMap String) : Prop :=
  ∃ ext, trace1 = trace ++ ext ∧ label1 = mergeLabels label (ext.filterMap Event.parsedValue)

/-- The sample world where the release of chart `a` comes with two descriptor
files; a descriptor decodes to its own contents as minimal version, as single
category and as single label key. -/
def worldTwoDescriptors : World :=
  { sampleWorld indexA with
    FetchLocalFiles := fun _ _ =>
      .ok [{ Name := "a/catalog.yml", Contents := "first" },
           { Name := "a/questions.yml", Contents := "second" }]
    yamlUnmarshal := fun contents =>
      .ok { RancherMin := contents, RancherMax := "", Categories := [contents],
            Namespace := "", Labels := AList.insert contents "yes" ∅ } }

/-- The variables of the version loop before the first release. -/
def sampleAcc : BuildAcc :=
  { label := ∅, keywords := ∅, versions := [], errs := [], trace := [] }

/-- An index whose chart `a` has the releases `1.0.0`, `1.1.0` and `2.0.0`. -/
def indexThreeVersions : GoMap ChartVersions :=
  AList.insert "a" [release "1.0.0" "x", release "1.1.0" "y", release "2.0.0" "z"] ∅

/-- The sample world where chart `a` has the releases `1.0.0` and `2.0.0`, each
with one descriptor file; the descriptor of a release carries the label `tier`
with the version of the release as value, and the version itself as a second
label key. -/
def worldLabels : World :=
  { sampleWorld (AList.insert "a" [release "1.0.0" "x", release "2.0.0" "y"] ∅) with
    FetchLocalFiles := fun _ version => .ok [{ Name := "a/catalog.yml", Contents := version.Version }]
    yamlUnmarshal := fun contents =>
      .ok { RancherMin := "", RancherMax := "", Categories := [], Namespace := "",
            Labels := (AList.insert contents "yes" ∅).insert "tier" contents } }

/-- An index whose chart `a` has an empty release list. -/
def indexEmptyReleases : GoMap ChartVersions :=
  AList.insert "a" [] ∅

/-! ## Node-driver whitelist (`whitelistproxy/nodedriver/nodedriver.go`) -/

/-- The fields of `v3.NodeDriver` that `sync` reads. -/
structure NodeDriver where
  /-- Go `*metav1.Time`: `none` is the nil pointer. -/
  DeletionTimestamp : Option String := none
  /-- The field `Spec.WhitelistDomains`. -/
  WhitelistDomains : List String := []
  deriving DecidableEq, Repr

/-- A call on `whitelist.Proxy`. -/
inductive ProxyCall where
  | Add (domain : String)
  | Rm (domain : String)
  deriving DecidableEq, Repr

/-- The package `server/whitelist` is not part of the sources: the two operations
of `whitelist.Proxy` on its state are parameters. -/
structure WhitelistProxy (σ : Type) where
  Add : String → σ → σ
  Rm : String → σ → σ

/-- The state of `whitelist.Proxy` and the calls made on it so far. -/
structure ProxyState (σ : Type) where
  state : σ
  calls : List ProxyCall

/-- A call of `whitelist.Proxy.Add`. -/
def ProxyState.add {σ : Type} (proxy : WhitelistProxy σ) (s : ProxyState σ) (d : String) :
    ProxyState σ :=
  { state := proxy.Add d s.state, calls := s.calls ++ [ProxyCall.Add d] }

/-- A call of `whitelist.Proxy.Rm`. -/
def ProxyState.rm {σ : Type} (proxy : WhitelistProxy σ) (s : ProxyState σ) (d : String) :
    ProxyState σ :=
  { state := proxy.Rm d s.state, calls := s.calls ++ [ProxyCall.Rm d] }

/-- Go `sync` (nodedriver.go lines 16–31): the returned pair `(runtime.Object, error)`,
both `none` for nil, and the whitelist after the call.  A nil `nodeDriver` is `none`. -/
def sync {σ : Type} (proxy : WhitelistProxy σ) (key : String) (nodeDriver : Option NodeDriver)
    (s : ProxyState σ) : (Option NodeDriver × Option GoError) × ProxyState σ :=
  if key = "" then ((none, none), s)
  else
    match nodeDriver with
    | none => ((none, none), s)
    | some nd =>
      if nd.DeletionTimestamp ≠ none then
        ((none, none), nd.WhitelistDomains.foldl (ProxyState.rm proxy) s)
      else
        ((none, none), nd.WhitelistDomains.foldl (ProxyState.add proxy) s)

/-- The template name of a lookup that failed with an error other than a not-found
error. -/
def Event.lookupFailure : Event → Option String
  | .templateListerGet _ name (.error err) => if err.isNotFound then none else some name
  | _ => none

/-- The chart was taken out of the new snapshot at line 238: its create or its
update failed, or the lookup of its template (a name derived from the chart and
the catalog name of the moment) failed with an error other than a not-found
error. -/
def Dropped (w : World) (trace : List Event) (chart : String) : Prop :=
  (∃ e ∈ trace, e.failedChart = some chart) ∨
  ∃ e ∈ trace, ∃ catalogName,
    e.lookupFailure = some (w.getValidTemplateName catalogName chart)

/-- Every chart whose iteration is over is a key of the new snapshot or was taken
out of it at line 238. -/
def Accounted (w : World) (done : List String) (st : LoopState) : Prop :=
  ∀ chart ∈ done, chart ∈ st.newHelmVersionCommits ∨ Dropped w st.trace chart

/-- The index `{nginx: [{version 1.0.0, digest a}]}`. -/
def indexNginx : GoMap ChartVersions := AList.insert "nginx" [release "1.0.0" "a"] ∅

/-- The sample world with the index `indexNginx` where `helm.Icon` fails. -/
def worldIconFails : World :=
  { sampleWorld indexNginx with
    Icon := fun _ _ => .error { text := "icon not reachable", isNotFound := false } }

/-- The release and the files of a successful `helm.FetchLocalFiles` call. -/
def Event.fetched : Event → Option (ChartVersion × List File)
  | .FetchLocalFiles version (.ok files) => some (version, files)
  | _ => none

/-- The descriptors of the files fetched by the calls of a trace: call after call
(release after release), and for each call in the order of the fetched list, the
descriptor of every file that has a supported name for the chart and parses. -/
def fetchedDescriptors (w : World) (chart : String) (trace : List Event) : List catalogYml :=
  (trace.filterMap Event.fetched).flatMap fun p =>
    p.2.filterMap (parsedDescriptor w chart supportedFiles)

/-! ## Library `fmt`: `Sprintf` of a format with no operand (line 293) -/

/-- Library `fmt.tooLarge`, for the numbers read by `parsenum` (never negative). -/
def tooLarge (x : Nat) : Bool := decide (x > 1000000)

/-- Library `fmt.parsenum` on the text from `start` to `end`: the number read so
far, whether a digit was read, and the text that is left; on overflow the function
answers `end`, so nothing is left. -/
def parsenum : List Char → Nat → Bool → Nat × Bool × List Char
  | [], num, isnum => (num, isnum, [])
  | c :: rest, num, isnum =>
    if c.isDigit then
      if tooLarge num then (0, false, [])
      else parsenum rest (num * 10 + (c.toNat - 48)) true
    else (num, isnum, c :: rest)

/-- Library `fmt.parseArgNumber` on a text that starts with `[`: the number of
characters to skip and whether the text starts with a well-formed `[n]`. -/
def parseArgNumber (format : List Char) : Nat × Bool :=
  if format.length < 3 then (1, false)
  else
    let inner := (format.drop 1).takeWhile fun c => c != ']'
    if inner.length + 1 < format.length then
      match parsenum inner 0 false with
      | (_, ok, left) => if !ok || !left.isEmpty then (inner.length + 2, false)
                         else (inner.length + 2, true)
    else (1, false)

/-- Library `fmt.(*pp).argNumber` when the call has no operand: the text that is
left, whether an index `[n]` was found, and the new value of `goodArgNum` (no index
is in range, so an index always clears it). -/
def argNumber (format : List Char) (goodArgNum : Bool) : List Char × Bool × Bool :=
  if format.head? = some '[' then
    match parseArgNumber format with
    | (wid, ok) => (format.drop wid, ok, false)
  else (format, false, goodArgNum)

/-- The width of a verb in `fmt.(*pp).doPrintf` when the call has no operand: what
is written, the text that is left, `afterIndex` and `goodArgNum`. -/
def printWidth (format : List Char) (afterIndex goodArgNum : Bool) :
    List Char × List Char × Bool × Bool :=
  if format.head? = some '*' then ("%!(BADWIDTH)".data, format.drop 1, false, goodArgNum)
  else
    match parsenum format 0 false with
    | (_, widPresent, left) =>
      ([], left, afterIndex, if afterIndex && widPresent then false else goodArgNum)

/-- The precision of a verb in `fmt.(*pp).doPrintf` when the call has no operand. -/
def printPrecision (format : List Char) (afterIndex goodArgNum : Bool) :
    List Char × List Char × Bool × Bool :=
  if format.head? = some '.' then
    match argNumber (format.drop 1) (if afterIndex then false else goodArgNum) with
    | (left, afterIndex, goodArgNum) =>
      if left.head? = some '*' then ("%!(BADPREC)".data, left.drop 1, false, goodArgNum)
      else
        match parsenum left 0 false with
        | (_, _, left) => ([], left, afterIndex, goodArgNum)
  else ([], format, afterIndex, goodArgNum)

/-- One verb of `fmt.(*pp).doPrintf` when the call has no operand; `format` is the
text after the `%`.  The result is what is written and the text that is left, `none`
when the format ends without a verb (the loop stops). -/
def printVerb (format : List Char) : List Char × Option (List Char) :=
  let afterFlags := format.dropWhile
    fun c => c == '#' || c == '0' || c == '+' || c == '-' || c == ' '
  match argNumber afterFlags true with
  | (left, afterIndex, goodArgNum) =>
    match printWidth left afterIndex goodArgNum with
    | (out1, left, afterIndex, goodArgNum) =>
      match printPrecision left afterIndex goodArgNum with
      | (out2, left, afterIndex, goodArgNum) =>
        match (if afterIndex then (left, afterIndex, goodArgNum)
               else argNumber left goodArgNum) with
        | (left, _, goodArgNum) =>
          match left with
          | [] => (out1 ++ out2 ++ "%!(NOVERB)".data, none)
          | verb :: left =>
            if verb = '%' then (out1 ++ out2 ++ ['%'], some left)
            else if !goodArgNum then
              (out1 ++ out2 ++ "%!".data ++ [verb] ++ "(BADINDEX)".data, some left)
            else (out1 ++ out2 ++ "%!".data ++ [verb] ++ "(MISSING)".data, some left)

/-- Library `fmt.(*pp).doPrintf` when the call has no operand.  Every step takes at
least one character of the format, so the length of the format is enough fuel. -/
def doPrintf : Nat → List Char → List Char
  | 0, _ => []
  | _ + 1, [] => []
  | fuel + 1, c :: rest =>
    if c = '%' then
      match printVerb rest with
      | (out, none) => out
      | (out, some left) => out ++ doPrintf fuel left
    else c :: doPrintf fuel rest

/-- Library `fmt.Sprintf(format)`, no operand. -/
def Sprintf (format : String) : String :=
  String.mk (doPrintf format.length format.data)

/-- The text of an error value (`Error()`), `none` for `nil`: `errors.Errorf(format)`
renders its format with `fmt.Sprintf`. -/
def Returned.text : Returned → Option String
  | .nil => none
  | .err e => some e.text
  | .new text => some text
  | .errorf format => some (Sprintf format)
  | .forgetError text => some text

/-- The text of the error a run returns. -/
def Run.errorText (r : Run) : Option String :=
  match r.outcome with
  | .returned x => x.text
  | .panic => none

/-- The sample world where the creation of the template of chart `a` fails with an
error whose text is `%d`. -/
def worldCreateFailsPercent : World :=
  { sampleWorld indexAB with
    createTemplate := fun _ template _ =>
      if template.DisplayName = "a" then some { text := "%d", isNotFound := false } else none }

/-! # Theorems -/

/-! ## Change detector -/

theorem detect_foldl_versionNumber (existing : GoMap String) (metadata : ChartVersions)
    (d : Detect) :
    (metadata.foldl (detectStep existing) d).versionNumber =
      d.versionNumber + (metadata.filter fun v => (existing.lookup v.Version).isSome).length := by
  induction metadata generalizing d with
  | nil => simp
  | cons v rest ih =>
    rw [List.foldl_cons, ih]
    cases h : existing.lookup v.Version <;> simp [detectStep, h, List.filter_cons]
    omega

theorem detect_foldl_hasChanged (existing : GoMap String) (metadata : ChartVersions)
    (d : Detect) :
    (metadata.foldl (detectStep existing) d).hasChanged = true ↔
      d.hasChanged = true ∨ ∃ v ∈ metadata, existing.lookup v.Version ≠ some v.Digest := by
  induction metadata generalizing d with
  | nil => simp
  | cons v rest ih =>
    rw [List.foldl_cons, ih]
    cases h : existing.lookup v.Version with
    | none => simp [detectStep, h]
    | some digest =>
      by_cases hd : digest = v.Digest
      · simp [detectStep, h, hd]
      · simp [detectStep, h, hd]

/-- C1: after the detection loop and the count check, `hasChanged` is true exactly
when some release has a version that is not a key of the old map or whose digest
differs from the old one, or the number of releases whose version is a key of the
old map differs from the number of keys of the old map; the old map is empty when
the snapshot has no entry for the chart. -/
theorem hasChanged_iff (existing : GoMap String) (metadata : ChartVersions) :
    (∀ (catalog : Catalog) (chart : String),
        catalog.Status.HelmVersionCommits.lookup chart = none →
          existingHelmVersionCommits catalog chart = ∅) ∧
    (hasChanged existing metadata = true ↔
      (∃ v ∈ metadata, v.Version ∉ existing ∨
          ∃ digest, existing.lookup v.Version = some digest ∧ digest ≠ v.Digest) ∨
        (metadata.filter fun v => decide (v.Version ∈ existing)).length ≠ existing.len) := by
  refine ⟨fun catalog chart h => by simp [existingHelmVersionCommits, h], ?_⟩
  have hfilter : (metadata.filter fun v => decide (v.Version ∈ existing)) =
      metadata.filter fun v => (existing.lookup v.Version).isSome := by
    apply List.filter_congr
    intro v _
    by_cases hm : v.Version ∈ existing
    · simp [hm, AList.lookup_isSome.mpr hm]
    · have hn : existing.lookup v.Version = none := AList.lookup_eq_none.mpr hm
      simp [hm, hn]
  have hrel : ∀ v : ChartVersion, existing.lookup v.Version ≠ some v.Digest ↔
      (v.Version ∉ existing ∨
        ∃ digest, existing.lookup v.Version = some digest ∧ digest ≠ v.Digest) := by
    intro v
    cases h : existing.lookup v.Version with
    | none => simp [AList.lookup_eq_none.mp h]
    | some digest =>
      have : v.Version ∈ existing := AList.lookup_isSome.mp (by simp [h])
      simp [this]
  unfold hasChanged detectLoop
  simp only [detect_foldl_versionNumber, hfilter]
  by_cases hc : (metadata.filter fun v => (existing.lookup v.Version).isSome).length = existing.len
  · simp [hc, detect_foldl_hasChanged, hrel]
  · simp [hc]

/-! ## Frame lemmas: what each block adds to the trace -/

theorem BuildExt.same (trace : List Event) (errs : List GoError) :
    BuildExt trace errs trace errs :=
  ⟨[], by simp, by simp, by simp [yamlFailures]⟩

theorem BuildExt.trans {t0 t1 t2 : List Event} {e0 e1 e2 : List GoError}
    (h1 : BuildExt t0 e0 t1 e1) (h2 : BuildExt t1 e1 t2 e2) : BuildExt t0 e0 t2 e2 := by
  obtain ⟨x, rfl, hx, rfl⟩ := h1
  obtain ⟨y, rfl, hy, rfl⟩ := h2
  refine ⟨x ++ y, by simp, ?_, by simp [yamlFailures]⟩
  intro e he
  rcases List.mem_append.mp he with h | h
  · exact hx e h
  · exact hy e h

theorem scanSupported_ext (w : World) (chart : String) (file : File) (names : List String)
    (s : FileScan) :
    BuildExt s.trace s.errs (scanSupported w chart file names s).trace
      (scanSupported w chart file names s).errs := by
  induction names generalizing s with
  | nil => exact BuildExt.same _ _
  | cons f rest ih =>
    unfold scanSupported
    split
    · cases hres : w.yamlUnmarshal file.Contents with
      | error err =>
        simp only
        refine BuildExt.trans ?_ (ih _)
        exact ⟨[Event.yamlUnmarshal file.Contents (.error err)], rfl, by simp [Event.isBuild],
          by simp [yamlFailures, Event.yamlFailure]⟩
      | ok value =>
        simp only
        exact ⟨[Event.yamlUnmarshal file.Contents (.ok value)], rfl, by simp [Event.isBuild],
          by simp [yamlFailures, Event.yamlFailure]⟩
    · exact ih s

theorem scanFiles_ext (w : World) (chart : String) (files : List File) (s : FileScan) :
    BuildExt s.trace s.errs (scanFiles w chart files s).trace (scanFiles w chart files s).errs := by
  induction files generalizing s with
  | nil => exact BuildExt.same _ _
  | cons file rest ih =>
    simp only [scanFiles, List.foldl_cons]
    exact BuildExt.trans (scanSupported_ext w chart file supportedFiles s) (ih _)

theorem buildVersion_next {w : World} {catalog : Catalog} {catalogType ns chart : String}
    {template : CatalogTemplate} {acc acc1 : BuildAcc} {version : ChartVersion}
    (h : buildVersion w catalog catalogType ns chart template acc version = .next acc1) :
    BuildExt acc.trace acc.errs acc1.trace acc1.errs := by
  unfold buildVersion at h
  cases hres : w.FetchLocalFiles acc.trace version with
  | error err => simp [hres] at h
  | ok files =>
    simp only [hres] at h
    injection h with h
    subst h
    refine BuildExt.trans ?_ (scanFiles_ext w chart files _)
    exact ⟨[Event.FetchLocalFiles version (.ok files)], rfl, by simp [Event.isBuild],
      by simp [yamlFailures, Event.yamlFailure]⟩

theorem buildVersion_exit {w : World} {catalog : Catalog} {catalogType ns chart : String}
    {template : CatalogTemplate} {acc : BuildAcc} {version : ChartVersion} {r : Run}
    (h : buildVersion w catalog catalogType ns chart template acc version = .exit r) :
    ∃ ext, r.trace = acc.trace ++ ext ∧ ∀ e ∈ ext, e.isBuild = true := by
  unfold buildVersion at h
  cases hres : w.FetchLocalFiles acc.trace version with
  | error err =>
    simp only [hres] at h
    injection h with h
    subst h
    exact ⟨[Event.FetchLocalFiles version (.error err)], rfl, by simp [Event.isBuild]⟩
  | ok files => simp [hres] at h

theorem buildVersions_next {w : World} {catalog : Catalog} {catalogType ns chart : String}
    {template : CatalogTemplate} {metadata : ChartVersions} {acc acc1 : BuildAcc}
    (h : buildVersions w catalog catalogType ns chart template metadata acc = .next acc1) :
    BuildExt acc.trace acc.errs acc1.trace acc1.errs := by
  induction metadata generalizing acc with
  | nil =>
    simp only [buildVersions] at h
    injection h with h
    subst h
    exact BuildExt.same _ _
  | cons version rest ih =>
    simp only [buildVersions] at h
    cases hv : buildVersion w catalog catalogType ns chart template acc version with
    | exit r => simp [hv] at h
    | next acc2 =>
      simp only [hv] at h
      exact BuildExt.trans (buildVersion_next hv) (ih h)

theorem buildVersions_exit {w : World} {catalog : Catalog} {catalogType ns chart : String}
    {template : CatalogTemplate} {metadata : ChartVersions} {acc : BuildAcc} {r : Run}
    (h : buildVersions w catalog catalogType ns chart template metadata acc = .exit r) :
    ∃ ext, r.trace = acc.trace ++ ext ∧ ∀ e ∈ ext, e.isBuild = true := by
  induction metadata generalizing acc with
  | nil => simp [buildVersions] at h
  | cons version rest ih =>
    simp only [buildVersions] at h
    cases hv : buildVersion w catalog catalogType ns chart template acc version with
    | exit r1 =>
      simp only [hv] at h
      injection h with h
      subst h
      exact buildVersion_exit hv
    | next acc2 =>
      simp only [hv] at h
      obtain ⟨x, hx0, hx, -⟩ := buildVersion_next hv
      obtain ⟨y, hy, hy2⟩ := ih h
      refine ⟨x ++ y, by simp [hy, hx0], ?_⟩
      intro e he
      rcases List.mem_append.mp he with h1 | h1
      · exact hx e h1
      · exact hy2 e h1

theorem scopeTemplate_ok {w : World} {catalogType : String} {catalog : Catalog}
    {projectCatalog : Option ProjectCatalog} {clusterCatalog : Option ClusterCatalog}
    {template t : CatalogTemplate}
    (h : scopeTemplate w catalogType catalog projectCatalog clusterCatalog template = .ok t) :
    t.DisplayName = template.DisplayName ∧ t.Name = template.Name ∧
      t.Namespace = template.Namespace := by
  unfold scopeTemplate at h
  split at h
  · injection h with h; subst h; simp
  · split at h
    · split at h
      · simp at h
      · split at h
        · simp at h
        · injection h with h; subst h; simp
    · split at h
      · split at h
        · simp at h
        · split at h
          · simp at h
          · split at h
            · simp at h
            · injection h with h; subst h; simp
      · injection h with h; subst h; simp

theorem buildTemplate_next {w : World} {catalogType ns : String} {st st1 : LoopState}
    {chart : String} {metadata : ChartVersions} {t : CatalogTemplate}
    (h : buildTemplate w catalogType ns st chart metadata = .next (st1, t)) :
    (∃ errs1 trace1, st1 = { st with errs := errs1, trace := trace1 } ∧
        BuildExt st.trace st.errs trace1 errs1) ∧
      t.DisplayName = chart ∧ t.Name = w.getValidTemplateName st.catalog.Name chart ∧
      t.Namespace = ns ∧ metadata ≠ [] := by
  unfold buildTemplate at h
  cases metadata with
  | nil => simp at h
  | cons first rest =>
    simp only at h
    cases hicon : w.Icon st.trace (first :: rest) with
    | error err => simp [hicon] at h
    | ok icon =>
      obtain ⟨iconFilename, iconURL⟩ := icon
      simp only [hicon] at h
      split at h
      · simp at h
      · rename_i acc hacc
        split at h
        · simp at h
        · rename_i t1 hscope
          injection h with h
          injection h with h1 h2
          subst h1 h2
          obtain ⟨hd, hn, hns⟩ := scopeTemplate_ok hscope
          refine ⟨⟨acc.errs, acc.trace, rfl, ?_⟩, by simp [hd], by simp [hn], by simp [hns],
            by simp⟩
          refine BuildExt.trans ?_ (buildVersions_next hacc)
          exact ⟨[Event.Icon (first :: rest) (.ok (iconFilename, iconURL))], rfl,
            by simp [Event.isBuild], by simp [yamlFailures, Event.yamlFailure]⟩

theorem buildTemplate_exit {w : World} {catalogType ns : String} {st : LoopState}
    {chart : String} {metadata : ChartVersions} {r : Run}
    (h : buildTemplate w catalogType ns st chart metadata = .exit r) :
    ∃ ext, r.trace = st.trace ++ ext ∧ ∀ e ∈ ext, e.isBuild = true := by
  unfold buildTemplate at h
  cases metadata with
  | nil =>
    simp only at h
    injection h with h
    subst h
    exact ⟨[], by simp, by simp⟩
  | cons first rest =>
    simp only at h
    cases hicon : w.Icon st.trace (first :: rest) with
    | error err =>
      simp only [hicon] at h
      injection h with h
      subst h
      exact ⟨[Event.Icon (first :: rest) (.error err)], rfl, by simp [Event.isBuild]⟩
    | ok icon =>
      obtain ⟨iconFilename, iconURL⟩ := icon
      simp only [hicon] at h
      have hIcon : ∀ e ∈ [Event.Icon (first :: rest) (.ok (iconFilename, iconURL))],
          e.isBuild = true := by simp [Event.isBuild]
      split at h
      · rename_i r1 hacc
        injection h with h
        subst h
        obtain ⟨y, hy, hy2⟩ := buildVersions_exit hacc
        refine ⟨[Event.Icon (first :: rest) (.ok (iconFilename, iconURL))] ++ y,
          by simp [hy], ?_⟩
        intro e he
        rcases List.mem_append.mp he with h1 | h1
        · exact hIcon e h1
        · exact hy2 e h1
      · rename_i acc hacc
        obtain ⟨y, hy, hy2, -⟩ := buildVersions_next hacc
        split at h
        · injection h with h
          subst h
          refine ⟨[Event.Icon (first :: rest) (.ok (iconFilename, iconURL))] ++ y,
            by simpa using hy, ?_⟩
          intro e he
          rcases List.mem_append.mp he with h1 | h1
          · exact hIcon e h1
          · exact hy2 e h1
        · simp at h

/-! ## The invariant of the package loop -/

theorem isNeutral_of_isBuild {e : Event} (h : e.isBuild = true) : e.isNeutral = true := by
  cases e <;> simp_all [Event.isBuild, Event.isNeutral]

theorem neutral_facts {e : Event} (h : e.isNeutral = true) :
    e.createFailure = none ∧ e.updateFailure = none ∧ e.isFinalPersist = false ∧
      e.failedChart = none ∧ e.succeededChart = none := by
  cases e with
  | updateCatalogInfo cmt ct tn c u res =>
    cases u <;> simp_all [Event.isNeutral, Event.createFailure, Event.updateFailure,
      Event.isFinalPersist, Event.failedChart, Event.succeededChart]
  | createTemplate t c res => simp [Event.isNeutral] at h
  | updateTemplate x t res => simp [Event.isNeutral] at h
  | _ => simp [Event.createFailure, Event.updateFailure,
      Event.isFinalPersist, Event.failedChart, Event.succeededChart]

theorem filterMap_neutral {f : Event → Option GoError} {ext : List Event}
    (h : ∀ e ∈ ext, f e = none) : ext.filterMap f = [] := by
  induction ext with
  | nil => rfl
  | cons e rest ih =>
    have he : f e = none := h e (by simp)
    simp only [List.filterMap_cons, he]
    exact ih fun x hx => h x (by simp [hx])

theorem HoldsDigests.of_lookup_eq {s1 s2 : GoMap VersionCommits} {chart : String}
    {metadata : ChartVersions} (h : HoldsDigests s1 chart metadata)
    (heq : s2.lookup chart = s1.lookup chart) : HoldsDigests s2 chart metadata := by
  obtain ⟨value, hv, hc⟩ := h
  exact ⟨value, by rw [heq, hv], hc⟩

/-- Neutral calls keep the invariant; `errs` follows the failed `yaml.Unmarshal` calls. -/
theorem Inv.neutral {entries : GoMap ChartVersions} {done : List String}
    {snapshot : GoMap VersionCommits} {ce ue errs : List GoError} {trace ext : List Event}
    (h : Inv entries done snapshot ce ue errs trace) (hn : ∀ e ∈ ext, e.isNeutral = true) :
    Inv entries done snapshot ce ue (errs ++ yamlFailures ext) (trace ++ ext) where
  createErrors := by
    rw [createFailures, List.filterMap_append,
      filterMap_neutral fun e he => (neutral_facts (hn e he)).1]
    simpa [createFailures] using h.createErrors
  updateErrors := by
    rw [updateFailures, List.filterMap_append,
      filterMap_neutral fun e he => (neutral_facts (hn e he)).2.1]
    simpa [updateFailures] using h.updateErrors
  errs := by
    simp [yamlFailures, List.filterMap_append, h.errs]
  noFinal := by
    intro e he
    rcases List.mem_append.mp he with h1 | h1
    · exact h.noFinal e h1
    · exact (neutral_facts (hn e h1)).2.2.1
  keys := h.keys
  content := h.content
  failed := by
    intro e he chart hc
    rcases List.mem_append.mp he with h1 | h1
    · exact h.failed e h1 chart hc
    · rw [(neutral_facts (hn e h1)).2.2.2.1] at hc
      cases hc
  succeeded := by
    intro e he chart hc
    rcases List.mem_append.mp he with h1 | h1
    · exact h.succeeded e h1 chart hc
    · rw [(neutral_facts (hn e h1)).2.2.2.2] at hc
      cases hc

/-- Line 57 with lines 68–69: a chart that was not visited gets its entry. -/
theorem Inv.insert {entries : GoMap ChartVersions} {done : List String}
    {snapshot : GoMap VersionCommits} {ce ue errs : List GoError} {trace : List Event}
    (h : Inv entries done snapshot ce ue errs trace) {chart : String} (hfresh : chart ∉ done)
    {metadata : ChartVersions} (hentry : entries.lookup chart = some metadata)
    {value : GoMap String} (hvalue : ∀ version, value.lookup version = lastDigest metadata version) :
    Inv entries (chart :: done) (snapshot.insert chart ⟨some value⟩) ce ue errs trace where
  createErrors := h.createErrors
  updateErrors := h.updateErrors
  errs := h.errs
  noFinal := h.noFinal
  keys := by
    intro c hc
    rcases (AList.mem_insert _).mp hc with h1 | h1
    · simp [h1]
    · exact List.mem_cons_of_mem _ (h.keys c h1)
  content := by
    intro c hc
    by_cases hcc : c = chart
    · subst hcc
      exact ⟨metadata, hentry, value, by simp, hvalue⟩
    · rcases (AList.mem_insert _).mp hc with h1 | h1
      · exact absurd h1 hcc
      · obtain ⟨md, hmd, hd⟩ := h.content c h1
        exact ⟨md, hmd, hd.of_lookup_eq (AList.lookup_insert_ne hcc)⟩
  failed := by
    intro e he c hc
    obtain ⟨h1, h2⟩ := h.failed e he c hc
    refine ⟨List.mem_cons_of_mem _ h1, ?_⟩
    intro hmem
    rcases (AList.mem_insert _).mp hmem with h3 | h3
    · exact hfresh (h3 ▸ h1)
    · exact h2 h3
  succeeded := by
    intro e he c hc
    exact (AList.mem_insert _).mpr (Or.inr (h.succeeded e he c hc))

/-- Line 238 on its own: deleting the entry of a chart none of whose calls succeeded. -/
theorem Inv.erase {entries : GoMap ChartVersions} {done : List String}
    {snapshot : GoMap VersionCommits} {ce ue errs : List GoError} {trace : List Event}
    (h : Inv entries done snapshot ce ue errs trace) {chart : String}
    (hnone : ∀ e ∈ trace, e.succeededChart ≠ some chart) :
    Inv entries done (snapshot.erase chart) ce ue errs trace where
  createErrors := h.createErrors
  updateErrors := h.updateErrors
  errs := h.errs
  noFinal := h.noFinal
  keys := fun c hc => h.keys c (AList.mem_erase.mp hc).2
  content := by
    intro c hc
    obtain ⟨hne, hmem⟩ := AList.mem_erase.mp hc
    obtain ⟨md, hmd, hd⟩ := h.content c hmem
    exact ⟨md, hmd, hd.of_lookup_eq (AList.lookup_erase_ne hne)⟩
  failed := by
    intro e he c hc
    obtain ⟨h1, h2⟩ := h.failed e he c hc
    exact ⟨h1, fun hmem => h2 (AList.mem_erase.mp hmem).2⟩
  succeeded := by
    intro e he c hc
    refine AList.mem_erase.mpr ⟨?_, h.succeeded e he c hc⟩
    rintro rfl
    exact hnone e he hc

/-- One more call of the store, with the bookkeeping of lines 221–235. -/
theorem Inv.event {entries : GoMap ChartVersions} {done : List String}
    {snapshot : GoMap VersionCommits} {ce ue errs : List GoError} {trace : List Event}
    (h : Inv entries done snapshot ce ue errs trace) (e : Event)
    (hfinal : e.isFinalPersist = false) (hyaml : e.yamlFailure = none)
    (hfailed : ∀ chart, e.failedChart = some chart → chart ∈ done ∧ chart ∉ snapshot)
    (hsucceeded : ∀ chart, e.succeededChart = some chart → chart ∈ snapshot) :
    Inv entries done snapshot (ce ++ e.createFailure.toList) (ue ++ e.updateFailure.toList) errs
      (trace ++ [e]) where
  createErrors := by
    rw [createFailures, List.filterMap_append, h.createErrors]
    cases hc : e.createFailure <;> simp [createFailures, hc]
  updateErrors := by
    rw [updateFailures, List.filterMap_append, h.updateErrors]
    cases hc : e.updateFailure <;> simp [updateFailures, hc]
  errs := by
    rw [yamlFailures, List.filterMap_append, h.errs]
    simp [yamlFailures, hyaml]
  noFinal := by
    intro x hx
    rcases List.mem_append.mp hx with h1 | h1
    · exact h.noFinal x h1
    · rw [List.mem_singleton.mp h1]; exact hfinal
  keys := h.keys
  content := h.content
  failed := by
    intro x hx c hc
    rcases List.mem_append.mp hx with h1 | h1
    · exact h.failed x h1 c hc
    · rw [List.mem_singleton.mp h1] at hc; exact hfailed c hc
  succeeded := by
    intro x hx c hc
    rcases List.mem_append.mp hx with h1 | h1
    · exact h.succeeded x h1 c hc
    · rw [List.mem_singleton.mp h1] at hc; exact hsucceeded c hc

theorem lastDigest_concat (metadata : ChartVersions) (r : ChartVersion) (version : String) :
    lastDigest (metadata ++ [r]) version =
      if r.Version = version then some r.Digest else lastDigest metadata version := by
  unfold lastDigest
  rw [List.reverse_append, List.reverse_singleton, List.singleton_append, List.find?_cons]
  by_cases h : r.Version = version
  · simp [h]
  · have hb : (r.Version == version) = false := by simpa using h
    simp [h, hb]

theorem detectStep_commits (existing : GoMap String) (d : Detect) (version : ChartVersion) :
    (detectStep existing d version).commits = d.commits.insert version.Version version.Digest := by
  unfold detectStep
  cases existing.lookup version.Version <;> rfl

/-- Lines 68–69: the new map of a chart records, for every version, the digest of
the last release that has it. -/
theorem detectLoop_commits_lookup (existing : GoMap String) (metadata : ChartVersions)
    (version : String) :
    (detectLoop existing metadata).commits.lookup version = lastDigest metadata version := by
  unfold detectLoop
  induction metadata using List.reverseRecOn with
  | nil => simp [lastDigest]
  | append_singleton rest r ih =>
    rw [List.foldl_append, List.foldl_cons, List.foldl_nil, detectStep_commits,
      lastDigest_concat]
    by_cases h : r.Version = version
    · subst h; simp
    · rw [AList.lookup_insert_ne (Ne.symm h), ih]; simp [h]

theorem refreshLocals_next {w : World} {commit : String} {cmt : CatalogInfo} {st st1 : LoopState}
    (h : refreshLocals w commit cmt st = .next st1) :
    ∃ catalog, cmt.catalog = some catalog ∧ w.isUpToDate commit catalog = false ∧
      st1 = { st with catalog := catalog, projectCatalog := cmt.projectCatalog,
                      clusterCatalog := cmt.clusterCatalog } := by
  unfold refreshLocals at h
  cases hc : cmt.catalog with
  | none => simp [hc] at h
  | some catalog =>
    simp only [hc] at h
    split at h
    · simp at h
    · split at h
      · simp at h
      · rename_i hup
        injection h with h
        exact ⟨catalog, rfl, by simpa using hup, h.symm⟩

theorem refreshLocals_exit {w : World} {commit : String} {cmt : CatalogInfo} {st : LoopState}
    {r : Run} (h : refreshLocals w commit cmt st = .exit r) : r.trace = st.trace := by
  unfold refreshLocals at h
  cases hc : cmt.catalog with
  | none => simp only [hc] at h; injection h with h; subst h; rfl
  | some catalog =>
    simp only [hc] at h
    split at h
    · injection h with h; subst h; rfl
    · split at h
      · injection h with h; subst h; rfl
      · simp at h

/-- Lines 218–239 keep the invariant, for a chart that has its entry and none of
whose calls succeeded so far. -/
theorem reconcile_inv {w : World} {entries : GoMap ChartVersions} {done : List String}
    {st : LoopState} {t : CatalogTemplate} (h : LoopInv entries done st)
    (hdone : t.DisplayName ∈ done) (hmem : t.DisplayName ∈ st.newHelmVersionCommits)
    (hnone : ∀ e ∈ st.trace, e.succeededChart ≠ some t.DisplayName) :
    LoopInv entries done (reconcile w st t) := by
  unfold LoopInv at h ⊢
  unfold reconcile
  have hget : ∀ got, ∀ e ∈ [Event.templateListerGet t.Namespace t.Name got],
      e.isNeutral = true := by
    intro got e he
    rw [List.mem_singleton.mp he]
    rfl
  have h1 : ∀ got, Inv entries done st.newHelmVersionCommits st.createErrors st.updateErrors
      st.errs (st.trace ++ [Event.templateListerGet t.Namespace t.Name got]) := by
    intro got
    have := h.neutral (hget got)
    simpa [yamlFailures, Event.yamlFailure] using this
  have hnone1 : ∀ got, ∀ e ∈ st.trace ++ [Event.templateListerGet t.Namespace t.Name got],
      e.succeededChart ≠ some t.DisplayName := by
    intro got e he
    rcases List.mem_append.mp he with h2 | h2
    · exact hnone e h2
    · rw [List.mem_singleton.mp h2]; simp [Event.succeededChart]
  have hnot : t.DisplayName ∉ st.newHelmVersionCommits.erase t.DisplayName := by
    intro hm
    exact (AList.mem_erase.mp hm).1 rfl
  cases hgot : w.templateListerGet st.trace t.Namespace t.Name with
  | error err =>
    simp only
    split
    · cases hres : w.createTemplate
          (st.trace ++ [Event.templateListerGet t.Namespace t.Name (.error err)]) t st.catalog with
      | some e =>
        simp only
        have := ((h1 (.error err)).erase (hnone1 _)).event
          (Event.createTemplate t st.catalog (some e)) rfl rfl
          (by intro c hc; simp only [Event.failedChart, Option.some.injEq] at hc
              subst hc; exact ⟨hdone, hnot⟩)
          (by intro c hc; simp [Event.succeededChart] at hc)
        simpa [Event.createFailure, Event.updateFailure] using this
      | none =>
        simp only
        have := (h1 (.error err)).event
          (Event.createTemplate t st.catalog none) rfl rfl
          (by intro c hc; simp [Event.failedChart] at hc)
          (by intro c hc; simp only [Event.succeededChart, Option.some.injEq] at hc
              subst hc; exact hmem)
        simpa [Event.createFailure, Event.updateFailure] using this
    · exact (h1 (.error err)).erase (hnone1 _)
  | ok existing =>
    simp only
    cases hres : w.updateTemplate
        (st.trace ++ [Event.templateListerGet t.Namespace t.Name (.ok existing)]) existing t with
    | some e =>
      simp only
      have := ((h1 (.ok existing)).erase (hnone1 _)).event
        (Event.updateTemplate existing t (some e)) rfl rfl
        (by intro c hc; simp only [Event.failedChart, Option.some.injEq] at hc
            subst hc; exact ⟨hdone, hnot⟩)
        (by intro c hc; simp [Event.succeededChart] at hc)
      simpa [Event.createFailure, Event.updateFailure] using this
    | none =>
      simp only
      have := (h1 (.ok existing)).event
        (Event.updateTemplate existing t none) rfl rfl
        (by intro c hc; simp [Event.failedChart] at hc)
        (by intro c hc; simp only [Event.succeededChart, Option.some.injEq] at hc
            subst hc; exact hmem)
      simpa [Event.createFailure, Event.updateFailure] using this

theorem noFinal_append_build {trace ext : List Event}
    (h : ∀ e ∈ trace, e.isFinalPersist = false) (hb : ∀ e ∈ ext, e.isBuild = true) :
    ∀ e ∈ trace ++ ext, e.isFinalPersist = false := by
  intro e he
  rcases List.mem_append.mp he with h1 | h1
  · exact h e h1
  · exact (neutral_facts (isNeutral_of_isBuild (hb e h1))).2.2.1

/-- One iteration of the package loop keeps the invariant, and a run that stops
inside it has made no final status persistence. -/
theorem processChart_inv (w : World) (commit : String) (cmt : CatalogInfo)
    (catalogType ns : String) {entries : GoMap ChartVersions} {done : List String}
    {st : LoopState} {chart : String} {metadata : ChartVersions}
    (h : LoopInv entries done st) (hfresh : chart ∉ done)
    (hentry : entries.lookup chart = some metadata) :
    match processChart w commit cmt catalogType ns st chart metadata with
    | .next st1 => LoopInv entries (chart :: done) st1
    | .exit r => ∀ e ∈ r.trace, e.isFinalPersist = false := by
  have hnone : ∀ e ∈ st.trace, e.succeededChart ≠ some chart := fun e he hc =>
    hfresh (h.keys chart (h.succeeded e he chart hc))
  have h1 := Inv.insert h hfresh hentry
    (detectLoop_commits_lookup (existingHelmVersionCommits st.catalog chart) metadata)
  have hmem : chart ∈ st.newHelmVersionCommits.insert chart
      ⟨some (detectLoop (existingHelmVersionCommits st.catalog chart) metadata).commits⟩ :=
    (AList.mem_insert _).mpr (Or.inl rfl)
  unfold processChart
  simp only
  by_cases hskip : (!hasChanged (existingHelmVersionCommits st.catalog chart) metadata &&
      w.hasAllUpdates st.catalog) = true
  · rw [if_pos hskip]
    exact h1
  · rw [if_neg hskip]
    cases hb : buildTemplate w catalogType ns
        { st with newHelmVersionCommits := (AList.insert chart (VersionCommits.mk (some
            (detectLoop (existingHelmVersionCommits st.catalog chart) metadata).commits))
            st.newHelmVersionCommits) }
        chart metadata with
    | exit r =>
      simp only
      obtain ⟨ext, hext, hbuild⟩ := buildTemplate_exit hb
      rw [hext]
      exact noFinal_append_build h.noFinal hbuild
    | next p =>
      obtain ⟨st2, t⟩ := p
      simp only
      obtain ⟨⟨errs1, trace1, hst2, ext, htrace, hbuild, herrs⟩, hname, -, -, -⟩ :=
        buildTemplate_next hb
      simp only at htrace herrs
      have h2 := h1.neutral fun e he => isNeutral_of_isBuild (hbuild e he)
      have hnone2 : ∀ e ∈ st.trace ++ ext, e.succeededChart ≠ some chart := by
        intro e he
        rcases List.mem_append.mp he with h3 | h3
        · exact hnone e h3
        · rw [(neutral_facts (isNeutral_of_isBuild (hbuild e h3))).2.2.2.2]; simp
      cases hr : refreshLocals w commit cmt st2 with
      | exit r =>
        simp only
        rw [refreshLocals_exit hr, hst2, htrace]
        exact h2.noFinal
      | next st3 =>
        simp only
        obtain ⟨catalog, -, -, hst3⟩ := refreshLocals_next hr
        apply reconcile_inv
        · subst hst3 hst2 htrace herrs
          exact h2
        · rw [hname]; simp
        · subst hst3 hst2
          rw [hname]; exact hmem
        · subst hst3 hst2 htrace
          rw [hname]; exact hnone2

/-- The package loop keeps the invariant: when it ends normally every chart of the
list is done; a run that stops inside it has made no final status persistence. -/
theorem packageLoop_inv (w : World) (commit : String) (cmt : CatalogInfo)
    (catalogType ns : String) {entries : GoMap ChartVersions}
    (rest : List (Σ _ : String, ChartVersions)) (done : List String) (st : LoopState)
    (h : LoopInv entries done st)
    (hentries : ∀ p ∈ rest, entries.lookup p.1 = some p.2)
    (hnodup : (rest.map fun p => p.1).Nodup) (hfresh : ∀ p ∈ rest, p.1 ∉ done) :
    match packageLoop w commit cmt catalogType ns rest st with
    | .next st1 => LoopInv entries ((rest.map fun p => p.1).reverse ++ done) st1
    | .exit r => ∀ e ∈ r.trace, e.isFinalPersist = false := by
  induction rest generalizing done st with
  | nil => simpa [packageLoop] using h
  | cons p rest ih =>
    obtain ⟨chart, metadata⟩ := p
    simp only [packageLoop]
    have hstep := processChart_inv w commit cmt catalogType ns h (hfresh ⟨chart, metadata⟩ (by simp))
      (hentries ⟨chart, metadata⟩ (by simp))
    cases hp : processChart w commit cmt catalogType ns st chart metadata with
    | exit r => simpa [hp] using hstep
    | next st1 =>
      simp only [hp] at hstep ⊢
      simp only [List.map_cons, List.nodup_cons] at hnodup
      have := ih (chart :: done) st1 hstep (fun q hq => hentries q (by simp [hq])) hnodup.2
        (by
          intro q hq hmem
          rcases List.mem_cons.mp hmem with h1 | h1
          · exact hnodup.1 (h1 ▸ List.mem_map_of_mem (fun p => p.1) hq)
          · exact hfresh q (by simp [hq]) h1)
      simpa [List.map_cons, List.reverse_cons, List.append_assoc] using this

/-! ## Pruning and the end of the run -/

theorem deleteLoop_next {w : World} {ns : String} {catalog : Catalog} (names : List String)
    {trace trace1 : List Event} (h : deleteLoop w ns catalog names trace = .next trace1) :
    ∃ ext, trace1 = trace ++ ext ∧ ∀ e ∈ ext, ∃ name res, e = Event.deleteChart name ns res := by
  induction names generalizing trace with
  | nil =>
    simp only [deleteLoop] at h
    injection h with h
    exact ⟨[], by simp [h], by simp⟩
  | cons name rest ih =>
    simp only [deleteLoop] at h
    cases hres : w.deleteChart trace name ns with
    | some err => simp [hres] at h
    | none =>
      simp only [hres] at h
      obtain ⟨ext, hext, hall⟩ := ih h
      refine ⟨Event.deleteChart name ns none :: ext, by simp [hext], ?_⟩
      intro e he
      rcases List.mem_cons.mp he with h1 | h1
      · exact ⟨name, none, h1⟩
      · exact hall e h1

theorem deleteLoop_exit {w : World} {ns : String} {catalog : Catalog} (names : List String)
    {trace : List Event} {r : Run} (h : deleteLoop w ns catalog names trace = .exit r) :
    ∃ ext, r.trace = trace ++ ext ∧ ∀ e ∈ ext, ∃ name res, e = Event.deleteChart name ns res := by
  induction names generalizing trace with
  | nil => simp [deleteLoop] at h
  | cons name rest ih =>
    simp only [deleteLoop] at h
    cases hres : w.deleteChart trace name ns with
    | some err =>
      simp only [hres] at h
      injection h with h
      subst h
      exact ⟨[Event.deleteChart name ns (some err)], rfl, by simp⟩
    | none =>
      simp only [hres] at h
      obtain ⟨ext, hext, hall⟩ := ih h
      refine ⟨Event.deleteChart name ns none :: ext, by simp [hext], ?_⟩
      intro e he
      rcases List.mem_cons.mp he with h1 | h1
      · exact ⟨name, none, h1⟩
      · exact hall e h1

theorem Inv.deletes {entries : GoMap ChartVersions} {done : List String}
    {snapshot : GoMap VersionCommits} {ce ue errs : List GoError} {trace ext : List Event}
    {ns : String} (h : Inv entries done snapshot ce ue errs trace)
    (hd : ∀ e ∈ ext, ∃ name res, e = Event.deleteChart name ns res) :
    Inv entries done snapshot ce ue errs (trace ++ ext) := by
  have hn : ∀ e ∈ ext, e.isNeutral = true := by
    intro e he
    obtain ⟨name, res, rfl⟩ := hd e he
    rfl
  have hy : yamlFailures ext = [] := by
    apply filterMap_neutral
    intro e he
    obtain ⟨name, res, rfl⟩ := hd e he
    rfl
  have := h.neutral hn
  rwa [hy, List.append_nil] at this

theorem errstrings_eq_nil_iff (createErrors updateErrors : List GoError) :
    errstrings createErrors updateErrors = [] ↔ createErrors = [] ∧ updateErrors = [] := by
  unfold errstrings
  cases createErrors <;> cases updateErrors <;> simp

theorem embedCatalog_catalog {α : Type} (catalog : Catalog) (pc : Option ProjectCatalog)
    (cc : Option ClusterCatalog) (f : Option ProjectCatalog → Option ClusterCatalog → α) :
    (match embedCatalog catalog pc cc with
      | (projectCatalog, clusterCatalog) => f projectCatalog clusterCatalog) =
      f (embedCatalog catalog pc cc).1 (embedCatalog catalog pc cc).2 := rfl

theorem setCondition_find_map (l : List CatalogCondition) (cond status : String)
    (message : Option String) (hany : l.any (fun c => c.CondType == cond) = true) :
    ∃ c, (l.map fun c => if c.CondType == cond then
            { c with Status := status, Message := message.getD c.Message } else c).find?
          (fun c => c.CondType == cond) = some c ∧ c.Status = status ∧
      ∀ m, message = some m → c.Message = m := by
  induction l with
  | nil => simp at hany
  | cons a rest ih =>
    by_cases ha : (a.CondType == cond) = true
    · refine ⟨{ a with Status := status, Message := message.getD a.Message }, ?_, rfl, ?_⟩
      · simp only [List.map_cons, List.find?_cons, ha, if_true]
      · intro m hm; simp [hm]
    · have hb : (a.CondType == cond) = false := by simpa using ha
      have hrest : rest.any (fun c => c.CondType == cond) = true := by
        simpa [List.any_cons, hb] using hany
      obtain ⟨c, hc, hs, hm⟩ := ih hrest
      refine ⟨c, ?_, hs, hm⟩
      simp only [List.map_cons, List.find?_cons, hb, Bool.false_eq_true, if_false]
      exact hc

theorem setCondition_find (conditions : Option (List CatalogCondition)) (cond status : String)
    (message : Option String) :
    ∃ conditions1 c, setCondition conditions cond status message = some conditions1 ∧
      conditions1.find? (fun c => c.CondType == cond) = some c ∧ c.Status = status ∧
      ∀ m, message = some m → c.Message = m := by
  unfold setCondition
  generalize conditions.getD [] = l
  by_cases hany : l.any (fun c => c.CondType == cond) = true
  · obtain ⟨c, hc, hs, hm⟩ := setCondition_find_map l cond status message hany
    exact ⟨_, c, by simp only [hany, if_true], hc, hs, hm⟩
  · refine ⟨_, ⟨cond, status, message.getD ""⟩, by simp only [hany]; rfl, ?_, rfl, ?_⟩
    · have hnone : l.find? (fun c => c.CondType == cond) = none := by
        rw [List.find?_eq_none]
        intro x hx hxc
        exact hany (List.any_eq_true.mpr ⟨x, hx, hxc⟩)
      simp [List.find?_append, hnone]
    · intro m hm; simp [hm]

theorem persistAndReturn_trace (w : World) (ct : String) (cond : Bool) (cmtF : CatalogInfo)
    (trace : List Event) (result : Returned) :
    (persistAndReturn w ct cond cmtF trace result).trace =
      trace ++ [Event.updateCatalogInfo cmtF ct "" cond true
        (w.updateCatalogInfo trace cmtF ct "" cond true)] := by
  unfold persistAndReturn
  cases w.updateCatalogInfo trace cmtF ct "" cond true <;> rfl

theorem persistAndReturn_persisted {w : World} {ct : String} {cond : Bool} {cmtF x : CatalogInfo}
    {trace : List Event} {result : Returned}
    (h : (persistAndReturn w ct cond cmtF trace result).persisted = some x) :
    x = cmtF ∧ (persistAndReturn w ct cond cmtF trace result).outcome = .returned result := by
  unfold Run.persisted at h
  rw [persistAndReturn_trace, List.getLast?_concat] at h
  unfold persistAndReturn
  cases hres : w.updateCatalogInfo trace cmtF ct "" cond true with
  | error err => simp [hres] at h
  | ok c =>
    simp only [hres] at h
    injection h with h
    exact ⟨h.symm, rfl⟩

theorem getStatus_setCondition (catalog : Catalog) (commit status : String)
    (message : Option String) :
    GetStatus CatalogConditionRefreshed
        { catalog with Status := { catalog.Status with
            Commit := commit
            Conditions := setCondition catalog.Status.Conditions CatalogConditionRefreshed status
              message } } = status ∧
      ∀ m, message = some m →
        GetMessage CatalogConditionRefreshed
          { catalog with Status := { catalog.Status with
              Commit := commit
              Conditions := setCondition catalog.Status.Conditions CatalogConditionRefreshed status
                message } } = m := by
  obtain ⟨l, c, h1, h2, h3, h4⟩ :=
    setCondition_find catalog.Status.Conditions CatalogConditionRefreshed status message
  constructor
  · simp only [GetStatus, h1, h2, h3]
  · intro m hm
    simp only [GetMessage, h1, h2, h4 m hm]

theorem setCatalogErrorState_catalog (cmt : CatalogInfo) (c : Catalog)
    (pc : Option ProjectCatalog) (cc : Option ClusterCatalog) :
    (setCatalogErrorState cmt c pc cc).catalog =
      some { c with Status := { c.Status with
        Commit := ""
        Conditions := setCondition c.Status.Conditions CatalogConditionRefreshed "False" none } } := by
  unfold setCatalogErrorState
  cases pc <;> cases cc <;> rfl

theorem setCatalogIgnoreErrorState_catalog (commit : String) (cmt : CatalogInfo) (c : Catalog)
    (pc : Option ProjectCatalog) (cc : Option ClusterCatalog) (msg : String) :
    (setCatalogIgnoreErrorState commit cmt c pc cc msg).catalog =
      some { c with Status := { c.Status with
        Commit := commit
        Conditions := setCondition c.Status.Conditions CatalogConditionRefreshed "False"
          (some msg) } } := by
  unfold setCatalogIgnoreErrorState
  cases pc <;> cases cc <;> rfl

/-- The three ways a run ends (lines 270–315), with the catalog that is handed to
the final persistence. -/
theorem endOfRun_eq (w : World) (commit : String) (cmt : CatalogInfo) (ct : String)
    (ews : List ChartsWithErrors) (st : LoopState) :
    ∃ cmtF catF cond result,
      endOfRun w commit cmt ct ews st = persistAndReturn w ct cond cmtF st.trace result ∧
      cmtF.catalog = some catF ∧
      catF.Status.HelmVersionCommits = st.newHelmVersionCommits ∧
      (((st.createErrors ≠ [] ∨ st.updateErrors ≠ []) ∧ cond = false ∧
          catF.Status.Commit = "" ∧ GetStatus CatalogConditionRefreshed catF = "False" ∧
          result = .errorf (stringsJoin ";" (errstrings st.createErrors st.updateErrors ++ [processInvalidChartErrors ews]))) ∨
        (st.createErrors = [] ∧ st.updateErrors = [] ∧ ews ≠ [] ∧ cond = false ∧
          catF.Status.Commit = commit ∧ GetStatus CatalogConditionRefreshed catF = "False" ∧
          GetMessage CatalogConditionRefreshed catF =
            "Error in chart(s): " ++ processInvalidChartErrors ews ∧
          result = .forgetError ("failed to sync templates. Multiple error(s) occurred: " ++
            processInvalidChartErrors ews)) ∨
        (st.createErrors = [] ∧ st.updateErrors = [] ∧ ews = [] ∧ cond = true ∧
          ((st.errs = [] ∧ catF.Status.Commit = commit ∧ result = .nil) ∨
            (st.errs ≠ [] ∧ catF.Status.Commit = "" ∧
              result = .new
                ("failed to sync templates. Resetting commit. Multiple error occurred: " ++
                  fmtErrors st.errs))))) := by
  unfold endOfRun
  simp only [embedCatalog_catalog]
  by_cases herr : errstrings st.createErrors st.updateErrors = []
  · have hce := (errstrings_eq_nil_iff _ _).mp herr
    by_cases hews : ews = []
    · rw [if_neg (by simp [hews]), if_neg (by simp [herr])]
      refine ⟨_, _, true, _, rfl, rfl, rfl, Or.inr (Or.inr ⟨hce.1, hce.2, hews, rfl, ?_⟩)⟩
      by_cases he : st.errs = []
      · exact Or.inl ⟨he, by simp [he], by simp [he]⟩
      · have hpos : st.errs.length > 0 := List.length_pos.mpr he
        exact Or.inr ⟨he, by simp [hpos], by simp [hpos]⟩
    · have hpos : ews.length > 0 := List.length_pos.mpr hews
      rw [if_pos (by simp [hpos, herr])]
      obtain ⟨h1, h2⟩ := getStatus_setCondition
        (setTraverseCompleted w { st.catalog with Status :=
          { st.catalog.Status with HelmVersionCommits := st.newHelmVersionCommits } })
        commit "False" (some ("Error in chart(s): " ++ processInvalidChartErrors ews))
      exact ⟨_, _, false, _, rfl, setCatalogIgnoreErrorState_catalog _ _ _ _ _ _, rfl,
        Or.inr (Or.inl ⟨hce.1, hce.2, hews, rfl, rfl, h1, h2 _ rfl, rfl⟩)⟩
  · have hpos : (errstrings st.createErrors st.updateErrors).length > 0 :=
      List.length_pos.mpr herr
    have hne : ¬ (st.createErrors = [] ∧ st.updateErrors = []) :=
      fun h => herr ((errstrings_eq_nil_iff _ _).mpr h)
    rw [if_neg (by simp [herr]), if_pos hpos]
    obtain ⟨h1, -⟩ := getStatus_setCondition
      (setTraverseCompleted w { st.catalog with Status :=
        { st.catalog.Status with HelmVersionCommits := st.newHelmVersionCommits } })
      "" "False" none
    refine ⟨_, _, false, _, rfl, setCatalogErrorState_catalog _ _ _ _, rfl,
      Or.inl ⟨?_, rfl, rfl, h1, rfl⟩⟩
    by_cases hc : st.createErrors = []
    · exact Or.inr fun hu => hne ⟨hc, hu⟩
    · exact Or.inl hc

/-! ## The whole run -/

theorem persisted_none_of_noFinal {r : Run} (h : ∀ e ∈ r.trace, e.isFinalPersist = false) :
    r.persisted = none := by
  unfold Run.persisted
  cases hl : r.trace.getLast? with
  | none => rfl
  | some e =>
    have he := h e (List.mem_of_getLast?_eq_some hl)
    cases e with
    | updateCatalogInfo cmt ct tn c u res =>
      cases u
      · rfl
      · simp [Event.isFinalPersist] at he
    | _ => rfl

theorem Inv.init (entries : GoMap ChartVersions) (trace : List Event)
    (h : ∀ e ∈ trace, ∃ cmt ct tn c res, e = Event.updateCatalogInfo cmt ct tn c false res) :
    Inv entries [] ∅ [] [] [] trace := by
  have hbase : Inv entries [] (∅ : GoMap VersionCommits) [] [] [] [] :=
    { createErrors := rfl
      updateErrors := rfl
      errs := rfl
      noFinal := by simp
      keys := by simp
      content := by simp
      failed := by simp
      succeeded := by simp }
  have hn : ∀ e ∈ trace, e.isNeutral = true := by
    intro e he
    obtain ⟨cmt, ct, tn, c, res, rfl⟩ := h e he
    rfl
  have hy : yamlFailures trace = [] := by
    apply filterMap_neutral
    intro e he
    obtain ⟨cmt, ct, tn, c, res, rfl⟩ := h e he
    rfl
  have := hbase.neutral hn
  simpa [hy] using this

/-- What is known of a run of lines 55–315 that reaches the final status
persistence and whose persistence succeeds. -/
theorem syncCharts_persisted {w : World} {commit : String} {cmt1 : CatalogInfo}
    {ct ns : String} {catalog : Catalog} {pc : Option ProjectCatalog}
    {cc : Option ClusterCatalog} {index : GoMap ChartVersions} {trace0 : List Event}
    {cmtF : CatalogInfo}
    (h0 : ∀ e ∈ trace0, ∃ cmt ct tn c res, e = Event.updateCatalogInfo cmt ct tn c false res)
    (h : (syncCharts w commit cmt1 ct ns catalog pc cc index trace0).persisted = some cmtF) :
    ∃ done st catF cond result,
      LoopInv (w.preprocessCatalog catalog index).2 done st ∧
      syncCharts w commit cmt1 ct ns catalog pc cc index trace0 =
        persistAndReturn w ct cond cmtF st.trace result ∧
      (syncCharts w commit cmt1 ct ns catalog pc cc index trace0).outcome = .returned result ∧
      cmtF.catalog = some catF ∧
      catF.Status.HelmVersionCommits = st.newHelmVersionCommits ∧
      (((st.createErrors ≠ [] ∨ st.updateErrors ≠ []) ∧ cond = false ∧
          catF.Status.Commit = "" ∧ GetStatus CatalogConditionRefreshed catF = "False" ∧
          result = .errorf (stringsJoin ";"
            (errstrings st.createErrors st.updateErrors ++ [processInvalidChartErrors (w.preprocessCatalog catalog index).1]))) ∨
        (st.createErrors = [] ∧ st.updateErrors = [] ∧
          (w.preprocessCatalog catalog index).1 ≠ [] ∧ cond = false ∧
          catF.Status.Commit = commit ∧ GetStatus CatalogConditionRefreshed catF = "False" ∧
          GetMessage CatalogConditionRefreshed catF =
            "Error in chart(s): " ++
              processInvalidChartErrors (w.preprocessCatalog catalog index).1 ∧
          result = .forgetError ("failed to sync templates. Multiple error(s) occurred: " ++
            processInvalidChartErrors (w.preprocessCatalog catalog index).1)) ∨
        (st.createErrors = [] ∧ st.updateErrors = [] ∧
          (w.preprocessCatalog catalog index).1 = [] ∧ cond = true ∧
          ((st.errs = [] ∧ catF.Status.Commit = commit ∧ result = .nil) ∨
            (st.errs ≠ [] ∧ catF.Status.Commit = "" ∧
              result = .new
                ("failed to sync templates. Resetting commit. Multiple error occurred: " ++
                  fmtErrors st.errs))))) := by
  rcases hpre : w.preprocessCatalog catalog index with ⟨ews, entries⟩
  unfold syncCharts at h ⊢
  simp only [hpre] at h ⊢
  have hinit : LoopInv entries []
      { catalog := catalog, projectCatalog := pc, clusterCatalog := cc,
        newHelmVersionCommits := ∅, errs := [], updateErrors := [], createErrors := [],
        trace := trace0 } := Inv.init entries trace0 h0
  have hloop := packageLoop_inv w commit cmt1 ct ns entries.entries [] _ hinit
    (by
      intro p hp
      obtain ⟨chart, metadata⟩ := p
      exact AList.mem_lookup_iff.mpr hp)
    (by simpa [AList.keys, List.keys] using entries.nodupKeys)
    (by simp)
  cases hl : packageLoop w commit cmt1 ct ns entries.entries
      { catalog := catalog, projectCatalog := pc, clusterCatalog := cc,
        newHelmVersionCommits := ∅, errs := [], updateErrors := [], createErrors := [],
        trace := trace0 } with
  | exit r =>
    simp only [hl] at h hloop
    rw [persisted_none_of_noFinal hloop] at h
    cases h
  | next st =>
    simp only [hl] at h hloop ⊢
    cases hd : deleteLoop w ns st.catalog (toDeleteChart w st.catalog index) st.trace with
    | exit r =>
      simp only [hd] at h
      obtain ⟨ext, hext, hall⟩ := deleteLoop_exit _ hd
      have hinv := Inv.deletes hloop hall
      rw [persisted_none_of_noFinal (by rw [hext]; exact hinv.noFinal)] at h
      cases h
    | next trace1 =>
      simp only [hd] at h ⊢
      obtain ⟨ext, hext, hall⟩ := deleteLoop_next _ hd
      have hinv := Inv.deletes hloop hall
      obtain ⟨cmtF1, catF, cond, result, heq, hcat, hsnap, hcases⟩ :=
        endOfRun_eq w commit cmt1 ct ews { st with trace := trace1 }
      rw [heq] at h ⊢
      obtain ⟨hx, hout⟩ := persistAndReturn_persisted h
      subst hx
      refine ⟨(entries.entries.map fun p => p.1).reverse ++ [], { st with trace := trace1 },
        catF, cond, result, ?_, rfl, hout, hcat, hsnap, hcases⟩
      subst hext
      exact hinv

theorem persistAndReturn_ok_trace {w : World} {ct : String} {cond : Bool} {cmtF x : CatalogInfo}
    {trace : List Event} {result : Returned}
    (h : (persistAndReturn w ct cond cmtF trace result).persisted = some x) :
    ∃ res, (persistAndReturn w ct cond cmtF trace result).trace =
      trace ++ [Event.updateCatalogInfo cmtF ct "" cond true (.ok res)] := by
  unfold Run.persisted at h
  rw [persistAndReturn_trace, List.getLast?_concat] at h
  rw [persistAndReturn_trace]
  cases hres : w.updateCatalogInfo trace cmtF ct "" cond true with
  | error err => simp [hres] at h
  | ok c => exact ⟨c, rfl⟩

/-- A run that reaches the final status persistence, and whose persistence
succeeds, went through the package loop and the pruning, and ended in one of the
three ways of lines 270–315. -/
theorem traverseAndUpdate_persisted {w : World} {commit : String} {cmt cmtF : CatalogInfo}
    (h : (traverseAndUpdate w commit cmt).persisted = some cmtF) :
    ∃ catalog index done st catF cond result,
      RunEnd w commit cmt cmtF catalog index done st catF cond result := by
  have key : ∀ (cmt1 : CatalogInfo) (ns : String) (catalog : Catalog)
      (index : GoMap ChartVersions) (trace0 : List Event),
      cmt.catalog = some catalog → w.LoadIndex = .ok index →
      (∀ e ∈ trace0, ∃ cmt ct tn c res, e = Event.updateCatalogInfo cmt ct tn c false res) →
      traverseAndUpdate w commit cmt =
        syncCharts w commit cmt1 (w.getCatalogType cmt) ns catalog cmt.projectCatalog
          cmt.clusterCatalog index trace0 →
      ∃ catalog index done st catF cond result,
        RunEnd w commit cmt cmtF catalog index done st catF cond result := by
    intro cmt1 ns catalog index trace0 hcat hidx h0 heq
    rw [heq] at h
    obtain ⟨done, st, catF, cond, result, hinv, hrun, hout, hp, hsnap, hways⟩ :=
      syncCharts_persisted h0 h
    rw [hrun] at h
    obtain ⟨res, htr⟩ := persistAndReturn_ok_trace h
    exact ⟨catalog, index, done, st, catF, cond, result,
      { fromCatalog := hcat
        fromIndex := hidx
        inv := hinv
        lastCall := ⟨res, by rw [heq, hrun]; exact htr⟩
        outcome := by rw [heq]; exact hout
        handed := hp
        snapshot := hsnap
        ways := hways }⟩
  cases hidx : w.LoadIndex with
  | error err =>
    have : (traverseAndUpdate w commit cmt).trace = [] := by
      unfold traverseAndUpdate; simp only [hidx]
    rw [persisted_none_of_noFinal (by rw [this]; simp)] at h
    cases h
  | ok index =>
    cases hns : templateNamespaceOf w (w.getCatalogType cmt) cmt with
    | none =>
      have : (traverseAndUpdate w commit cmt).trace = [] := by
        unfold traverseAndUpdate; simp only [hidx, hns]
      rw [persisted_none_of_noFinal (by rw [this]; simp)] at h
      cases h
    | some ns =>
      cases hcat : cmt.catalog with
      | none =>
        have : (traverseAndUpdate w commit cmt).trace = [] := by
          unfold traverseAndUpdate; simp only [hidx, hns, hcat]
        rw [persisted_none_of_noFinal (by rw [this]; simp)] at h
        cases h
      | some catalog =>
        by_cases hsync : needsSyncMarker catalog = true
        · cases hres : w.updateCatalogInfo [] cmt (w.getCatalogType cmt) "sync" true false with
          | error err =>
            have : (traverseAndUpdate w commit cmt).trace =
                [Event.updateCatalogInfo cmt (w.getCatalogType cmt) "sync" true false
                  (.error err)] := by
              unfold traverseAndUpdate; simp only [hidx, hns, hcat, hsync, hres, if_true]
            rw [persisted_none_of_noFinal
              (by rw [this]; simp [Event.isFinalPersist])] at h
            cases h
          | ok cmt1 =>
            refine key cmt1 ns catalog index
              [Event.updateCatalogInfo cmt (w.getCatalogType cmt) "sync" true false (.ok cmt1)]
              hcat hidx ?_ ?_
            · intro e he
              exact ⟨_, _, _, _, _, List.mem_singleton.mp he⟩
            · unfold traverseAndUpdate; simp only [hidx, hns, hcat, hsync, hres, if_true]
        · refine key cmt ns catalog index [] hcat hidx (by simp) ?_
          unfold traverseAndUpdate; simp only [hidx, hns, hcat, hsync]
          simp

/-! ## Texts of the returned errors -/

theorem Occurs.self (t : String) : Occurs t t := ⟨"", "", by simp⟩

theorem Occurs.append_left {t s : String} (h : Occurs t s) (a : String) : Occurs t (a ++ s) := by
  obtain ⟨pre, post, rfl⟩ := h
  exact ⟨a ++ pre, post, by simp [String.append_assoc]⟩

theorem Occurs.append_right {t s : String} (h : Occurs t s) (b : String) : Occurs t (s ++ b) := by
  obtain ⟨pre, post, rfl⟩ := h
  exact ⟨pre, post ++ b, by simp [String.append_assoc]⟩

theorem occurs_stringsJoin (sep : String) {x : String} {l : List String} (h : x ∈ l) :
    Occurs x (stringsJoin sep l) := by
  induction l with
  | nil => cases h
  | cons a rest ih =>
    cases rest with
    | nil =>
      rw [List.mem_singleton.mp h]
      exact Occurs.self _
    | cons b rest =>
      simp only [stringsJoin]
      rcases List.mem_cons.mp h with h1 | h1
      · rw [h1]
        exact ((Occurs.self a).append_right sep).append_right _
      · exact (ih h1).append_left _

theorem occurs_fmtErrors {err : GoError} {errors : List GoError} (h : err ∈ errors) :
    Occurs err.text (fmtErrors errors) := by
  unfold fmtErrors
  exact ((occurs_stringsJoin " " (List.mem_map_of_mem (fun e => e.text) h)).append_left
    "[").append_right "]"

/-- The text of a create or update failure occurs in the text joined at line 293. -/
theorem occurs_errstrings {err : GoError} {createErrors updateErrors : List GoError}
    (h : err ∈ createErrors ∨ err ∈ updateErrors) (last : String) :
    Occurs err.text (stringsJoin ";" (errstrings createErrors updateErrors ++ [last])) := by
  rcases h with h | h
  · have hpos : createErrors.length > 0 := List.length_pos.mpr (List.ne_nil_of_mem h)
    obtain ⟨pre, post, hpp⟩ := (occurs_fmtErrors h).append_left
      "failed to create templates. Multiple error(s) occurred: "
    have hmem : "failed to create templates. Multiple error(s) occurred: " ++
        fmtErrors createErrors ∈ errstrings createErrors updateErrors ++ [last] := by
      simp [errstrings, hpos]
    obtain ⟨pre1, post1, h1⟩ := occurs_stringsJoin ";" hmem
    exact ⟨pre1 ++ pre, post ++ post1, by rw [h1, hpp]; simp [String.append_assoc]⟩
  · have hpos : updateErrors.length > 0 := List.length_pos.mpr (List.ne_nil_of_mem h)
    obtain ⟨pre, post, hpp⟩ := (occurs_fmtErrors h).append_left
      "failed to update templates. Multiple error(s) occurred: "
    have hmem : "failed to update templates. Multiple error(s) occurred: " ++
        fmtErrors updateErrors ∈ errstrings createErrors updateErrors ++ [last] := by
      simp [errstrings, hpos]
    obtain ⟨pre1, post1, h1⟩ := occurs_stringsJoin ";" hmem
    exact ⟨pre1 ++ pre, post ++ post1, by rw [h1, hpp]; simp [String.append_assoc]⟩

theorem RunEnd.mem_of_not_final {w : World} {commit : String} {cmt cmtF : CatalogInfo}
    {catalog : Catalog} {index : GoMap ChartVersions} {done : List String} {st : LoopState}
    {catF : Catalog} {cond : Bool} {result : Returned}
    (h : RunEnd w commit cmt cmtF catalog index done st catF cond result) {e : Event}
    (he : e ∈ (traverseAndUpdate w commit cmt).trace) (hn : e.isFinalPersist = false) :
    e ∈ st.trace := by
  obtain ⟨res, htr⟩ := h.lastCall
  rw [htr] at he
  rcases List.mem_append.mp he with h1 | h1
  · exact h1
  · rw [List.mem_singleton.mp h1] at hn
    simp [Event.isFinalPersist] at hn

theorem RunEnd.createFailures_eq {w : World} {commit : String} {cmt cmtF : CatalogInfo}
    {catalog : Catalog} {index : GoMap ChartVersions} {done : List String} {st : LoopState}
    {catF : Catalog} {cond : Bool} {result : Returned}
    (h : RunEnd w commit cmt cmtF catalog index done st catF cond result) :
    createFailures (traverseAndUpdate w commit cmt).trace = st.createErrors ∧
      updateFailures (traverseAndUpdate w commit cmt).trace = st.updateErrors ∧
      yamlFailures (traverseAndUpdate w commit cmt).trace = st.errs := by
  obtain ⟨res, htr⟩ := h.lastCall
  rw [htr, h.inv.createErrors, h.inv.updateErrors, h.inv.errs]
  simp [createFailures, updateFailures, yamlFailures, List.filterMap_append,
    Event.createFailure, Event.updateFailure, Event.yamlFailure]

theorem failedChart_not_final {e : Event} {chart : String} (h : e.failedChart = some chart) :
    e.isFinalPersist = false := by
  cases e <;> simp_all [Event.failedChart, Event.isFinalPersist]

theorem succeededChart_not_final {e : Event} {chart : String}
    (h : e.succeededChart = some chart) : e.isFinalPersist = false := by
  cases e <;> simp_all [Event.succeededChart, Event.isFinalPersist]

theorem failure_of_failedChart {e : Event} {chart : String} (h : e.failedChart = some chart) :
    ∃ err, e.createFailure = some err ∨ e.updateFailure = some err := by
  cases e with
  | createTemplate t c res =>
    cases res with
    | none => simp [Event.failedChart] at h
    | some err => exact ⟨err, Or.inl rfl⟩
  | updateTemplate x t res =>
    cases res with
    | none => simp [Event.failedChart] at h
    | some err => exact ⟨err, Or.inr rfl⟩
  | _ => simp [Event.failedChart] at h

theorem mem_failures {e : Event} {trace : List Event} {err : GoError} (he : e ∈ trace)
    (h : e.createFailure = some err ∨ e.updateFailure = some err) :
    err ∈ createFailures trace ∨ err ∈ updateFailures trace := by
  rcases h with h | h
  · exact Or.inl (List.mem_filterMap.mpr ⟨e, he, h⟩)
  · exact Or.inr (List.mem_filterMap.mpr ⟨e, he, h⟩)

/-- A run with a failed create or update that reaches the final persistence ends
on the hard-failure way. -/
theorem RunEnd.hard {w : World} {commit : String} {cmt cmtF : CatalogInfo}
    {catalog : Catalog} {index : GoMap ChartVersions} {done : List String} {st : LoopState}
    {catF : Catalog} {cond : Bool} {result : Returned}
    (h : RunEnd w commit cmt cmtF catalog index done st catF cond result)
    (hfail : ∃ e ∈ (traverseAndUpdate w commit cmt).trace, ∃ chart, e.failedChart = some chart) :
    cond = false ∧ catF.Status.Commit = "" ∧ GetStatus CatalogConditionRefreshed catF = "False" ∧
      result = .errorf (stringsJoin ";"
        (errstrings (createFailures (traverseAndUpdate w commit cmt).trace)
            (updateFailures (traverseAndUpdate w commit cmt).trace) ++
          [processInvalidChartErrors (w.preprocessCatalog catalog index).1])) := by
  obtain ⟨e, he, chart, hc⟩ := hfail
  obtain ⟨err, herr⟩ := failure_of_failedChart hc
  obtain ⟨h1, h2, -⟩ := h.createFailures_eq
  have hne : st.createErrors ≠ [] ∨ st.updateErrors ≠ [] := by
    rcases mem_failures he herr with hm | hm
    · exact Or.inl (by rw [← h1]; exact List.ne_nil_of_mem hm)
    · exact Or.inr (by rw [← h2]; exact List.ne_nil_of_mem hm)
  rw [h1, h2]
  rcases h.ways with hw | hw | hw
  · exact ⟨hw.2.1, hw.2.2.1, hw.2.2.2.1, hw.2.2.2.2⟩
  · rcases hne with hn | hn
    · exact absurd hw.1 hn
    · exact absurd hw.2.1 hn
  · rcases hne with hn | hn
    · exact absurd hw.1 hn
    · exact absurd hw.2.1 hn

/-- Partial failure containment, up to the format of the returned error: in a run
that reaches the final status persistence, and whose persistence succeeds, where
the create or update of chart `A` failed and the create or update of chart `B`
succeeded, the catalog handed to the final persistence has a snapshot that maps `B`
to the digests of the releases of `B` (for every version, the digest of the last
release with that version) and has no entry for `A`; its refreshed condition is
`False`; and the function returns `errors.Errorf` whose format is the text joined
from the failures of the failed create and update calls of the run (and the invalid
charts), in which the text of every failure of `A` occurs. -/
theorem partial_failure_containment (w : World) (commit : String) (cmt : CatalogInfo)
    (A B : String)
    (hend : (traverseAndUpdate w commit cmt).persisted.isSome = true)
    (hA : ∃ e ∈ (traverseAndUpdate w commit cmt).trace, e.failedChart = some A)
    (hB : ∃ e ∈ (traverseAndUpdate w commit cmt).trace, e.succeededChart = some B) :
    ∃ cmtF catF catalog index metadata,
      (traverseAndUpdate w commit cmt).persisted = some cmtF ∧ cmtF.catalog = some catF ∧
      cmt.catalog = some catalog ∧ w.LoadIndex = .ok index ∧
      (w.preprocessCatalog catalog index).2.lookup B = some metadata ∧
      HoldsDigests catF.Status.HelmVersionCommits B metadata ∧
      catF.Status.HelmVersionCommits.lookup A = none ∧
      GetStatus CatalogConditionRefreshed catF = "False" ∧
      (traverseAndUpdate w commit cmt).outcome = .returned (.errorf (stringsJoin ";"
        (errstrings (createFailures (traverseAndUpdate w commit cmt).trace)
            (updateFailures (traverseAndUpdate w commit cmt).trace) ++
          [processInvalidChartErrors (w.preprocessCatalog catalog index).1]))) ∧
      ∀ e ∈ (traverseAndUpdate w commit cmt).trace, e.failedChart = some A →
        ∀ err, e.createFailure = some err ∨ e.updateFailure = some err →
          Occurs err.text (stringsJoin ";"
            (errstrings (createFailures (traverseAndUpdate w commit cmt).trace)
                (updateFailures (traverseAndUpdate w commit cmt).trace) ++
              [processInvalidChartErrors (w.preprocessCatalog catalog index).1])) := by
  obtain ⟨cmtF, hp⟩ := Option.isSome_iff_exists.mp hend
  obtain ⟨catalog, index, done, st, catF, cond, result, hrun⟩ := traverseAndUpdate_persisted hp
  obtain ⟨eA, heA, hcA⟩ := hA
  obtain ⟨eB, heB, hcB⟩ := hB
  have hAst := hrun.mem_of_not_final heA (failedChart_not_final hcA)
  have hBst := hrun.mem_of_not_final heB (succeededChart_not_final hcB)
  obtain ⟨metadata, hmd, hdig⟩ :=
    hrun.inv.content B (hrun.inv.succeeded eB hBst B hcB)
  obtain ⟨-, -, hstatus, hres⟩ := hrun.hard ⟨eA, heA, A, hcA⟩
  refine ⟨cmtF, catF, catalog, index, metadata, hp, hrun.handed, hrun.fromCatalog,
    hrun.fromIndex, hmd, ?_, ?_, hstatus, ?_, ?_⟩
  · rw [hrun.snapshot]; exact hdig
  · rw [hrun.snapshot]
    exact AList.lookup_eq_none.mpr (hrun.inv.failed eA hAst A hcA).2
  · rw [hrun.outcome, hres]
  · intro e he _ err herr
    exact occurs_errstrings (mem_failures he herr) _

theorem partial_failure_containment_witness :
    (traverseAndUpdate worldCreateFails "c1" (sampleCatalog ∅ none)).persisted.isSome = true ∧
    (∃ e ∈ (traverseAndUpdate worldCreateFails "c1" (sampleCatalog ∅ none)).trace,
      e.failedChart = some "a") ∧
    (∃ e ∈ (traverseAndUpdate worldCreateFails "c1" (sampleCatalog ∅ none)).trace,
      e.succeededChart = some "b") ∧
    ∃ cmtF catF, (traverseAndUpdate worldCreateFails "c1" (sampleCatalog ∅ none)).persisted =
        some cmtF ∧ cmtF.catalog = some catF ∧
      catF.Status.HelmVersionCommits.lookup "a" = none ∧
      GetStatus CatalogConditionRefreshed catF = "False" :=
  ⟨by decide, by decide, by decide,
    by
      obtain ⟨cmtF, catF, _, _, _, h1, h2, _, _, _, _, h3, h4, _⟩ :=
        partial_failure_containment worldCreateFails "c1" (sampleCatalog ∅ none) "a" "b"
          (by decide) (by decide) (by decide)
      exact ⟨cmtF, catF, h1, h2, h3, h4⟩⟩

/-! ## Run-start transition (line 48) -/

theorem needsSyncMarker_iff (catalog : Catalog) :
    needsSyncMarker catalog = true ↔
      IsUnknown CatalogConditionRefreshed catalog = true ∨
        IsTrue CatalogConditionRefreshed catalog = true ∨ catalog.Status.Conditions = none := by
  unfold needsSyncMarker
  by_cases hu : IsUnknown CatalogConditionRefreshed catalog = true
  · have hs : GetStatus CatalogConditionRefreshed catalog = "Unknown" := by
      simpa [IsUnknown] using hu
    have hc : stringsContains "Unknown" "syncing catalog" = false := by decide
    simp [hu, hs, hc]
  · simp [hu, Option.isNone_iff_eq_none]

/-- C10, what the code does: the test of line 48 reads the status of the condition
(`GetStatus`), not its message, so the marker is persisted exactly when the
refreshed condition is `Unknown` (whatever its message), or `True`, or the
conditions were never set; for a catalog whose condition is already `Unknown`
with the message `syncing catalog` the run starts with a call of
`updateCatalogInfo` with `"sync"`, and for a catalog whose condition is `False`
it does not. -/
theorem syncMarker_ignores_message :
    (∀ catalog : Catalog, needsSyncMarker catalog = true ↔
      IsUnknown CatalogConditionRefreshed catalog = true ∨
        IsTrue CatalogConditionRefreshed catalog = true ∨ catalog.Status.Conditions = none) ∧
    (syncingCatalog.catalog.map fun c =>
        (IsUnknown CatalogConditionRefreshed c, GetMessage CatalogConditionRefreshed c)) =
      some (true, "syncing catalog") ∧
    ((traverseAndUpdate (sampleWorld indexAB) "c1" syncingCatalog).trace.head?.map
      Event.isSyncMarker) = some true ∧
    ((traverseAndUpdate (sampleWorld indexAB) "c1" failedCatalog).trace.head?.map
      Event.isSyncMarker) = some false := by
  refine ⟨needsSyncMarker_iff, by decide, by decide, by decide⟩

/-! ## The end-of-run decision on whole runs -/

theorem RunEnd.persistedCommit_eq {w : World} {commit : String} {cmt cmtF : CatalogInfo}
    {catalog : Catalog} {index : GoMap ChartVersions} {done : List String} {st : LoopState}
    {catF : Catalog} {cond : Bool} {result : Returned}
    (h : RunEnd w commit cmt cmtF catalog index done st catF cond result)
    (hp : (traverseAndUpdate w commit cmt).persisted = some cmtF) :
    (traverseAndUpdate w commit cmt).persistedCommit = some catF.Status.Commit ∧
      (traverseAndUpdate w commit cmt).persistedSnapshot = some st.newHelmVersionCommits := by
  simp [Run.persistedCommit, Run.persistedSnapshot, hp, h.handed, h.snapshot]

/-- The three ways of ending, in terms of the calls of the run. -/
theorem RunEnd.ways_of_trace {w : World} {commit : String} {cmt cmtF : CatalogInfo}
    {catalog : Catalog} {index : GoMap ChartVersions} {done : List String} {st : LoopState}
    {catF : Catalog} {cond : Bool} {result : Returned}
    (h : RunEnd w commit cmt cmtF catalog index done st catF cond result) :
    ((createFailures (traverseAndUpdate w commit cmt).trace ≠ [] ∨
        updateFailures (traverseAndUpdate w commit cmt).trace ≠ []) →
      catF.Status.Commit = "" ∧ GetStatus CatalogConditionRefreshed catF = "False" ∧
        result = .errorf (stringsJoin ";"
          (errstrings (createFailures (traverseAndUpdate w commit cmt).trace)
              (updateFailures (traverseAndUpdate w commit cmt).trace) ++
            [processInvalidChartErrors (w.preprocessCatalog catalog index).1]))) ∧
    (createFailures (traverseAndUpdate w commit cmt).trace = [] →
      updateFailures (traverseAndUpdate w commit cmt).trace = [] →
      (w.preprocessCatalog catalog index).1 ≠ [] →
      catF.Status.Commit = commit ∧ GetStatus CatalogConditionRefreshed catF = "False" ∧
        result = .forgetError ("failed to sync templates. Multiple error(s) occurred: " ++
          processInvalidChartErrors (w.preprocessCatalog catalog index).1)) ∧
    (createFailures (traverseAndUpdate w commit cmt).trace = [] →
      updateFailures (traverseAndUpdate w commit cmt).trace = [] →
      (w.preprocessCatalog catalog index).1 = [] →
      (yamlFailures (traverseAndUpdate w commit cmt).trace = [] →
        catF.Status.Commit = commit ∧ result = .nil) ∧
      (yamlFailures (traverseAndUpdate w commit cmt).trace ≠ [] →
        catF.Status.Commit = "" ∧
        result = .new
          ("failed to sync templates. Resetting commit. Multiple error occurred: " ++
            fmtErrors (yamlFailures (traverseAndUpdate w commit cmt).trace)))) := by
  obtain ⟨h1, h2, h3⟩ := h.createFailures_eq
  rw [h1, h2, h3]
  refine ⟨?_, ?_, ?_⟩
  · intro hne
    rcases h.ways with hw | hw | hw
    · exact ⟨hw.2.2.1, hw.2.2.2.1, hw.2.2.2.2⟩
    · rcases hne with hn | hn
      · exact absurd hw.1 hn
      · exact absurd hw.2.1 hn
    · rcases hne with hn | hn
      · exact absurd hw.1 hn
      · exact absurd hw.2.1 hn
  · intro hc hu hews
    rcases h.ways with hw | hw | hw
    · rcases hw.1 with hn | hn
      · exact absurd hc hn
      · exact absurd hu hn
    · exact ⟨hw.2.2.2.2.1, hw.2.2.2.2.2.1, hw.2.2.2.2.2.2.2⟩
    · exact absurd hw.2.2.1 hews
  · intro hc hu hews
    rcases h.ways with hw | hw | hw
    · rcases hw.1 with hn | hn
      · exact absurd hc hn
      · exact absurd hu hn
    · exact absurd hews hw.2.2.1
    · rcases hw.2.2.2.2 with hy | hy
      · exact ⟨fun _ => ⟨hy.2.1, hy.2.2⟩, fun hne => absurd hy.1 hne⟩
      · exact ⟨fun he => absurd he hy.1, fun _ => ⟨hy.2.1, hy.2.2⟩⟩

/-- C6, as amended: in a run with at least one create or update failure that
reaches the final status persistence (and whose persistence succeeds), the
snapshot handed to the persistence is the one computed during the run: a chart
whose create or update failed has no entry in it, whatever the snapshot held
before, and a chart whose create or update succeeded carries the digests of its
releases; the function returns an error (`errors.Errorf`). -/
theorem hard_failure_adopts_new_snapshot (w : World) (commit : String) (cmt : CatalogInfo)
    (hend : (traverseAndUpdate w commit cmt).persisted.isSome = true)
    (hfail : createFailures (traverseAndUpdate w commit cmt).trace ≠ [] ∨
      updateFailures (traverseAndUpdate w commit cmt).trace ≠ []) :
    ∃ snapshot catalog index text,
      (traverseAndUpdate w commit cmt).persistedSnapshot = some snapshot ∧
      cmt.catalog = some catalog ∧ w.LoadIndex = .ok index ∧
      (∀ e ∈ (traverseAndUpdate w commit cmt).trace, ∀ chart,
        e.failedChart = some chart → snapshot.lookup chart = none) ∧
      (∀ e ∈ (traverseAndUpdate w commit cmt).trace, ∀ chart,
        e.succeededChart = some chart →
          ∃ metadata, (w.preprocessCatalog catalog index).2.lookup chart = some metadata ∧
            HoldsDigests snapshot chart metadata) ∧
      (traverseAndUpdate w commit cmt).outcome = .returned (.errorf text) := by
  obtain ⟨cmtF, hp⟩ := Option.isSome_iff_exists.mp hend
  obtain ⟨catalog, index, done, st, catF, cond, result, hrun⟩ := traverseAndUpdate_persisted hp
  obtain ⟨-, -, hres⟩ := hrun.ways_of_trace.1 hfail
  refine ⟨st.newHelmVersionCommits, catalog, index, _, (hrun.persistedCommit_eq hp).2,
    hrun.fromCatalog, hrun.fromIndex, ?_, ?_, by rw [hrun.outcome, hres]⟩
  · intro e he chart hc
    have hst := hrun.mem_of_not_final he (failedChart_not_final hc)
    exact AList.lookup_eq_none.mpr (hrun.inv.failed e hst chart hc).2
  · intro e he chart hc
    have hst := hrun.mem_of_not_final he (succeededChart_not_final hc)
    exact hrun.inv.content chart (hrun.inv.succeeded e hst chart hc)

theorem hard_failure_adopts_new_snapshot_witness :
    (traverseAndUpdate worldCreateFails "c1" (sampleCatalog snapshotA none)).persisted.isSome =
      true ∧
    (createFailures (traverseAndUpdate worldCreateFails "c1"
        (sampleCatalog snapshotA none)).trace ≠ [] ∨
      updateFailures (traverseAndUpdate worldCreateFails "c1"
        (sampleCatalog snapshotA none)).trace ≠ []) ∧
    ∃ snapshot text,
      (traverseAndUpdate worldCreateFails "c1" (sampleCatalog snapshotA none)).persistedSnapshot =
        some snapshot ∧
      (traverseAndUpdate worldCreateFails "c1" (sampleCatalog snapshotA none)).outcome =
        .returned (.errorf text) :=
  ⟨by decide, by decide,
    by
      obtain ⟨snapshot, _, _, text, h1, _, _, _, _, h2⟩ :=
        hard_failure_adopts_new_snapshot worldCreateFails "c1" (sampleCatalog snapshotA none)
          (by decide) (by decide)
      exact ⟨snapshot, text, h1, h2⟩⟩

/-- C6 fails as stated: with the old snapshot `{a: {1.0.0: x0}}`, the index
`{a: [1.0.0/x], b: [1.0.0/y]}` and a failing creation of `a`, the snapshot handed
to the final persistence records `y` for `b` and nothing for `a`, so it is not
the snapshot from before the run (which records `x0` for `a` and nothing for
`b`). -/
theorem snapshot_not_kept_on_hard_failure :
    createFailures (traverseAndUpdate worldCreateFails "c1"
        (sampleCatalog snapshotA none)).trace ≠ [] ∧
    ((traverseAndUpdate worldCreateFails "c1" (sampleCatalog snapshotA none)).persistedSnapshot.map
        fun s => (digestOf s "a" "1.0.0", digestOf s "b" "1.0.0")) = some (none, some "y") ∧
    (digestOf snapshotA "a" "1.0.0", digestOf snapshotA "b" "1.0.0") = (some "x0", none) := by
  decide

/-- C7, as amended: in a run that reaches the final status persistence (and whose
persistence succeeds), the commit handed to the persistence is empty whenever at
least one create or update failure was aggregated; without such a failure it is
the commit passed in when the index has invalid entries (the ignorable-error
way) or when no descriptor failed to parse (the success way), and it is empty
when there is no invalid entry and a descriptor failed to parse. -/
theorem commit_after_run (w : World) (commit : String) (cmt : CatalogInfo)
    (hend : (traverseAndUpdate w commit cmt).persisted.isSome = true) :
    ∃ persistedCommit catalog index,
      (traverseAndUpdate w commit cmt).persistedCommit = some persistedCommit ∧
      cmt.catalog = some catalog ∧ w.LoadIndex = .ok index ∧
      ((createFailures (traverseAndUpdate w commit cmt).trace ≠ [] ∨
          updateFailures (traverseAndUpdate w commit cmt).trace ≠ []) →
        persistedCommit = "") ∧
      (createFailures (traverseAndUpdate w commit cmt).trace = [] →
        updateFailures (traverseAndUpdate w commit cmt).trace = [] →
        ((w.preprocessCatalog catalog index).1 ≠ [] → persistedCommit = commit) ∧
        ((w.preprocessCatalog catalog index).1 = [] →
          yamlFailures (traverseAndUpdate w commit cmt).trace = [] →
            persistedCommit = commit) ∧
        ((w.preprocessCatalog catalog index).1 = [] →
          yamlFailures (traverseAndUpdate w commit cmt).trace ≠ [] → persistedCommit = "")) := by
  obtain ⟨cmtF, hp⟩ := Option.isSome_iff_exists.mp hend
  obtain ⟨catalog, index, done, st, catF, cond, result, hrun⟩ := traverseAndUpdate_persisted hp
  obtain ⟨hhard, hignore, hsuccess⟩ := hrun.ways_of_trace
  refine ⟨catF.Status.Commit, catalog, index, (hrun.persistedCommit_eq hp).1,
    hrun.fromCatalog, hrun.fromIndex, fun hf => (hhard hf).1, ?_⟩
  intro hc hu
  exact ⟨fun hews => (hignore hc hu hews).1, fun hews hy => ((hsuccess hc hu hews).1 hy).1,
    fun hews hy => ((hsuccess hc hu hews).2 hy).1⟩

theorem commit_after_run_witness :
    (traverseAndUpdate worldCreateFails "c1" (sampleCatalog snapshotA none)).persisted.isSome =
      true ∧
    ∃ persistedCommit,
      (traverseAndUpdate worldCreateFails "c1" (sampleCatalog snapshotA none)).persistedCommit =
        some persistedCommit ∧
      ((createFailures (traverseAndUpdate worldCreateFails "c1"
            (sampleCatalog snapshotA none)).trace ≠ [] ∨
          updateFailures (traverseAndUpdate worldCreateFails "c1"
            (sampleCatalog snapshotA none)).trace ≠ []) →
        persistedCommit = "") :=
  ⟨by decide,
    by
      obtain ⟨persistedCommit, _, _, h1, _, _, h2, _⟩ :=
        commit_after_run worldCreateFails "c1" (sampleCatalog snapshotA none) (by decide)
      exact ⟨persistedCommit, h1, h2⟩⟩

/-- C7 fails as stated: with an invalid chart reported by `preprocessCatalog` and
no create or update failure, the run ends on the ignorable-error way and the
commit handed to the final persistence is the commit passed in. -/
theorem commit_set_with_invalid_package :
    (worldInvalidEntry.preprocessCatalog
        { Name := "mycatalog", Namespace := "", HelmVersion := "",
          Status := { Commit := "", HelmVersionCommits := ∅, Conditions := none } }
        indexA).1 ≠ [] ∧
    createFailures (traverseAndUpdate worldInvalidEntry "c1" (sampleCatalog ∅ none)).trace = [] ∧
    updateFailures (traverseAndUpdate worldInvalidEntry "c1" (sampleCatalog ∅ none)).trace = [] ∧
    (traverseAndUpdate worldInvalidEntry "c1" (sampleCatalog ∅ none)).persistedCommit =
      some "c1" ∧
    (traverseAndUpdate worldInvalidEntry "c1" (sampleCatalog ∅ none)).outcome =
      .returned (.forgetError
        "failed to sync templates. Multiple error(s) occurred: invalid chart z;") := by
  decide

/-- C8, as amended: in a run that reaches the final status persistence (and whose
persistence succeeds) in which a call of `yaml.Unmarshal` failed and no create or
update failed: when the index has no invalid entry, the commit handed to the
persistence is empty and an ordinary error is returned (the text says that the
commit is reset); when the index has invalid entries, the commit handed to the
persistence is the commit passed in and a `controller.ForgetError` is
returned. -/
theorem descriptor_parse_failure (w : World) (commit : String) (cmt : CatalogInfo)
    (hend : (traverseAndUpdate w commit cmt).persisted.isSome = true)
    (hyaml : yamlFailures (traverseAndUpdate w commit cmt).trace ≠ [])
    (hcreate : createFailures (traverseAndUpdate w commit cmt).trace = [])
    (hupdate : updateFailures (traverseAndUpdate w commit cmt).trace = []) :
    ∃ catalog index,
      cmt.catalog = some catalog ∧ w.LoadIndex = .ok index ∧
      ((w.preprocessCatalog catalog index).1 = [] →
        (traverseAndUpdate w commit cmt).persistedCommit = some "" ∧
        (traverseAndUpdate w commit cmt).outcome = .returned (.new
          ("failed to sync templates. Resetting commit. Multiple error occurred: " ++
            fmtErrors (yamlFailures (traverseAndUpdate w commit cmt).trace)))) ∧
      ((w.preprocessCatalog catalog index).1 ≠ [] →
        (traverseAndUpdate w commit cmt).persistedCommit = some commit ∧
        (traverseAndUpdate w commit cmt).outcome = .returned (.forgetError
          ("failed to sync templates. Multiple error(s) occurred: " ++
            processInvalidChartErrors (w.preprocessCatalog catalog index).1))) := by
  obtain ⟨cmtF, hp⟩ := Option.isSome_iff_exists.mp hend
  obtain ⟨catalog, index, done, st, catF, cond, result, hrun⟩ := traverseAndUpdate_persisted hp
  obtain ⟨-, hignore, hsuccess⟩ := hrun.ways_of_trace
  refine ⟨catalog, index, hrun.fromCatalog, hrun.fromIndex, ?_, ?_⟩
  · intro hews
    obtain ⟨h1, h2⟩ := (hsuccess hcreate hupdate hews).2 hyaml
    exact ⟨by rw [(hrun.persistedCommit_eq hp).1, h1], by rw [hrun.outcome, h2]⟩
  · intro hews
    obtain ⟨h1, -, h2⟩ := hignore hcreate hupdate hews
    exact ⟨by rw [(hrun.persistedCommit_eq hp).1, h1], by rw [hrun.outcome, h2]⟩

theorem descriptor_parse_failure_witness :
    (traverseAndUpdate worldBadDescriptorInvalidEntry "c1"
      (sampleCatalog ∅ none)).persisted.isSome = true ∧
    yamlFailures (traverseAndUpdate worldBadDescriptorInvalidEntry "c1"
      (sampleCatalog ∅ none)).trace ≠ [] ∧
    createFailures (traverseAndUpdate worldBadDescriptorInvalidEntry "c1"
      (sampleCatalog ∅ none)).trace = [] ∧
    updateFailures (traverseAndUpdate worldBadDescriptorInvalidEntry "c1"
      (sampleCatalog ∅ none)).trace = [] ∧
    ∃ catalog index,
      (sampleCatalog ∅ none).catalog = some catalog ∧
      worldBadDescriptorInvalidEntry.LoadIndex = .ok index ∧
      ((worldBadDescriptorInvalidEntry.preprocessCatalog catalog index).1 ≠ [] →
        (traverseAndUpdate worldBadDescriptorInvalidEntry "c1"
          (sampleCatalog ∅ none)).persistedCommit = some "c1") :=
  ⟨by decide, by decide, by decide, by decide,
    by
      obtain ⟨catalog, index, h1, h2, _, h3⟩ :=
        descriptor_parse_failure worldBadDescriptorInvalidEntry "c1" (sampleCatalog ∅ none)
          (by decide) (by decide) (by decide) (by decide)
      exact ⟨catalog, index, h1, h2, fun h => (h3 h).1⟩⟩

/-- C8 fails as stated: a descriptor that does not parse, no create or update
failure and no invalid entry: the commit handed to the final persistence is empty,
not the commit passed in, and the error returned is an ordinary one, not a
`controller.ForgetError`. -/
theorem parse_failure_resets_commit :
    yamlFailures (traverseAndUpdate worldBadDescriptor "c1" (sampleCatalog ∅ none)).trace ≠ [] ∧
    createFailures (traverseAndUpdate worldBadDescriptor "c1" (sampleCatalog ∅ none)).trace = [] ∧
    updateFailures (traverseAndUpdate worldBadDescriptor "c1" (sampleCatalog ∅ none)).trace = [] ∧
    (traverseAndUpdate worldBadDescriptor "c1" (sampleCatalog ∅ none)).persistedCommit =
      some "" ∧
    (traverseAndUpdate worldBadDescriptor "c1" (sampleCatalog ∅ none)).outcome =
      .returned (.new ("failed to sync templates. Resetting commit. Multiple error occurred: " ++
        "[yaml: did not find expected node]")) := by
  decide

/-- C9, as amended: at the end-of-run decision, (a) when `createErrors` or
`updateErrors` is not empty the hard-failure way is taken, even with invalid
entries: `setCatalogErrorState`, then the persistence, then `errors.Errorf` of the
joined texts; (b) otherwise, when `entriesWithErrors` is not empty the
ignorable-error way is taken: `setCatalogIgnoreErrorState` with the commit and the
message listing the invalid charts, then the persistence, then a
`controller.ForgetError`; (c) otherwise the status is persisted with the commit,
and `nil` is returned when no descriptor failed to parse, while with such a
failure the commit is reset to empty and an ordinary error is returned.  In each
way, when the persistence itself fails, its error is what the function
returns. -/
theorem endOfRun_priority (w : World) (commit : String) (cmt : CatalogInfo) (ct : String)
    (ews : List ChartsWithErrors) (st : LoopState) :
    ((st.createErrors ≠ [] ∨ st.updateErrors ≠ []) →
      endOfRun w commit cmt ct ews st =
        persistAndReturn w ct false
          (setCatalogErrorState cmt (setTraverseCompleted w (adoptSnapshot st))
            (embedCatalog (adoptSnapshot st) st.projectCatalog st.clusterCatalog).1
            (embedCatalog (adoptSnapshot st) st.projectCatalog st.clusterCatalog).2) st.trace
          (.errorf (stringsJoin ";" (errstrings st.createErrors st.updateErrors ++
            [processInvalidChartErrors ews])))) ∧
    (st.createErrors = [] → st.updateErrors = [] → ews ≠ [] →
      endOfRun w commit cmt ct ews st =
        persistAndReturn w ct false
          (setCatalogIgnoreErrorState commit cmt (setTraverseCompleted w (adoptSnapshot st))
            (embedCatalog (adoptSnapshot st) st.projectCatalog st.clusterCatalog).1
            (embedCatalog (adoptSnapshot st) st.projectCatalog st.clusterCatalog).2
            ("Error in chart(s): " ++ processInvalidChartErrors ews)) st.trace
          (.forgetError ("failed to sync templates. Multiple error(s) occurred: " ++
            processInvalidChartErrors ews))) ∧
    (st.createErrors = [] → st.updateErrors = [] → ews = [] →
      ∃ cmtF catF,
        cmtF.catalog = some catF ∧
        catF.Status.HelmVersionCommits = st.newHelmVersionCommits ∧
        catF.Status.Commit = (if st.errs = [] then commit else "") ∧
        endOfRun w commit cmt ct ews st =
          persistAndReturn w ct true cmtF st.trace
            (if st.errs = [] then .nil
              else .new
                ("failed to sync templates. Resetting commit. Multiple error occurred: " ++
                  fmtErrors st.errs))) ∧
    (∀ (cond : Bool) (cmtF : CatalogInfo) (trace : List Event) (result : Returned),
      (persistAndReturn w ct cond cmtF trace result).outcome =
        match w.updateCatalogInfo trace cmtF ct "" cond true with
        | .ok _ => .returned result
        | .error err => .returned (.err err)) := by
  refine ⟨?_, ?_, ?_, ?_⟩
  · intro hne
    have herr : errstrings st.createErrors st.updateErrors ≠ [] := by
      intro h
      obtain ⟨h1, h2⟩ := (errstrings_eq_nil_iff _ _).mp h
      rcases hne with hn | hn
      · exact hn h1
      · exact hn h2
    have hpos : (errstrings st.createErrors st.updateErrors).length > 0 :=
      List.length_pos.mpr herr
    unfold endOfRun
    simp only [embedCatalog_catalog]
    rw [if_neg (by simp [herr]), if_pos hpos]
  · intro hc hu hews
    have herr : errstrings st.createErrors st.updateErrors = [] :=
      (errstrings_eq_nil_iff _ _).mpr ⟨hc, hu⟩
    have hpos : ews.length > 0 := List.length_pos.mpr hews
    unfold endOfRun
    simp only [embedCatalog_catalog]
    rw [if_pos (by simp [hpos, herr])]
  · intro hc hu hews
    have herr : errstrings st.createErrors st.updateErrors = [] :=
      (errstrings_eq_nil_iff _ _).mpr ⟨hc, hu⟩
    subst hews
    unfold endOfRun
    simp only [embedCatalog_catalog]
    simp only [List.length_nil, gt_iff_lt, lt_self_iff_false, decide_False, Bool.false_and,
      Bool.false_eq_true, if_false, herr]
    by_cases he : st.errs = []
    · simp only [he, List.length_nil, lt_self_iff_false, if_false, if_true]
      exact ⟨_, _, rfl, rfl, rfl, rfl⟩
    · have hp : 0 < st.errs.length := List.length_pos.mpr he
      simp only [hp, he, if_true, if_false]
      exact ⟨_, _, rfl, rfl, rfl, rfl⟩
  · intro cond cmtF trace result
    unfold persistAndReturn
    cases w.updateCatalogInfo trace cmtF ct "" cond true <;> rfl

/-- C9 fails as stated: (c) with no create or update failure and no invalid entry,
a descriptor that does not parse makes the run return an error after the status
was persisted; (b) with an invalid entry and a failing final persistence, the
error returned is the error of the persistence, not a `controller.ForgetError`. -/
theorem end_of_run_returns_other_errors :
    (createFailures (traverseAndUpdate worldBadDescriptor "c1" (sampleCatalog ∅ none)).trace = [] ∧
      updateFailures (traverseAndUpdate worldBadDescriptor "c1" (sampleCatalog ∅ none)).trace = [] ∧
      (traverseAndUpdate worldBadDescriptor "c1" (sampleCatalog ∅ none)).persisted.isSome = true ∧
      (traverseAndUpdate worldBadDescriptor "c1" (sampleCatalog ∅ none)).outcome ≠
        .returned .nil) ∧
    (createFailures (traverseAndUpdate worldInvalidEntryPersistFails "c1"
        (sampleCatalog ∅ none)).trace = [] ∧
      updateFailures (traverseAndUpdate worldInvalidEntryPersistFails "c1"
        (sampleCatalog ∅ none)).trace = [] ∧
      ((traverseAndUpdate worldInvalidEntryPersistFails "c1"
        (sampleCatalog ∅ none)).trace.getLast?.map Event.isFinalPersist) = some true ∧
      (traverseAndUpdate worldInvalidEntryPersistFails "c1" (sampleCatalog ∅ none)).outcome =
        .returned (.err { text := "conflict", isNotFound := false })) := by
  decide

/-! ## One iteration of the package loop, in full -/

theorem buildVersions_exit_catalog {w : World} {catalog : Catalog}
    {catalogType ns chart : String} {template : CatalogTemplate} {metadata : ChartVersions}
    {acc : BuildAcc} {r : Run}
    (h : buildVersions w catalog catalogType ns chart template metadata acc = .exit r) :
    r.catalog = some catalog := by
  induction metadata generalizing acc with
  | nil => simp [buildVersions] at h
  | cons version rest ih =>
    simp only [buildVersions] at h
    cases hv : buildVersion w catalog catalogType ns chart template acc version with
    | exit r1 =>
      simp only [hv] at h
      injection h with h
      subst h
      unfold buildVersion at hv
      cases hres : w.FetchLocalFiles acc.trace version with
      | error err =>
        simp only [hres] at hv
        injection hv with hv
        subst hv
        rfl
      | ok files => simp [hres] at hv
    | next acc2 =>
      simp only [hv] at h
      exact ih h

theorem buildTemplate_exit_catalog {w : World} {catalogType ns : String} {st : LoopState}
    {chart : String} {metadata : ChartVersions} {r : Run}
    (h : buildTemplate w catalogType ns st chart metadata = .exit r) :
    r.catalog = some st.catalog := by
  unfold buildTemplate at h
  cases metadata with
  | nil =>
    simp only at h
    injection h with h
    subst h
    rfl
  | cons first rest =>
    simp only at h
    cases hicon : w.Icon st.trace (first :: rest) with
    | error err =>
      simp only [hicon] at h
      injection h with h
      subst h
      rfl
    | ok icon =>
      obtain ⟨iconFilename, iconURL⟩ := icon
      simp only [hicon] at h
      split at h
      · rename_i r1 hacc
        injection h with h
        subst h
        exact buildVersions_exit_catalog hacc
      · split at h
        · injection h with h
          subst h
          rfl
        · simp at h

theorem refreshLocals_exit_catalog {w : World} {commit : String} {cmt : CatalogInfo}
    {st : LoopState} {r : Run} (h : refreshLocals w commit cmt st = .exit r) :
    r.catalog = cmt.catalog := by
  unfold refreshLocals at h
  cases hc : cmt.catalog with
  | none => simp only [hc] at h; injection h with h; subst h; rfl
  | some catalog =>
    simp only [hc] at h
    split at h
    · injection h with h; subst h; rfl
    · split at h
      · injection h with h; subst h; rfl
      · simp at h

theorem processChart_eq (w : World) (commit : String) (cmt : CatalogInfo)
    (ct ns : String) (st : LoopState) (chart : String) (metadata : ChartVersions) :
    processChart w commit cmt ct ns st chart metadata =
      if skipsChart w st chart metadata = true then .next (withEntry st chart metadata)
      else
        match buildTemplate w ct ns (withEntry st chart metadata) chart metadata with
        | .exit r => .exit r
        | .next (st, template) =>
          match refreshLocals w commit cmt st with
          | .exit r => .exit r
          | .next st => .next (reconcile w st template) := rfl

theorem processChart_cases (w : World) (commit : String) (cmt : CatalogInfo)
    (ct ns : String) (st : LoopState) (chart : String) (metadata : ChartVersions) :
    (skipsChart w st chart metadata = true ∧
      processChart w commit cmt ct ns st chart metadata = .next (withEntry st chart metadata)) ∨
    (skipsChart w st chart metadata = false ∧
      ∃ r ext, processChart w commit cmt ct ns st chart metadata = .exit r ∧
        r.trace = st.trace ++ ext ∧ (∀ e ∈ ext, e.isBuild = true) ∧
        (r.catalog = some st.catalog ∨ r.catalog = cmt.catalog)) ∨
    (skipsChart w st chart metadata = false ∧
      ∃ ext t catalog,
        (∀ e ∈ ext, e.isBuild = true) ∧ t.DisplayName = chart ∧
        t.Name = w.getValidTemplateName st.catalog.Name chart ∧ t.Namespace = ns ∧
        metadata ≠ [] ∧ cmt.catalog = some catalog ∧ w.isUpToDate commit catalog = false ∧
        buildTemplate w ct ns (withEntry st chart metadata) chart metadata =
          .next ({ withEntry st chart metadata with
                    errs := st.errs ++ yamlFailures ext, trace := st.trace ++ ext }, t) ∧
        processChart w commit cmt ct ns st chart metadata =
          .next (reconcile w
            { withEntry st chart metadata with
              errs := st.errs ++ yamlFailures ext, trace := st.trace ++ ext,
              catalog := catalog, projectCatalog := cmt.projectCatalog,
              clusterCatalog := cmt.clusterCatalog } t)) := by
  rw [processChart_eq]
  by_cases hskip : skipsChart w st chart metadata = true
  · rw [if_pos hskip]
    exact Or.inl ⟨hskip, rfl⟩
  · rw [if_neg hskip]
    have hskip' : skipsChart w st chart metadata = false := by simpa using hskip
    right
    cases hb : buildTemplate w ct ns (withEntry st chart metadata) chart metadata with
    | exit r =>
      left
      obtain ⟨ext, hext, hbuild⟩ := buildTemplate_exit hb
      have hcat : r.catalog = some (withEntry st chart metadata).catalog :=
        buildTemplate_exit_catalog hb
      exact ⟨hskip', r, ext, rfl, hext, hbuild, Or.inl hcat⟩
    | next p =>
      obtain ⟨st2, t⟩ := p
      obtain ⟨⟨errs1, trace1, hst2, ext, htrace, hbuild, herrs⟩, hname, hn, hns, hmd⟩ :=
        buildTemplate_next hb
      simp only
      cases hr : refreshLocals w commit cmt st2 with
      | exit r =>
        left
        refine ⟨hskip', r, ext, rfl, ?_, hbuild, Or.inr (refreshLocals_exit_catalog hr)⟩
        rw [refreshLocals_exit hr, hst2]
        exact htrace
      | next st3 =>
        right
        obtain ⟨catalog, hcat, hup, hst3⟩ := refreshLocals_next hr
        subst hst3 hst2 htrace herrs
        exact ⟨hskip', ext, t, catalog, hbuild, hname, hn, hns, hmd, hcat, hup, rfl, rfl⟩

/-! ## Reconcile dispatch (lines 218–240) -/

theorem reconcile_notFound {w : World} {st : LoopState} {t : CatalogTemplate} {err : GoError}
    (hgot : w.templateListerGet st.trace t.Namespace t.Name = .error err)
    (hnf : err.isNotFound = true) :
    (reconcile w st t).trace =
      st.trace ++ [Event.templateListerGet t.Namespace t.Name (.error err),
        Event.createTemplate t st.catalog
          (w.createTemplate
            (st.trace ++ [Event.templateListerGet t.Namespace t.Name (.error err)]) t
            st.catalog)] ∧
      (reconcile w st t).catalog = st.catalog := by
  unfold reconcile
  simp only [hgot, hnf, if_true]
  cases w.createTemplate (st.trace ++ [Event.templateListerGet t.Namespace t.Name (.error err)])
    t st.catalog <;> simp

theorem reconcile_found {w : World} {st : LoopState} {t existing : CatalogTemplate}
    (hgot : w.templateListerGet st.trace t.Namespace t.Name = .ok existing) :
    (reconcile w st t).trace =
      st.trace ++ [Event.templateListerGet t.Namespace t.Name (.ok existing),
        Event.updateTemplate existing t
          (w.updateTemplate
            (st.trace ++ [Event.templateListerGet t.Namespace t.Name (.ok existing)]) existing
            t)] ∧
      (reconcile w st t).catalog = st.catalog := by
  unfold reconcile
  simp only [hgot]
  cases w.updateTemplate (st.trace ++ [Event.templateListerGet t.Namespace t.Name (.ok existing)])
    existing t <;> simp

theorem reconcile_lookupError {w : World} {st : LoopState} {t : CatalogTemplate} {err : GoError}
    (hgot : w.templateListerGet st.trace t.Namespace t.Name = .error err)
    (hnf : err.isNotFound = false) :
    reconcile w st t =
      { st with
        trace := st.trace ++ [Event.templateListerGet t.Namespace t.Name (.error err)]
        newHelmVersionCommits := st.newHelmVersionCommits.erase t.DisplayName } := by
  unfold reconcile
  simp only [hgot, hnf]
  rfl

/-- An iteration that makes a lookup is an iteration that built its template and
went on to lines 218–239. -/
theorem processChart_reached (w : World) (commit : String) (cmt : CatalogInfo)
    (ct ns : String) (st : LoopState) (chart : String) (metadata : ChartVersions)
    (hreach : ∃ e ∈ (Step.trace (processChart w commit cmt ct ns st chart metadata)).drop
      st.trace.length, e.isLookup = true) :
    ∃ ext t catalog,
      (∀ e ∈ ext, e.isBuild = true) ∧ t.DisplayName = chart ∧
      t.Name = w.getValidTemplateName st.catalog.Name chart ∧ t.Namespace = ns ∧
      cmt.catalog = some catalog ∧
      processChart w commit cmt ct ns st chart metadata =
        .next (reconcile w
          { withEntry st chart metadata with
            errs := st.errs ++ yamlFailures ext, trace := st.trace ++ ext,
            catalog := catalog, projectCatalog := cmt.projectCatalog,
            clusterCatalog := cmt.clusterCatalog } t) := by
  obtain ⟨e, he, hl⟩ := hreach
  have hnotbuild : ∀ ext : List Event, (∀ x ∈ ext, x.isBuild = true) → e ∉ ext := by
    intro ext hall hmem
    have := hall e hmem
    cases e <;> simp_all [Event.isBuild, Event.isLookup]
  rcases processChart_cases w commit cmt ct ns st chart metadata with
    ⟨-, h⟩ | ⟨-, r, ext, h, htr, hbuild, -⟩ | ⟨-, ext, t, catalog, hbuild, h1, h2, h3, -, h4, -, -, h⟩
  · rw [h] at he
    simp [Step.trace, withEntry] at he
  · rw [h] at he
    simp only [Step.trace, htr, List.drop_left] at he
    exact absurd he (hnotbuild ext hbuild)
  · exact ⟨ext, t, catalog, hbuild, h1, h2, h3, h4, h⟩

/-- C3 (reconcile dispatch): an iteration of the package loop that makes the
lookup goes on to the next chart whatever the create or update answers (the step
is `next`, and the loop continues with the remaining charts); after the build
calls `ext` its calls are exactly the lookup followed by one `createTemplate` of
the built template when the lookup answers not found, and exactly the lookup
followed by one `updateTemplate` of the looked-up template and the built one when
the lookup succeeds. -/
theorem reconcile_dispatch (w : World) (commit : String) (cmt : CatalogInfo)
    (ct ns : String) (st : LoopState) (chart : String) (metadata : ChartVersions)
    (hreach : ∃ e ∈ (Step.trace (processChart w commit cmt ct ns st chart metadata)).drop
      st.trace.length, e.isLookup = true) :
    ∃ st1 ext t catalog,
      processChart w commit cmt ct ns st chart metadata = .next st1 ∧
      (∀ rest, packageLoop w commit cmt ct ns (⟨chart, metadata⟩ :: rest) st =
        packageLoop w commit cmt ct ns rest st1) ∧
      (∀ e ∈ ext, e.isBuild = true) ∧ t.DisplayName = chart ∧ cmt.catalog = some catalog ∧
      (∀ err, w.templateListerGet (st.trace ++ ext) t.Namespace t.Name = .error err →
        err.isNotFound = true →
        st1.trace = st.trace ++ ext ++
          [Event.templateListerGet t.Namespace t.Name (.error err),
            Event.createTemplate t catalog
              (w.createTemplate
                (st.trace ++ ext ++ [Event.templateListerGet t.Namespace t.Name (.error err)])
                t catalog)]) ∧
      (∀ existing, w.templateListerGet (st.trace ++ ext) t.Namespace t.Name = .ok existing →
        st1.trace = st.trace ++ ext ++
          [Event.templateListerGet t.Namespace t.Name (.ok existing),
            Event.updateTemplate existing t
              (w.updateTemplate
                (st.trace ++ ext ++ [Event.templateListerGet t.Namespace t.Name (.ok existing)])
                existing t)]) := by
  obtain ⟨ext, t, catalog, hbuild, hname, -, -, hcat, hp⟩ :=
    processChart_reached w commit cmt ct ns st chart metadata hreach
  refine ⟨_, ext, t, catalog, hp, ?_, hbuild, hname, hcat, ?_, ?_⟩
  · intro rest
    simp only [packageLoop, hp]
  · intro err hgot hnf
    exact (reconcile_notFound hgot hnf).1
  · intro existing hgot
    exact (reconcile_found hgot).1

theorem reconcile_dispatch_witness :
    (∃ e ∈ (Step.trace (processChart (sampleWorld indexAB) "c1" (sampleCatalog ∅ none)
        "catalog" "cattle-global-data" sampleState "a" [release "1.0.0" "x"])).drop
        sampleState.trace.length, e.isLookup = true) ∧
    ∃ st1, processChart (sampleWorld indexAB) "c1" (sampleCatalog ∅ none) "catalog"
        "cattle-global-data" sampleState "a" [release "1.0.0" "x"] = .next st1 :=
  ⟨by decide,
    by
      obtain ⟨st1, _, _, _, h, _⟩ :=
        reconcile_dispatch (sampleWorld indexAB) "c1" (sampleCatalog ∅ none) "catalog"
          "cattle-global-data" sampleState "a" [release "1.0.0" "x"] (by decide)
      exact ⟨st1, h⟩⟩

/-- C4, as amended: when the lookup of an iteration answers an error that is not a
not-found error, the function does not return: the step is `next` and the loop
continues with the remaining charts; neither `createTemplate` nor
`updateTemplate` is called (the lookup is the last call of the iteration), the
error is not added to `createErrors` or `updateErrors`, and the chart is deleted
from the new snapshot. -/
theorem lookup_failure_is_soft (w : World) (commit : String) (cmt : CatalogInfo)
    (ct ns : String) (st : LoopState) (chart : String) (metadata : ChartVersions)
    (hreach : ∃ e ∈ (Step.trace (processChart w commit cmt ct ns st chart metadata)).drop
      st.trace.length, e.isLookup = true) :
    ∃ (st1 : LoopState) (ext : List Event) (t : CatalogTemplate),
      processChart w commit cmt ct ns st chart metadata = .next st1 ∧
      (∀ rest, packageLoop w commit cmt ct ns (⟨chart, metadata⟩ :: rest) st =
        packageLoop w commit cmt ct ns rest st1) ∧
      (∀ e ∈ ext, e.isBuild = true) ∧ t.DisplayName = chart ∧
      (∀ err, w.templateListerGet (st.trace ++ ext) t.Namespace t.Name = .error err →
        err.isNotFound = false →
        st1.trace = st.trace ++ ext ++
          [Event.templateListerGet t.Namespace t.Name (.error err)] ∧
        st1.createErrors = st.createErrors ∧ st1.updateErrors = st.updateErrors ∧
        chart ∉ st1.newHelmVersionCommits) := by
  obtain ⟨ext, t, catalog, hbuild, hname, -, -, hcat, hp⟩ :=
    processChart_reached w commit cmt ct ns st chart metadata hreach
  refine ⟨_, ext, t, hp, ?_, hbuild, hname, ?_⟩
  · intro rest
    simp only [packageLoop, hp]
  · intro err hgot hnf
    rw [reconcile_lookupError hgot hnf]
    refine ⟨rfl, rfl, rfl, ?_⟩
    intro hmem
    rw [hname] at hmem
    exact (AList.mem_erase.mp hmem).1 rfl

theorem lookup_failure_is_soft_witness :
    (∃ e ∈ (Step.trace (processChart worldLookupFails "c1" (sampleCatalog ∅ none)
        "catalog" "cattle-global-data" sampleState "a" [release "1.0.0" "x"])).drop
        sampleState.trace.length, e.isLookup = true) ∧
    ∃ st1, processChart worldLookupFails "c1" (sampleCatalog ∅ none) "catalog"
        "cattle-global-data" sampleState "a" [release "1.0.0" "x"] = .next st1 :=
  ⟨by decide,
    by
      obtain ⟨st1, _, _, h, _⟩ :=
        lookup_failure_is_soft worldLookupFails "c1" (sampleCatalog ∅ none) "catalog"
          "cattle-global-data" sampleState "a" [release "1.0.0" "x"] (by decide)
      exact ⟨st1, h⟩⟩

/-- C4 fails as stated: the lookup of the template of chart `a` answers an error
that is not a not-found error, and the run still processes chart `b` (a second
lookup and the creation of its template), persists the final status with the
commit, and returns `nil`; chart `a` has no entry in the persisted snapshot. -/
theorem lookup_failure_does_not_stop_the_run :
    (((traverseAndUpdate worldLookupFails "c1" (sampleCatalog ∅ none)).trace.filter
        Event.isLookup).length = 2 ∧
      ((traverseAndUpdate worldLookupFails "c1" (sampleCatalog ∅ none)).trace.filterMap
        Event.succeededChart) = ["b"]) ∧
    (traverseAndUpdate worldLookupFails "c1" (sampleCatalog ∅ none)).persistedCommit =
      some "c1" ∧
    ((traverseAndUpdate worldLookupFails "c1" (sampleCatalog ∅ none)).persistedSnapshot.map
      fun s => (digestOf s "a" "1.0.0", digestOf s "b" "1.0.0")) = some (none, some "y") ∧
    (traverseAndUpdate worldLookupFails "c1" (sampleCatalog ∅ none)).outcome =
      .returned .nil := by
  decide

/-! ## Idempotence -/

/-- C2 at the failing input: the index lists version `1.0.0` of chart `a` twice
(same digest) and the snapshot is the content of that index, `{a: {1.0.0: x}}`;
the catalog has all its updates.  Line 75 counts two matched releases, the old
map has one key, so line 79 sets `hasChanged` and the run looks the template up
and updates it.  With the index that lists the version once, the same run makes
no call but status persistence. -/
theorem duplicate_version_is_rebuilt :
    ((indexDuplicate.lookup "a").map fun metadata =>
        (lastDigest metadata "1.0.0", digestOf snapshotOfA "a" "1.0.0",
          hasChanged (AList.insert "1.0.0" "x" ∅) metadata)) =
      some (some "x", some "x", true) ∧
    (((traverseAndUpdate (worldSettled indexDuplicate) "c1"
        (sampleCatalog snapshotOfA none)).trace.filter Event.isLookup).length = 1 ∧
      ((traverseAndUpdate (worldSettled indexDuplicate) "c1"
        (sampleCatalog snapshotOfA none)).trace.filter Event.isUpdate).length = 1) ∧
    (traverseAndUpdate (worldSettled indexA) "c1"
      (sampleCatalog snapshotOfA none)).trace.all Event.isStatusPersistence = true := by
  decide

/-! ## The shape of a run -/

theorem isLoopCall_of_isBuild {e : Event} (h : e.isBuild = true) : e.isLoopCall = true := by
  cases e <;> simp_all [Event.isBuild, Event.isLoopCall]

theorem reconcile_ext (w : World) (st : LoopState) (t : CatalogTemplate) :
    (∃ ext, (reconcile w st t).trace = st.trace ++ ext ∧ ∀ e ∈ ext, e.isLoopCall = true) ∧
      (reconcile w st t).catalog = st.catalog := by
  cases hgot : w.templateListerGet st.trace t.Namespace t.Name with
  | error err =>
    cases hnf : err.isNotFound with
    | true =>
      obtain ⟨h1, h2⟩ := reconcile_notFound hgot hnf
      refine ⟨⟨_, h1, ?_⟩, h2⟩
      intro e he
      simp only [List.mem_cons, List.mem_singleton, List.not_mem_nil, or_false] at he
      rcases he with rfl | rfl <;> rfl
    | false =>
      rw [reconcile_lookupError hgot hnf]
      refine ⟨⟨_, rfl, ?_⟩, rfl⟩
      intro e he
      rw [List.mem_singleton.mp he]
      rfl
  | ok existing =>
    obtain ⟨h1, h2⟩ := reconcile_found hgot
    refine ⟨⟨_, h1, ?_⟩, h2⟩
    intro e he
    simp only [List.mem_cons, List.mem_singleton, List.not_mem_nil, or_false] at he
    rcases he with rfl | rfl <;> rfl

/-- One iteration adds loop calls only, and the local `catalog` stays what it was
or becomes the catalog of `cmt`. -/
theorem processChart_ext (w : World) (commit : String) (cmt : CatalogInfo)
    (ct ns : String) (st : LoopState) (chart : String) (metadata : ChartVersions) :
    match processChart w commit cmt ct ns st chart metadata with
    | .next st1 =>
      (∃ ext, st1.trace = st.trace ++ ext ∧ ∀ e ∈ ext, e.isLoopCall = true) ∧
        (st1.catalog = st.catalog ∨ cmt.catalog = some st1.catalog)
    | .exit r =>
      (∃ ext, r.trace = st.trace ++ ext ∧ ∀ e ∈ ext, e.isLoopCall = true) ∧
        (r.catalog = some st.catalog ∨ r.catalog = cmt.catalog) := by
  rcases processChart_cases w commit cmt ct ns st chart metadata with
    ⟨-, h⟩ | ⟨-, r, ext, h, htr, hbuild, hcat⟩ |
    ⟨-, ext, t, catalog, hbuild, -, -, -, -, h4, -, -, h⟩
  · rw [h]
    exact ⟨⟨[], by simp [withEntry], by simp⟩, Or.inl rfl⟩
  · rw [h]
    exact ⟨⟨ext, htr, fun e he => isLoopCall_of_isBuild (hbuild e he)⟩, hcat⟩
  · rw [h]
    obtain ⟨⟨ext2, htr, hall⟩, hcat⟩ := reconcile_ext w
      { withEntry st chart metadata with
        errs := st.errs ++ yamlFailures ext, trace := st.trace ++ ext,
        catalog := catalog, projectCatalog := cmt.projectCatalog,
        clusterCatalog := cmt.clusterCatalog } t
    refine ⟨⟨ext ++ ext2, by rw [htr]; simp, ?_⟩, Or.inr (by rw [hcat]; exact h4)⟩
    intro e he
    rcases List.mem_append.mp he with h1 | h1
    · exact isLoopCall_of_isBuild (hbuild e h1)
    · exact hall e h1

theorem packageLoop_ext (w : World) (commit : String) (cmt : CatalogInfo)
    (ct ns : String) (rest : List (Σ _ : String, ChartVersions)) (st : LoopState) :
    match packageLoop w commit cmt ct ns rest st with
    | .next st1 =>
      (∃ ext, st1.trace = st.trace ++ ext ∧ ∀ e ∈ ext, e.isLoopCall = true) ∧
        (st1.catalog = st.catalog ∨ cmt.catalog = some st1.catalog)
    | .exit r =>
      (∃ ext, r.trace = st.trace ++ ext ∧ ∀ e ∈ ext, e.isLoopCall = true) ∧
        (r.catalog = some st.catalog ∨ r.catalog = cmt.catalog) := by
  induction rest generalizing st with
  | nil => exact ⟨⟨[], by simp, by simp⟩, Or.inl rfl⟩
  | cons p rest ih =>
    obtain ⟨chart, metadata⟩ := p
    simp only [packageLoop]
    have hstep := processChart_ext w commit cmt ct ns st chart metadata
    cases hp : processChart w commit cmt ct ns st chart metadata with
    | exit r => simpa [hp] using hstep
    | next st1 =>
      simp only [hp] at hstep ⊢
      obtain ⟨⟨ext1, htr1, hall1⟩, hcat1⟩ := hstep
      have hrest := ih st1
      cases hl : packageLoop w commit cmt ct ns rest st1 with
      | exit r =>
        simp only [hl] at hrest ⊢
        obtain ⟨⟨ext2, htr2, hall2⟩, hcat2⟩ := hrest
        refine ⟨⟨ext1 ++ ext2, by rw [htr2, htr1]; simp, ?_⟩, ?_⟩
        · intro e he
          rcases List.mem_append.mp he with h1 | h1
          · exact hall1 e h1
          · exact hall2 e h1
        · rcases hcat2 with h2 | h2
          · rcases hcat1 with h1 | h1
            · exact Or.inl (by rw [h2, h1])
            · exact Or.inr (by rw [h2, h1])
          · exact Or.inr h2
      | next st2 =>
        simp only [hl] at hrest ⊢
        obtain ⟨⟨ext2, htr2, hall2⟩, hcat2⟩ := hrest
        refine ⟨⟨ext1 ++ ext2, by rw [htr2, htr1]; simp, ?_⟩, ?_⟩
        · intro e he
          rcases List.mem_append.mp he with h1 | h1
          · exact hall1 e h1
          · exact hall2 e h1
        · rcases hcat2 with h2 | h2
          · rcases hcat1 with h1 | h1
            · exact Or.inl (by rw [h2, h1])
            · exact Or.inr (by rw [h2]; exact h1)
          · exact Or.inr h2

theorem deleteLoop_next_calls {w : World} {ns : String} {catalog : Catalog}
    (names : List String) {trace trace1 : List Event}
    (h : deleteLoop w ns catalog names trace = .next trace1) :
    trace1 = trace ++ deleteCalls ns names := by
  induction names generalizing trace with
  | nil =>
    simp only [deleteLoop] at h
    injection h with h
    simp [deleteCalls, h]
  | cons name rest ih =>
    simp only [deleteLoop] at h
    cases hres : w.deleteChart trace name ns with
    | some err => simp [hres] at h
    | none =>
      simp only [hres] at h
      rw [ih h]
      simp [deleteCalls]

theorem deleteLoop_exit_calls {w : World} {ns : String} {catalog : Catalog}
    (names : List String) {trace : List Event} {r : Run}
    (h : deleteLoop w ns catalog names trace = .exit r) :
    ∃ pre name post err, names = pre ++ name :: post ∧
      r.trace = trace ++ deleteCalls ns pre ++ [Event.deleteChart name ns (some err)] ∧
      r.outcome = .returned (.err err) ∧ r.catalog = some catalog := by
  induction names generalizing trace with
  | nil => simp [deleteLoop] at h
  | cons name rest ih =>
    simp only [deleteLoop] at h
    cases hres : w.deleteChart trace name ns with
    | some err =>
      simp only [hres] at h
      injection h with h
      subst h
      exact ⟨[], name, rest, err, rfl, by simp [deleteCalls], rfl, rfl⟩
    | none =>
      simp only [hres] at h
      obtain ⟨pre, name1, post, err, hnames, htr, hout, hcat⟩ := ih h
      exact ⟨name :: pre, name1, post, err, by simp [hnames], by simp [htr, deleteCalls],
        hout, hcat⟩

/-- How lines 55–315 proceed: the package loop stops the function, or a deletion
fails, or the end-of-run decision is reached after every deletion succeeded. -/
theorem syncCharts_shape (w : World) (commit : String) (cmt1 : CatalogInfo) (ct ns : String)
    (catalog : Catalog) (pc : Option ProjectCatalog) (cc : Option ClusterCatalog)
    (index : GoMap ChartVersions) (trace0 : List Event) :
    ∃ loopExt, (∀ e ∈ loopExt, e.isLoopCall = true) ∧
      (((syncCharts w commit cmt1 ct ns catalog pc cc index trace0).trace = trace0 ++ loopExt ∧
          ((syncCharts w commit cmt1 ct ns catalog pc cc index trace0).catalog = some catalog ∨
            (syncCharts w commit cmt1 ct ns catalog pc cc index trace0).catalog =
              cmt1.catalog)) ∨
        ∃ st : LoopState, st.trace = trace0 ++ loopExt ∧
          (st.catalog = catalog ∨ cmt1.catalog = some st.catalog) ∧
          ((∃ pre name post err,
              toDeleteChart w st.catalog index = pre ++ name :: post ∧
              (syncCharts w commit cmt1 ct ns catalog pc cc index trace0).trace =
                st.trace ++ deleteCalls ns pre ++ [Event.deleteChart name ns (some err)] ∧
              (syncCharts w commit cmt1 ct ns catalog pc cc index trace0).outcome =
                .returned (.err err) ∧
              (syncCharts w commit cmt1 ct ns catalog pc cc index trace0).catalog =
                some st.catalog) ∨
            syncCharts w commit cmt1 ct ns catalog pc cc index trace0 =
              endOfRun w commit cmt1 ct (w.preprocessCatalog catalog index).1
                { st with trace :=
                    st.trace ++ deleteCalls ns (toDeleteChart w st.catalog index) })) := by
  rcases hpre : w.preprocessCatalog catalog index with ⟨ews, entries⟩
  unfold syncCharts
  simp only [hpre]
  have hloop := packageLoop_ext w commit cmt1 ct ns entries.entries
    { catalog := catalog, projectCatalog := pc, clusterCatalog := cc,
      newHelmVersionCommits := ∅, errs := [], updateErrors := [], createErrors := [],
      trace := trace0 }
  cases hl : packageLoop w commit cmt1 ct ns entries.entries
      { catalog := catalog, projectCatalog := pc, clusterCatalog := cc,
        newHelmVersionCommits := ∅, errs := [], updateErrors := [], createErrors := [],
        trace := trace0 } with
  | exit r =>
    simp only [hl] at hloop ⊢
    obtain ⟨⟨ext, htr, hall⟩, hcat⟩ := hloop
    exact ⟨ext, hall, Or.inl ⟨htr, hcat⟩⟩
  | next st =>
    simp only [hl] at hloop ⊢
    obtain ⟨⟨ext, htr, hall⟩, hcat⟩ := hloop
    refine ⟨ext, hall, Or.inr ⟨st, htr, hcat, ?_⟩⟩
    cases hd : deleteLoop w ns st.catalog (toDeleteChart w st.catalog index) st.trace with
    | exit r =>
      simp only
      exact Or.inl (deleteLoop_exit_calls _ hd)
    | next trace1 =>
      simp only
      rw [deleteLoop_next_calls _ hd]
      exact Or.inr rfl

/-- How a call starts (lines 21–53): it stops before the package loop, with at
most the failed run-start marker in its trace, or it goes on with lines 55–315,
after no call or after the run-start marker. -/
theorem traverseAndUpdate_prelude (w : World) (commit : String) (cmt : CatalogInfo) :
    (((traverseAndUpdate w commit cmt).trace = [] ∨
        ∃ err, (traverseAndUpdate w commit cmt).trace =
          [Event.updateCatalogInfo cmt (w.getCatalogType cmt) "sync" true false (.error err)]) ∧
      (traverseAndUpdate w commit cmt).catalog = cmt.catalog) ∨
    ∃ catalog index ns cmt1 trace0,
      cmt.catalog = some catalog ∧ w.LoadIndex = .ok index ∧
      templateNamespaceOf w (w.getCatalogType cmt) cmt = some ns ∧
      ((trace0 = [] ∧ cmt1 = cmt) ∨
        trace0 = [Event.updateCatalogInfo cmt (w.getCatalogType cmt) "sync" true false
          (.ok cmt1)]) ∧
      traverseAndUpdate w commit cmt =
        syncCharts w commit cmt1 (w.getCatalogType cmt) ns catalog cmt.projectCatalog
          cmt.clusterCatalog index trace0 := by
  cases hidx : w.LoadIndex with
  | error err =>
    have hrun : traverseAndUpdate w commit cmt =
        { outcome := .returned (.err err), trace := [], catalog := cmt.catalog } := by
      unfold traverseAndUpdate; simp only [hidx]
    rw [hrun]
    exact Or.inl ⟨Or.inl rfl, rfl⟩
  | ok index =>
    cases hns : templateNamespaceOf w (w.getCatalogType cmt) cmt with
    | none =>
      have hrun : traverseAndUpdate w commit cmt =
          { outcome := .panic, trace := [], catalog := cmt.catalog } := by
        unfold traverseAndUpdate; simp only [hidx, hns]
      rw [hrun]
      exact Or.inl ⟨Or.inl rfl, rfl⟩
    | some ns =>
      cases hcat : cmt.catalog with
      | none =>
        have hrun : traverseAndUpdate w commit cmt =
            { outcome := .panic, trace := [], catalog := none } := by
          unfold traverseAndUpdate; simp only [hidx, hns, hcat]
        rw [hrun]
        exact Or.inl ⟨Or.inl rfl, rfl⟩
      | some catalog =>
        by_cases hsync : needsSyncMarker catalog = true
        · cases hres : w.updateCatalogInfo [] cmt (w.getCatalogType cmt) "sync" true false with
          | error err =>
            have hrun : traverseAndUpdate w commit cmt =
                { outcome := .returned (.err err),
                  trace := [Event.updateCatalogInfo cmt (w.getCatalogType cmt) "sync" true false
                    (.error err)],
                  catalog := some catalog } := by
              unfold traverseAndUpdate; simp only [hidx, hns, hcat, hsync, hres, if_true]
            rw [hrun]
            exact Or.inl ⟨Or.inr ⟨err, rfl⟩, rfl⟩
          | ok cmt1 =>
            refine Or.inr ⟨catalog, index, ns, cmt1, _, rfl, rfl, rfl, Or.inr rfl, ?_⟩
            unfold traverseAndUpdate; simp only [hidx, hns, hcat, hsync, hres, if_true]
        · refine Or.inr ⟨catalog, index, ns, cmt, [], rfl, rfl, rfl, Or.inl ⟨rfl, rfl⟩, ?_⟩
          unfold traverseAndUpdate; simp only [hidx, hns, hcat, hsync]
          simp

theorem endOfRun_trace (w : World) (commit : String) (cmt : CatalogInfo) (ct : String)
    (ews : List ChartsWithErrors) (st : LoopState) :
    ∃ e, e.isFinalPersist = true ∧ (endOfRun w commit cmt ct ews st).trace = st.trace ++ [e] := by
  obtain ⟨cmtF, catF, cond, result, heq, -⟩ := endOfRun_eq w commit cmt ct ews st
  rw [heq, persistAndReturn_trace]
  exact ⟨Event.updateCatalogInfo cmtF ct "" cond true
    (w.updateCatalogInfo st.trace cmtF ct "" cond true), rfl, rfl⟩

theorem loopCall_facts {e : Event} (h : e.isLoopCall = true) :
    e.isDelete = false ∧ e.isFinalPersist = false ∧ e.deleteFailure = none := by
  cases e <;> simp_all [Event.isLoopCall, Event.isDelete, Event.isFinalPersist,
    Event.deleteFailure]

theorem held_of_start {w : World} {cmt cmt1 : CatalogInfo} {catalog : Catalog}
    {trace0 : List Event} (rest : List Event) {run : Run} {c : Option Catalog}
    (hcat : cmt.catalog = some catalog)
    (h0 : (trace0 = [] ∧ cmt1 = cmt) ∨
      trace0 = [Event.updateCatalogInfo cmt (w.getCatalogType cmt) "sync" true false (.ok cmt1)])
    (htr : run.trace = trace0 ++ rest) (hc : c = some catalog ∨ c = cmt1.catalog) :
    HeldCatalog cmt run c := by
  rcases hc with hc | hc
  · exact Or.inl (by rw [hc, hcat])
  · rcases h0 with ⟨-, h1⟩ | h1
    · exact Or.inl (by rw [hc, h1])
    · refine Or.inr ?_
      rw [htr, h1, hc]
      rfl

theorem start_facts {w : World} {cmt cmt1 : CatalogInfo} {trace0 : List Event}
    (h0 : (trace0 = [] ∧ cmt1 = cmt) ∨
      trace0 = [Event.updateCatalogInfo cmt (w.getCatalogType cmt) "sync" true false (.ok cmt1)]) :
    ∀ e ∈ trace0, e.isDelete = false ∧ e.isFinalPersist = false ∧ e.deleteFailure = none := by
  intro e he
  rcases h0 with ⟨h1, -⟩ | h1
  · rw [h1] at he; cases he
  · rw [h1] at he
    rw [List.mem_singleton.mp he]
    exact ⟨rfl, rfl, rfl⟩

/-- The shape of a run: it stops before pruning (no deletion, no final
persistence); or a deletion fails and is the last call; or every deletion of
line 251 succeeds and the final persistence is the last call. -/
theorem traverseAndUpdate_shape (w : World) (commit : String) (cmt : CatalogInfo) :
    ((∀ e ∈ (traverseAndUpdate w commit cmt).trace,
        e.isDelete = false ∧ e.isFinalPersist = false) ∧
      HeldCatalog cmt (traverseAndUpdate w commit cmt) (traverseAndUpdate w commit cmt).catalog) ∨
    (∃ pre name ns err,
      (traverseAndUpdate w commit cmt).trace = pre ++ [Event.deleteChart name ns (some err)] ∧
      (∀ e ∈ pre, e.deleteFailure = none ∧ e.isFinalPersist = false) ∧
      (traverseAndUpdate w commit cmt).outcome = .returned (.err err) ∧
      HeldCatalog cmt (traverseAndUpdate w commit cmt)
        (traverseAndUpdate w commit cmt).catalog) ∨
    (∃ catalogP index ns pre e,
      w.LoadIndex = .ok index ∧
      templateNamespaceOf w (w.getCatalogType cmt) cmt = some ns ∧
      HeldCatalog cmt (traverseAndUpdate w commit cmt) (some catalogP) ∧
      (traverseAndUpdate w commit cmt).trace =
        pre ++ deleteCalls ns (toDeleteChart w catalogP index) ++ [e] ∧
      e.isFinalPersist = true ∧
      ∀ x ∈ pre, x.isDelete = false ∧ x.isFinalPersist = false) := by
  rcases traverseAndUpdate_prelude w commit cmt with
    ⟨htr, hcat⟩ | ⟨catalog, index, ns, cmt1, trace0, hcat, hidx, hns, h0, hrun⟩
  · refine Or.inl ⟨?_, Or.inl hcat⟩
    intro e he
    rcases htr with h | ⟨err, h⟩
    · rw [h] at he; cases he
    · rw [h] at he
      rw [List.mem_singleton.mp he]
      exact ⟨rfl, rfl⟩
  · obtain ⟨loopExt, hloop, hshape⟩ := syncCharts_shape w commit cmt1 (w.getCatalogType cmt) ns
      catalog cmt.projectCatalog cmt.clusterCatalog index trace0
    rw [← hrun] at hshape
    have hpre : ∀ e ∈ trace0 ++ loopExt,
        e.isDelete = false ∧ e.isFinalPersist = false ∧ e.deleteFailure = none := by
      intro e he
      rcases List.mem_append.mp he with h1 | h1
      · exact start_facts h0 e h1
      · exact loopCall_facts (hloop e h1)
    rcases hshape with ⟨htr, hc⟩ | ⟨st, hst, hc, hdel | hend⟩
    · refine Or.inl ⟨?_, held_of_start loopExt hcat h0 htr hc⟩
      intro e he
      rw [htr] at he
      exact ⟨(hpre e he).1, (hpre e he).2.1⟩
    · obtain ⟨pre, name, post, err, -, htr, hout, hrc⟩ := hdel
      refine Or.inr (Or.inl ⟨st.trace ++ deleteCalls ns pre, name, ns, err, htr, ?_, hout, ?_⟩)
      · intro e he
        rcases List.mem_append.mp he with h1 | h1
        · rw [hst] at h1
          exact ⟨(hpre e h1).2.2, (hpre e h1).2.1⟩
        · obtain ⟨n, -, rfl⟩ := List.mem_map.mp h1
          exact ⟨rfl, rfl⟩
      · refine held_of_start
          (loopExt ++ deleteCalls ns pre ++ [Event.deleteChart name ns (some err)]) hcat h0
          (by rw [htr, hst]; simp) ?_
        rw [hrc]
        rcases hc with h1 | h1
        · exact Or.inl (by rw [h1])
        · exact Or.inr h1.symm
    · obtain ⟨e, hfinal, htr⟩ := endOfRun_trace w commit cmt1 (w.getCatalogType cmt)
        (w.preprocessCatalog catalog index).1
        { st with trace := st.trace ++ deleteCalls ns (toDeleteChart w st.catalog index) }
      rw [← hend] at htr
      simp only at htr
      refine Or.inr (Or.inr ⟨st.catalog, index, ns, st.trace, e, hidx, hns, ?_, htr, hfinal, ?_⟩)
      · refine held_of_start
          (loopExt ++ deleteCalls ns (toDeleteChart w st.catalog index) ++ [e]) hcat h0
          (by rw [htr, hst]; simp) ?_
        rcases hc with h1 | h1
        · exact Or.inl (by rw [h1])
        · exact Or.inr h1.symm
      · intro x hx
        rw [hst] at hx
        exact ⟨(hpre x hx).1, (hpre x hx).2.1⟩

/-! ## Pruning (lines 242–255) -/

theorem isDelete_of_deleteFailure {e : Event} (h : e.deleteFailure.isSome = true) :
    e.isDelete = true := by
  cases e <;> simp_all [Event.deleteFailure, Event.isDelete]

theorem deleteCalls_facts {ns : String} {names : List String} {e : Event}
    (h : e ∈ deleteCalls ns names) :
    e.isDelete = true ∧ e.deleteFailure = none ∧ e.isFinalPersist = false := by
  obtain ⟨n, -, rfl⟩ := List.mem_map.mp h
  exact ⟨rfl, rfl, rfl⟩

theorem final_facts {e : Event} (h : e.isFinalPersist = true) :
    e.isDelete = false ∧ e.deleteFailure = none := by
  cases e <;> simp_all [Event.isDelete, Event.deleteFailure, Event.isFinalPersist]

/-- C12 (a delete failure is a hard stop): in a run in which a `deleteChart` call
returns an error, that call is the last call of the run (no further deletion, no
status persistence after it), no earlier call is a failed deletion or a final
status persistence, the function returns that same error, and the catalog it
holds is the one it received (from the caller or from the run-start persistence):
neither its snapshot nor its commit was replaced. -/
theorem delete_failure_stops_run (w : World) (commit : String) (cmt : CatalogInfo)
    (hdel : ∃ e ∈ (traverseAndUpdate w commit cmt).trace, e.deleteFailure.isSome = true) :
    ∃ pre name ns err,
      (traverseAndUpdate w commit cmt).trace = pre ++ [Event.deleteChart name ns (some err)] ∧
      (∀ e ∈ pre, e.deleteFailure = none ∧ e.isFinalPersist = false) ∧
      (traverseAndUpdate w commit cmt).outcome = .returned (.err err) ∧
      HeldCatalog cmt (traverseAndUpdate w commit cmt)
        (traverseAndUpdate w commit cmt).catalog := by
  obtain ⟨e, he, hfail⟩ := hdel
  have hd := isDelete_of_deleteFailure hfail
  rcases traverseAndUpdate_shape w commit cmt with
    ⟨hall, -⟩ | h | ⟨catalogP, index, ns, pre, f, -, -, -, htr, hfinal, hpre⟩
  · rw [(hall e he).1] at hd
    cases hd
  · exact h
  · rw [htr] at he
    rcases List.mem_append.mp he with h1 | h1
    · rcases List.mem_append.mp h1 with h2 | h2
      · rw [(hpre e h2).1] at hd
        cases hd
      · rw [(deleteCalls_facts h2).2.1] at hfail
        cases hfail
    · rw [List.mem_singleton.mp h1, (final_facts hfinal).2] at hfail
      cases hfail

theorem delete_failure_stops_run_witness :
    (∃ e ∈ (traverseAndUpdate worldDeleteFails "c1" (sampleCatalog snapshotOld none)).trace,
      e.deleteFailure.isSome = true) ∧
    ∃ err, (traverseAndUpdate worldDeleteFails "c1" (sampleCatalog snapshotOld none)).outcome =
      .returned (.err err) :=
  ⟨by decide,
    by
      obtain ⟨_, _, _, err, _, _, h, _⟩ :=
        delete_failure_stops_run worldDeleteFails "c1" (sampleCatalog snapshotOld none)
          (by decide)
      exact ⟨err, h⟩⟩

theorem filter_isDelete_shape {pre : List Event} {ns : String} {names : List String} {e : Event}
    (hpre : ∀ x ∈ pre, x.isDelete = false ∧ x.isFinalPersist = false)
    (hfinal : e.isFinalPersist = true) :
    (pre ++ deleteCalls ns names ++ [e]).filter Event.isDelete = deleteCalls ns names := by
  have h1 : pre.filter Event.isDelete = [] := by
    rw [List.filter_eq_nil_iff]
    intro x hx
    simp [(hpre x hx).1]
  have h2 : (deleteCalls ns names).filter Event.isDelete = deleteCalls ns names := by
    rw [List.filter_eq_self]
    intro x hx
    exact (deleteCalls_facts hx).1
  simp [List.filter_append, h1, h2, (final_facts hfinal).1]

/-- C11 (pruning): in a run that reaches the final status persistence (no fatal
error), with a `preprocessCatalog` that hands over charts of the index only, the
`deleteChart` calls of the run are exactly, in the order of the `range`, one
successful call for each key of the old snapshot (the snapshot of the catalog the
function holds at line 243) that is not a key of the index, with the name
`getValidTemplateName(catalog.Name, chart)` and the template namespace; and no
chart that is absent from the index has an entry in the new snapshot. -/
theorem pruning (w : World) (commit : String) (cmt : CatalogInfo)
    (hend : (traverseAndUpdate w commit cmt).persisted.isSome = true)
    (hsub : ∀ catalog index chart, chart ∈ (w.preprocessCatalog catalog index).2 →
      chart ∈ index) :
    ∃ catalogP index ns snapshot,
      w.LoadIndex = .ok index ∧
      templateNamespaceOf w (w.getCatalogType cmt) cmt = some ns ∧
      HeldCatalog cmt (traverseAndUpdate w commit cmt) (some catalogP) ∧
      (traverseAndUpdate w commit cmt).trace.filter Event.isDelete =
        (catalogP.Status.HelmVersionCommits.keys.filter
          fun chart => (index.lookup chart).isNone).map
          (fun chart =>
            Event.deleteChart (w.getValidTemplateName catalogP.Name chart) ns none) ∧
      (traverseAndUpdate w commit cmt).persistedSnapshot = some snapshot ∧
      ∀ chart, chart ∉ index → chart ∉ snapshot := by
  obtain ⟨cmtF, hp⟩ := Option.isSome_iff_exists.mp hend
  obtain ⟨catalog, index1, done, st, catF, cond, result, hrun⟩ := traverseAndUpdate_persisted hp
  rcases traverseAndUpdate_shape w commit cmt with
    ⟨hall, -⟩ | ⟨pre, name, ns, err, htr, -, -, -⟩ |
    ⟨catalogP, index, ns, pre, f, hidx, hns, hheld, htr, hfinal, hpre⟩
  · rw [persisted_none_of_noFinal fun e he => (hall e he).2] at hp
    cases hp
  · simp [Run.persisted, htr] at hp
  · have hsame : index1 = index := by
      have := hrun.fromIndex
      rw [hidx] at this
      injection this with this
      exact this.symm
    subst hsame
    refine ⟨catalogP, index1, ns, st.newHelmVersionCommits, hidx, hns, hheld, ?_,
      (hrun.persistedCommit_eq hp).2, ?_⟩
    · rw [htr, filter_isDelete_shape hpre hfinal]
      simp [deleteCalls, toDeleteChart, List.map_map, Function.comp_def]
    · intro chart hnot hmem
      obtain ⟨metadata, hmd, -⟩ := hrun.inv.content chart hmem
      exact hnot (hsub catalog index1 chart (AList.lookup_isSome.mp (by simp [hmd])))

theorem pruning_witness :
    (traverseAndUpdate (sampleWorld indexA) "c1" (sampleCatalog snapshotOld none)).persisted.isSome =
      true ∧
    (∀ catalog index chart, chart ∈ ((sampleWorld indexA).preprocessCatalog catalog index).2 →
      chart ∈ index) ∧
    ∃ (catalogP : Catalog) (index : GoMap ChartVersions) (ns : String),
      (sampleWorld indexA).LoadIndex = .ok index ∧
      (traverseAndUpdate (sampleWorld indexA) "c1" (sampleCatalog snapshotOld none)).trace.filter
          Event.isDelete =
        (catalogP.Status.HelmVersionCommits.keys.filter
          fun chart => (index.lookup chart).isNone).map
          (fun chart =>
            Event.deleteChart ((sampleWorld indexA).getValidTemplateName catalogP.Name chart) ns
              none) :=
  ⟨by decide, fun _ _ _ h => h,
    by
      obtain ⟨catalogP, index, ns, _, h1, _, _, h2, _⟩ :=
        pruning (sampleWorld indexA) "c1" (sampleCatalog snapshotOld none) (by decide)
          (fun _ _ _ h => h)
      exact ⟨catalogP, index, ns, h1, h2⟩⟩

/-! ## Metadata extraction (lines 111–165) -/

/-- The inner loop of lines 122–138 applies the descriptor of the file when it has
one and leaves the three fields, the labels and the keywords alone otherwise. -/
theorem scanSupported_fields (w : World) (chart : String) (file : File) (names : List String)
    (s : FileScan) :
    (scanSupported w chart file names s).v =
        (match parsedDescriptor w chart names file with
          | some value => (applyDescriptor s value).v
          | none => s.v) ∧
      (scanSupported w chart file names s).label =
        (match parsedDescriptor w chart names file with
          | some value => (applyDescriptor s value).label
          | none => s.label) ∧
      (scanSupported w chart file names s).keywords =
        (match parsedDescriptor w chart names file with
          | some value => (applyDescriptor s value).keywords
          | none => s.keywords) := by
  induction names generalizing s with
  | nil => simp [scanSupported, parsedDescriptor]
  | cons f rest ih =>
    unfold scanSupported
    by_cases hm : w.EqualFold (chart ++ "/" ++ f) file.Name = true
    · simp only [hm, if_true]
      cases hres : w.yamlUnmarshal file.Contents with
      | error err =>
        simp only
        have hnone : ∀ names, parsedDescriptor w chart names file = none := by
          intro names
          simp [parsedDescriptor, hres]
        have := ih { s with errs := s.errs ++ [err],
                            trace := s.trace ++ [Event.yamlUnmarshal file.Contents (.error err)] }
        rw [hnone] at this ⊢
        exact this
      | ok value =>
        simp only [parsedDescriptor, List.any_cons, hm, Bool.true_or, if_true, hres]
        exact ⟨rfl, rfl, rfl⟩
    · have hm' : w.EqualFold (chart ++ "/" ++ f) file.Name = false := by simpa using hm
      simp only [hm', Bool.false_eq_true, if_false]
      have := ih s
      simp only [parsedDescriptor, List.any_cons, hm', Bool.false_or] at this ⊢
      exact this

theorem SameScan.apply {a b : FileScan} (h : SameScan a b) (value : catalogYml) :
    SameScan (applyDescriptor a value) (applyDescriptor b value) := by
  obtain ⟨h1, h2, h3⟩ := h
  simp only [SameScan, applyDescriptor, h1, h2, h3, and_self]

theorem scanSupported_same (w : World) (chart : String) (file : File) (names : List String)
    {a b : FileScan} (h : SameScan a b) :
    SameScan (scanSupported w chart file names a)
      (match parsedDescriptor w chart names file with
        | some value => applyDescriptor b value
        | none => b) := by
  obtain ⟨h1, h2, h3⟩ := scanSupported_fields w chart file names a
  cases hd : parsedDescriptor w chart names file with
  | none =>
    rw [hd] at h1 h2 h3
    exact ⟨h1.trans h.1, h2.trans h.2.1, h3.trans h.2.2⟩
  | some value =>
    rw [hd] at h1 h2 h3
    obtain ⟨g1, g2, g3⟩ := h.apply value
    exact ⟨h1.trans g1, h2.trans g2, h3.trans g3⟩

/-- The loop of lines 121–139 applies, in the order of the fetched list, the
descriptor of every file that has one. -/
theorem scanFiles_same (w : World) (chart : String) (files : List File) {a b : FileScan}
    (h : SameScan a b) :
    SameScan (scanFiles w chart files a)
      ((files.filterMap (parsedDescriptor w chart supportedFiles)).foldl applyDescriptor b) := by
  induction files generalizing a b with
  | nil => exact h
  | cons file rest ih =>
    simp only [scanFiles, List.foldl_cons, List.filterMap_cons]
    have hstep := scanSupported_same w chart file supportedFiles h
    cases hd : parsedDescriptor w chart supportedFiles file with
    | none =>
      rw [hd] at hstep
      exact ih hstep
    | some value =>
      rw [hd] at hstep
      simp only [List.foldl_cons]
      exact ih hstep

theorem foldl_applyDescriptor (s : FileScan) (descriptors : List catalogYml) :
    ((descriptors.foldl applyDescriptor s).v.RancherMinVersion =
        (match descriptors.getLast? with
          | some d => d.RancherMin
          | none => s.v.RancherMinVersion)) ∧
      ((descriptors.foldl applyDescriptor s).v.RancherMaxVersion =
        (match descriptors.getLast? with
          | some d => d.RancherMax
          | none => s.v.RancherMaxVersion)) ∧
      ((descriptors.foldl applyDescriptor s).v.RequiredNamespace =
        (match descriptors.getLast? with
          | some d => d.Namespace
          | none => s.v.RequiredNamespace)) ∧
      (descriptors.foldl applyDescriptor s).label = mergeLabels s.label descriptors := by
  induction descriptors using List.reverseRecOn with
  | nil => exact ⟨rfl, rfl, rfl, rfl⟩
  | append_singleton rest d ih =>
    simp only [List.foldl_append, List.foldl_cons, List.foldl_nil, List.getLast?_concat,
      mergeLabels]
    refine ⟨rfl, rfl, rfl, ?_⟩
    simp only [applyDescriptor]
    rw [ih.2.2.2]
    rfl

theorem upgradeLinkStep_fields (w : World) (name : String) (v x : TemplateVersionSpec) :
    (upgradeLinkStep w name v x).RancherMinVersion = v.RancherMinVersion ∧
      (upgradeLinkStep w name v x).RancherMaxVersion = v.RancherMaxVersion ∧
      (upgradeLinkStep w name v x).RequiredNamespace = v.RequiredNamespace := by
  unfold upgradeLinkStep
  cases hs : w.showUpgradeLinks v.Version x.Version
  · simp only [Bool.false_eq_true, if_false, and_self]
  · simp only [if_true, and_self]

theorem foldl_upgradeLinkStep_fields (w : World) (name : String)
    (xs : List TemplateVersionSpec) (v : TemplateVersionSpec) :
    (xs.foldl (upgradeLinkStep w name) v).RancherMinVersion = v.RancherMinVersion ∧
      (xs.foldl (upgradeLinkStep w name) v).RancherMaxVersion = v.RancherMaxVersion ∧
      (xs.foldl (upgradeLinkStep w name) v).RequiredNamespace = v.RequiredNamespace := by
  induction xs generalizing v with
  | nil => exact ⟨rfl, rfl, rfl⟩
  | cons x rest ih =>
    simp only [List.foldl_cons]
    obtain ⟨h1, h2, h3⟩ := ih (upgradeLinkStep w name v x)
    obtain ⟨g1, g2, g3⟩ := upgradeLinkStep_fields w name v x
    exact ⟨h1.trans g1, h2.trans g2, h3.trans g3⟩

theorem mem_mergeLabels (key : String) (descriptors : List catalogYml) (label : GoMap String) :
    key ∈ mergeLabels label descriptors ↔
      key ∈ label ∨ ∃ d ∈ descriptors, key ∈ d.Labels := by
  induction descriptors generalizing label with
  | nil => simp [mergeLabels]
  | cons d rest ih =>
    have hstep : mergeLabels label (d :: rest) = mergeLabels (labelsMerge label d.Labels) rest :=
      rfl
    rw [hstep, ih]
    simp only [labelsMerge, AList.mem_union, List.mem_cons, exists_eq_or_imp]
    tauto

theorem foldl_applyDescriptor_keywords (s : FileScan) (descriptors : List catalogYml) :
    (descriptors.foldl applyDescriptor s).keywords = mergeCategories s.keywords descriptors := by
  induction descriptors generalizing s with
  | nil => rfl
  | cons d rest ih =>
    simp only [List.foldl_cons]
    rw [ih]
    rfl

theorem mem_foldl_insert (category : String) (categories : List String) (keywords : GoMap Unit) :
    category ∈ categories.foldl (fun k c => k.insert c ()) keywords ↔
      category ∈ keywords ∨ category ∈ categories := by
  induction categories generalizing keywords with
  | nil => simp
  | cons c rest ih =>
    simp only [List.foldl_cons, ih, AList.mem_insert, List.mem_cons]
    tauto

theorem mem_mergeCategories (category : String) (descriptors : List catalogYml)
    (keywords : GoMap Unit) :
    category ∈ mergeCategories keywords descriptors ↔
      category ∈ keywords ∨ ∃ d ∈ descriptors, category ∈ d.Categories := by
  induction descriptors generalizing keywords with
  | nil => simp [mergeCategories]
  | cons d rest ih =>
    have hstep : mergeCategories keywords (d :: rest) =
        mergeCategories (d.Categories.foldl (fun k c => k.insert c ()) keywords) rest := rfl
    rw [hstep, ih, mem_foldl_insert]
    simp only [List.mem_cons, exists_eq_or_imp]
    tauto

/-- C13, as amended: for a release whose files were fetched, the
`RancherMinVersion`, `RancherMaxVersion` and `RequiredNamespace` of its version
spec are those of the last fetched file that has a supported name and parses
(they stay empty when there is none), and every such file, in the order of the
fetched list, merges its labels into the labels of the template and adds its
categories to the keywords of the template: the `break` of line 136 ends the loop
over the supported names only, not the loop over the files. -/
theorem last_descriptor_wins (w : World) (catalog : Catalog) (ct ns chart : String)
    (template : CatalogTemplate) (acc : BuildAcc) (version : ChartVersion) (files : List File)
    (hfetch : w.FetchLocalFiles acc.trace version = .ok files) :
    ∃ acc1 v,
      buildVersion w catalog ct ns chart template acc version = .next acc1 ∧
      acc1.versions = acc.versions ++ [v] ∧
      (v.RancherMinVersion =
        match (files.filterMap (parsedDescriptor w chart supportedFiles)).getLast? with
        | some d => d.RancherMin
        | none => "") ∧
      (v.RancherMaxVersion =
        match (files.filterMap (parsedDescriptor w chart supportedFiles)).getLast? with
        | some d => d.RancherMax
        | none => "") ∧
      (v.RequiredNamespace =
        match (files.filterMap (parsedDescriptor w chart supportedFiles)).getLast? with
        | some d => d.Namespace
        | none => "") ∧
      acc1.label = mergeLabels acc.label
        (files.filterMap (parsedDescriptor w chart supportedFiles)) ∧
      acc1.keywords = mergeCategories acc.keywords
        (files.filterMap (parsedDescriptor w chart supportedFiles)) ∧
      (∀ category, category ∈ acc1.keywords ↔
        category ∈ acc.keywords ∨
          ∃ d ∈ files.filterMap (parsedDescriptor w chart supportedFiles),
            category ∈ d.Categories) ∧
      (∀ key, key ∈ acc1.label ↔
        key ∈ acc.label ∨
          ∃ d ∈ files.filterMap (parsedDescriptor w chart supportedFiles), key ∈ d.Labels) := by
  have hsame : SameScan
      { v := { Version := w.ToLower version.Version }, label := acc.label,
        keywords := acc.keywords, errs := acc.errs,
        trace := acc.trace ++ [Event.FetchLocalFiles version (.ok files)] }
      { v := { Version := w.ToLower version.Version }, label := acc.label,
        keywords := acc.keywords, errs := acc.errs,
        trace := acc.trace ++ [Event.FetchLocalFiles version (.ok files)] } := ⟨rfl, rfl, rfl⟩
  obtain ⟨hv, hl, hk⟩ := scanFiles_same w chart files hsame
  obtain ⟨f1, f2, f3, f4⟩ := foldl_applyDescriptor
    { v := { Version := w.ToLower version.Version }, label := acc.label,
      keywords := acc.keywords, errs := acc.errs,
      trace := acc.trace ++ [Event.FetchLocalFiles version (.ok files)] }
    (files.filterMap (parsedDescriptor w chart supportedFiles))
  have f5 := foldl_applyDescriptor_keywords
    { v := { Version := w.ToLower version.Version }, label := acc.label,
      keywords := acc.keywords, errs := acc.errs,
      trace := acc.trace ++ [Event.FetchLocalFiles version (.ok files)] }
    (files.filterMap (parsedDescriptor w chart supportedFiles))
  unfold buildVersion
  simp only [hfetch]
  refine ⟨_, _, rfl, rfl, ?_, ?_, ?_, ?_, ?_, ?_, ?_⟩
  · simp only
    rw [(foldl_upgradeLinkStep_fields w template.Name template.Versions _).1]
    simp only
    rw [hv, f1]
  · simp only
    rw [(foldl_upgradeLinkStep_fields w template.Name template.Versions _).2.1]
    simp only
    rw [hv, f2]
  · simp only
    rw [(foldl_upgradeLinkStep_fields w template.Name template.Versions _).2.2]
    simp only
    rw [hv, f3]
  · simp only
    rw [hl, f4]
  · simp only
    rw [hk, f5]
  · intro category
    simp only
    rw [hk, f5, mem_mergeCategories]
  · intro key
    simp only
    rw [hl, f4, mem_mergeLabels]

theorem last_descriptor_wins_witness :
    worldTwoDescriptors.FetchLocalFiles sampleAcc.trace (release "1.0.0" "x") =
        .ok [{ Name := "a/catalog.yml", Contents := "first" },
             { Name := "a/questions.yml", Contents := "second" }] ∧
    ∃ acc1 v,
      buildVersion worldTwoDescriptors sampleState.catalog "catalog" "cattle-global-data" "a"
        { Name := "a" } sampleAcc (release "1.0.0" "x") = .next acc1 ∧
      acc1.versions = sampleAcc.versions ++ [v] ∧
      v.RancherMinVersion = "second" ∧
      "first" ∈ acc1.keywords ∧ "second" ∈ acc1.keywords ∧
      "first" ∈ acc1.label ∧ "second" ∈ acc1.label :=
  ⟨rfl,
    by
      obtain ⟨acc1, v, h1, h2, h3, -, -, -, -, h8, h9⟩ :=
        last_descriptor_wins worldTwoDescriptors sampleState.catalog "catalog"
          "cattle-global-data" "a" { Name := "a" } sampleAcc (release "1.0.0" "x")
          [{ Name := "a/catalog.yml", Contents := "first" },
           { Name := "a/questions.yml", Contents := "second" }] rfl
      have hd : [({ Name := "a/catalog.yml", Contents := "first" } : File),
            { Name := "a/questions.yml", Contents := "second" }].filterMap
          (parsedDescriptor worldTwoDescriptors "a" supportedFiles) =
          [{ RancherMin := "first", RancherMax := "", Categories := ["first"],
             Namespace := "", Labels := AList.insert "first" "yes" ∅ },
           { RancherMin := "second", RancherMax := "", Categories := ["second"],
             Namespace := "", Labels := AList.insert "second" "yes" ∅ }] := rfl
      rw [hd] at h3 h8 h9
      refine ⟨acc1, v, h1, h2, h3, (h8 "first").mpr (Or.inr ?_), (h8 "second").mpr (Or.inr ?_),
        (h9 "first").mpr (Or.inr ?_), (h9 "second").mpr (Or.inr ?_)⟩
      · exact ⟨_, List.mem_cons_self _ _, by simp⟩
      · exact ⟨_, List.mem_cons_of_mem _ (List.mem_cons_self _ _), by simp⟩
      · exact ⟨_, List.mem_cons_self _ _, (AList.mem_insert _).mpr (Or.inl rfl)⟩
      · exact ⟨_, List.mem_cons_of_mem _ (List.mem_cons_self _ _),
          (AList.mem_insert _).mpr (Or.inl rfl)⟩⟩

/-- C13 fails as stated: the release comes with `catalog.yml` (minimal version
`first`) and then `questions.yml` (minimal version `second`), both parse; the
version spec of the created template has the minimal version of the second file,
and the labels and categories of the template hold what the second file
contributes. -/
theorem first_descriptor_does_not_win :
    ((traverseAndUpdate worldTwoDescriptors "c1" (sampleCatalog ∅ none)).trace.filterMap
        Event.createdTemplate).map
      (fun t => (t.Versions.map fun v => v.RancherMinVersion, t.Labels.lookup "second",
        t.Categories.contains "second")) =
      [(["second"], some "yes", true)] := by
  decide

/-! ## Upgrade links (lines 148–157) -/

theorem foldl_applyDescriptor_links (s : FileScan) (descriptors : List catalogYml) :
    (descriptors.foldl applyDescriptor s).v.UpgradeVersionLinks = s.v.UpgradeVersionLinks := by
  induction descriptors generalizing s with
  | nil => rfl
  | cons d rest ih =>
    simp only [List.foldl_cons]
    rw [ih]
    rfl

theorem buildVersion_links {w : World} {catalog : Catalog} {ct ns chart : String}
    {template : CatalogTemplate} {acc acc1 : BuildAcc} {version : ChartVersion}
    (hempty : template.Versions = [])
    (h : buildVersion w catalog ct ns chart template acc version = .next acc1) :
    ∃ v, acc1.versions = acc.versions ++ [v] ∧ v.UpgradeVersionLinks = none := by
  unfold buildVersion at h
  cases hres : w.FetchLocalFiles acc.trace version with
  | error err => simp [hres] at h
  | ok files =>
    simp only [hres, hempty, List.foldl_nil] at h
    injection h with h
    subst h
    refine ⟨_, rfl, ?_⟩
    have hsame : SameScan
        { v := { Version := w.ToLower version.Version }, label := acc.label,
          keywords := acc.keywords, errs := acc.errs,
          trace := acc.trace ++ [Event.FetchLocalFiles version (.ok files)] }
        { v := { Version := w.ToLower version.Version }, label := acc.label,
          keywords := acc.keywords, errs := acc.errs,
          trace := acc.trace ++ [Event.FetchLocalFiles version (.ok files)] } := ⟨rfl, rfl, rfl⟩
    obtain ⟨hv, -, -⟩ := scanFiles_same w chart files hsame
    simp only
    rw [hv, foldl_applyDescriptor_links]

theorem buildVersions_links {w : World} {catalog : Catalog} {ct ns chart : String}
    {template : CatalogTemplate} {metadata : ChartVersions} {acc acc1 : BuildAcc}
    (hempty : template.Versions = [])
    (hacc : ∀ v ∈ acc.versions, v.UpgradeVersionLinks = none)
    (h : buildVersions w catalog ct ns chart template metadata acc = .next acc1) :
    ∀ v ∈ acc1.versions, v.UpgradeVersionLinks = none := by
  induction metadata generalizing acc with
  | nil =>
    simp only [buildVersions] at h
    injection h with h
    subst h
    exact hacc
  | cons version rest ih =>
    simp only [buildVersions] at h
    cases hv : buildVersion w catalog ct ns chart template acc version with
    | exit r => simp [hv] at h
    | next acc2 =>
      simp only [hv] at h
      obtain ⟨v, hvs, hnone⟩ := buildVersion_links hempty hv
      refine ih ?_ h
      intro x hx
      rw [hvs] at hx
      rcases List.mem_append.mp hx with h1 | h1
      · exact hacc x h1
      · rw [List.mem_singleton.mp h1]; exact hnone

theorem scopeTemplate_versions {w : World} {catalogType : String} {catalog : Catalog}
    {projectCatalog : Option ProjectCatalog} {clusterCatalog : Option ClusterCatalog}
    {template t : CatalogTemplate}
    (h : scopeTemplate w catalogType catalog projectCatalog clusterCatalog template = .ok t) :
    t.Versions = template.Versions ∧ (catalogType = w.CatalogType → t.Labels = template.Labels) := by
  unfold scopeTemplate at h
  split at h
  · injection h with h; subst h; simp
  · rename_i hne
    have hl : catalogType = w.CatalogType → t.Labels = template.Labels :=
      fun heq => absurd heq hne
    refine ⟨?_, hl⟩
    split at h
    · split at h
      · simp at h
      · split at h
        · simp at h
        · injection h with h; subst h; simp
    · split at h
      · split at h
        · simp at h
        · split at h
          · simp at h
          · split at h
            · simp at h
            · injection h with h; subst h; simp
      · injection h with h; subst h; simp

/-- The version specs of a built template: the loop of lines 148–157 runs over
`template.Spec.Versions`, which is assigned at line 173 only, so it never runs. -/
theorem buildTemplate_links {w : World} {ct ns : String} {st st1 : LoopState} {chart : String}
    {metadata : ChartVersions} {t : CatalogTemplate}
    (h : buildTemplate w ct ns st chart metadata = .next (st1, t)) :
    ∀ v ∈ t.Versions, v.UpgradeVersionLinks = none := by
  unfold buildTemplate at h
  cases metadata with
  | nil => simp at h
  | cons first rest =>
    simp only at h
    cases hicon : w.Icon st.trace (first :: rest) with
    | error err => simp [hicon] at h
    | ok icon =>
      obtain ⟨iconFilename, iconURL⟩ := icon
      simp only [hicon] at h
      split at h
      · simp at h
      · rename_i acc hacc
        split at h
        · simp at h
        · rename_i t1 hscope
          injection h with h
          injection h with h1 h2
          subst h2
          rw [(scopeTemplate_versions hscope).1]
          exact buildVersions_links rfl (by simp) hacc

/-- C14 at the failing input, and in general: the version specs of every built
template have no upgrade links (`UpgradeVersionLinks` stays nil); for the releases
`1.0.0`, `1.1.0`, `2.0.0` processed in that order, with an ordering policy that
accepts every older version, the template handed to `createTemplate` has three
version specs and none of them carries a link. -/
theorem upgrade_links_never_set :
    (∀ (w : World) (ct ns : String) (st st1 : LoopState) (chart : String)
        (metadata : ChartVersions) (t : CatalogTemplate),
      buildTemplate w ct ns st chart metadata = .next (st1, t) →
        ∀ v ∈ t.Versions, v.UpgradeVersionLinks = none) ∧
    ((traverseAndUpdate (sampleWorld indexThreeVersions) "c1"
        (sampleCatalog ∅ none)).trace.filterMap Event.createdTemplate).map
      (fun t => t.Versions.map fun v => (v.Version, v.UpgradeVersionLinks.isSome)) =
      [[("1.0.0", false), ("1.1.0", false), ("2.0.0", false)]] :=
  ⟨fun _ _ _ _ _ _ _ _ h => buildTemplate_links h, by decide⟩

/-! ## Labels (lines 109–139, 170–178) -/

theorem mergeLabels_append (label : GoMap String) (xs ys : List catalogYml) :
    mergeLabels label (xs ++ ys) = mergeLabels (mergeLabels label xs) ys := by
  simp only [mergeLabels, List.foldl_append]

theorem LabelExt.start (trace : List Event) (label : GoMap String) :
    LabelExt trace label trace label :=
  ⟨[], by simp, rfl⟩

theorem LabelExt.chain {t0 t1 t2 : List Event} {l0 l1 l2 : GoMap String}
    (h1 : LabelExt t0 l0 t1 l1) (h2 : LabelExt t1 l1 t2 l2) : LabelExt t0 l0 t2 l2 := by
  obtain ⟨x, rfl, rfl⟩ := h1
  obtain ⟨y, rfl, rfl⟩ := h2
  exact ⟨x ++ y, by simp, by simp [mergeLabels_append]⟩

theorem scanSupported_label (w : World) (chart : String) (file : File) (names : List String)
    (s : FileScan) :
    LabelExt s.trace s.label (scanSupported w chart file names s).trace
      (scanSupported w chart file names s).label := by
  induction names generalizing s with
  | nil => exact LabelExt.start _ _
  | cons f rest ih =>
    unfold scanSupported
    split
    · cases hres : w.yamlUnmarshal file.Contents with
      | error err =>
        simp only
        refine LabelExt.chain ?_ (ih _)
        exact ⟨[Event.yamlUnmarshal file.Contents (.error err)], rfl,
          by simp [Event.parsedValue, mergeLabels]⟩
      | ok value =>
        simp only
        exact ⟨[Event.yamlUnmarshal file.Contents (.ok value)], rfl,
          by simp [Event.parsedValue, mergeLabels]⟩
    · exact ih s

theorem scanFiles_label (w : World) (chart : String) (files : List File) (s : FileScan) :
    LabelExt s.trace s.label (scanFiles w chart files s).trace
      (scanFiles w chart files s).label := by
  induction files generalizing s with
  | nil => exact LabelExt.start _ _
  | cons file rest ih =>
    simp only [scanFiles, List.foldl_cons]
    exact LabelExt.chain (scanSupported_label w chart file supportedFiles s) (ih _)

theorem buildVersion_label {w : World} {catalog : Catalog} {catalogType ns chart : String}
    {template : CatalogTemplate} {acc acc1 : BuildAcc} {version : ChartVersion}
    (h : buildVersion w catalog catalogType ns chart template acc version = .next acc1) :
    LabelExt acc.trace acc.label acc1.trace acc1.label := by
  unfold buildVersion at h
  cases hres : w.FetchLocalFiles acc.trace version with
  | error err => simp [hres] at h
  | ok files =>
    simp only [hres] at h
    injection h with h
    subst h
    refine LabelExt.chain ?_ (scanFiles_label w chart files _)
    exact ⟨[Event.FetchLocalFiles version (.ok files)], rfl,
      by simp [Event.parsedValue, mergeLabels]⟩

theorem buildVersions_label {w : World} {catalog : Catalog} {catalogType ns chart : String}
    {template : CatalogTemplate} {metadata : ChartVersions} {acc acc1 : BuildAcc}
    (h : buildVersions w catalog catalogType ns chart template metadata acc = .next acc1) :
    LabelExt acc.trace acc.label acc1.trace acc1.label := by
  induction metadata generalizing acc with
  | nil =>
    simp only [buildVersions] at h
    injection h with h
    subst h
    exact LabelExt.start _ _
  | cons version rest ih =>
    simp only [buildVersions] at h
    cases hv : buildVersion w catalog catalogType ns chart template acc version with
    | exit r => simp [hv] at h
    | next acc2 =>
      simp only [hv] at h
      exact LabelExt.chain (buildVersion_label hv) (ih h)

/-- The labels of the template of a global catalog are the merge, from the empty
map, of the labels decoded by the `yaml.Unmarshal` calls of the build. -/
theorem buildTemplate_label {w : World} {ns : String} {st st1 : LoopState} {chart : String}
    {metadata : ChartVersions} {t : CatalogTemplate}
    (h : buildTemplate w w.CatalogType ns st chart metadata = .next (st1, t)) :
    LabelExt st.trace ∅ st1.trace t.Labels := by
  unfold buildTemplate at h
  cases metadata with
  | nil => simp at h
  | cons first rest =>
    simp only at h
    cases hicon : w.Icon st.trace (first :: rest) with
    | error err => simp [hicon] at h
    | ok icon =>
      obtain ⟨iconFilename, iconURL⟩ := icon
      simp only [hicon] at h
      split at h
      · simp at h
      · rename_i acc hacc
        split at h
        · simp at h
        · rename_i t1 hscope
          injection h with h
          injection h with h1 h2
          subst h1 h2
          rw [(scopeTemplate_versions hscope).2 rfl]
          refine LabelExt.chain ?_ (buildVersions_label hacc)
          exact ⟨[Event.Icon (first :: rest) (.ok (iconFilename, iconURL))], rfl,
            by simp [Event.parsedValue, mergeLabels]⟩

theorem lookup_mergeLabels_of_not_mem (key : String) (descriptors : List catalogYml)
    (label : GoMap String) (h : ∀ d ∈ descriptors, key ∉ d.Labels) :
    (mergeLabels label descriptors).lookup key = label.lookup key := by
  induction descriptors generalizing label with
  | nil => rfl
  | cons d rest ih =>
    have hstep : mergeLabels label (d :: rest) = mergeLabels (labelsMerge label d.Labels) rest :=
      rfl
    rw [hstep, ih _ (fun x hx => h x (List.mem_cons_of_mem _ hx))]
    exact AList.lookup_union_right (h d (List.mem_cons_self _ _))

theorem lookup_mergeLabels_last (key : String) (label : GoMap String)
    (pre post : List catalogYml) (d : catalogYml) (hd : key ∈ d.Labels)
    (hpost : ∀ x ∈ post, key ∉ x.Labels) :
    (mergeLabels label (pre ++ d :: post)).lookup key = d.Labels.lookup key := by
  rw [mergeLabels_append]
  have hstep : mergeLabels (mergeLabels label pre) (d :: post) =
      mergeLabels (labelsMerge (mergeLabels label pre) d.Labels) post := rfl
  rw [hstep, lookup_mergeLabels_of_not_mem key post _ hpost]
  exact AList.lookup_union_left hd

/-! ## Labels and the fetched files of the releases -/

theorem fetchedDescriptors_append (w : World) (chart : String) (xs ys : List Event) :
    fetchedDescriptors w chart (xs ++ ys) =
      fetchedDescriptors w chart xs ++ fetchedDescriptors w chart ys := by
  simp only [fetchedDescriptors, List.filterMap_append, List.flatMap_append]

theorem fetchedDescriptors_of_no_fetch (w : World) (chart : String) {ext : List Event}
    (h : ∀ e ∈ ext, e.fetched = none) : fetchedDescriptors w chart ext = [] := by
  have : ext.filterMap Event.fetched = [] := List.filterMap_eq_nil_iff.mpr h
  simp only [fetchedDescriptors, this, List.flatMap_nil]

theorem scanSupported_no_fetch (w : World) (chart : String) (file : File) (names : List String)
    (s : FileScan) :
    ∃ ext, (scanSupported w chart file names s).trace = s.trace ++ ext ∧
      ∀ e ∈ ext, e.fetched = none := by
  induction names generalizing s with
  | nil => exact ⟨[], by simp [scanSupported], by simp⟩
  | cons f rest ih =>
    unfold scanSupported
    split
    · cases hres : w.yamlUnmarshal file.Contents with
      | error err =>
        simp only
        obtain ⟨ext, h1, h2⟩ := ih ⟨s.v, s.label, s.keywords, s.errs ++ [err],
          s.trace ++ [Event.yamlUnmarshal file.Contents (.error err)]⟩
        refine ⟨Event.yamlUnmarshal file.Contents (.error err) :: ext, by simp [h1], ?_⟩
        intro e he
        rcases List.mem_cons.mp he with h | h
        · rw [h]; rfl
        · exact h2 e h
      | ok value =>
        simp only
        refine ⟨[Event.yamlUnmarshal file.Contents (.ok value)], rfl, ?_⟩
        intro e he
        rw [List.mem_singleton.mp he]
        rfl
    · exact ih s

theorem scanFiles_no_fetch (w : World) (chart : String) (files : List File) (s : FileScan) :
    ∃ ext, (scanFiles w chart files s).trace = s.trace ++ ext ∧
      ∀ e ∈ ext, e.fetched = none := by
  induction files generalizing s with
  | nil => exact ⟨[], by simp [scanFiles], by simp⟩
  | cons file rest ih =>
    simp only [scanFiles, List.foldl_cons]
    obtain ⟨x, hx, hx2⟩ := scanSupported_no_fetch w chart file supportedFiles s
    obtain ⟨y, hy, hy2⟩ := ih (scanSupported w chart file supportedFiles s)
    simp only [scanFiles] at hy
    refine ⟨x ++ y, by rw [hy, hx, List.append_assoc], ?_⟩
    intro e he
    rcases List.mem_append.mp he with h | h
    · exact hx2 e h
    · exact hy2 e h

/-- One release of the version loop: its files are fetched by one call, and the
descriptors of these files, in the order of the fetched list, are merged into the
labels. -/
theorem buildVersion_fetch {w : World} {catalog : Catalog} {catalogType ns chart : String}
    {template : CatalogTemplate} {acc acc1 : BuildAcc} {version : ChartVersion}
    (h : buildVersion w catalog catalogType ns chart template acc version = .next acc1) :
    ∃ ext, acc1.trace = acc.trace ++ ext ∧
      (ext.filterMap Event.fetched).map Prod.fst = [version] ∧
      acc1.label = mergeLabels acc.label (fetchedDescriptors w chart ext) := by
  unfold buildVersion at h
  cases hres : w.FetchLocalFiles acc.trace version with
  | error err => simp [hres] at h
  | ok files =>
    simp only [hres] at h
    injection h with h
    subst h
    have hsame : SameScan
        { v := { Version := w.ToLower version.Version }, label := acc.label,
          keywords := acc.keywords, errs := acc.errs,
          trace := acc.trace ++ [Event.FetchLocalFiles version (.ok files)] }
        { v := { Version := w.ToLower version.Version }, label := acc.label,
          keywords := acc.keywords, errs := acc.errs,
          trace := acc.trace ++ [Event.FetchLocalFiles version (.ok files)] } := ⟨rfl, rfl, rfl⟩
    obtain ⟨-, hl, -⟩ := scanFiles_same w chart files hsame
    obtain ⟨-, -, -, f4⟩ := foldl_applyDescriptor
      { v := { Version := w.ToLower version.Version }, label := acc.label,
        keywords := acc.keywords, errs := acc.errs,
        trace := acc.trace ++ [Event.FetchLocalFiles version (.ok files)] }
      (files.filterMap (parsedDescriptor w chart supportedFiles))
    obtain ⟨ext, hext, hnone⟩ := scanFiles_no_fetch w chart files
      { v := { Version := w.ToLower version.Version }, label := acc.label,
        keywords := acc.keywords, errs := acc.errs,
        trace := acc.trace ++ [Event.FetchLocalFiles version (.ok files)] }
    have hf : (Event.FetchLocalFiles version (.ok files) :: ext).filterMap Event.fetched =
        [(version, files)] := by
      rw [List.filterMap_cons]
      simp only [Event.fetched]
      rw [List.filterMap_eq_nil_iff.mpr hnone]
    refine ⟨Event.FetchLocalFiles version (.ok files) :: ext, ?_, ?_, ?_⟩
    · simp only
      rw [hext]
      simp
    · rw [hf]; rfl
    · simp only
      rw [hl, f4]
      simp only [fetchedDescriptors, hf, List.flatMap_cons, List.flatMap_nil, List.append_nil]

/-- The version loop: one fetch for each release, in release order, and the
labels are the merge of the descriptors of the fetched files. -/
theorem buildVersions_fetch {w : World} {catalog : Catalog} {catalogType ns chart : String}
    {template : CatalogTemplate} {metadata : ChartVersions} {acc acc1 : BuildAcc}
    (h : buildVersions w catalog catalogType ns chart template metadata acc = .next acc1) :
    ∃ ext, acc1.trace = acc.trace ++ ext ∧
      (ext.filterMap Event.fetched).map Prod.fst = metadata ∧
      acc1.label = mergeLabels acc.label (fetchedDescriptors w chart ext) := by
  induction metadata generalizing acc with
  | nil =>
    simp only [buildVersions] at h
    injection h with h
    subst h
    exact ⟨[], by simp, rfl, rfl⟩
  | cons version rest ih =>
    simp only [buildVersions] at h
    cases hv : buildVersion w catalog catalogType ns chart template acc version with
    | exit r => simp [hv] at h
    | next acc2 =>
      simp only [hv] at h
      obtain ⟨x, hx, hxf, hxl⟩ := buildVersion_fetch hv
      obtain ⟨y, hy, hyf, hyl⟩ := ih h
      refine ⟨x ++ y, by rw [hy, hx, List.append_assoc], ?_, ?_⟩
      · rw [List.filterMap_append, List.map_append, hxf, hyf]
        rfl
      · rw [hyl, hxl, fetchedDescriptors_append, mergeLabels_append]

theorem buildTemplate_fetch {w : World} {ns : String} {st st1 : LoopState} {chart : String}
    {metadata : ChartVersions} {t : CatalogTemplate}
    (h : buildTemplate w w.CatalogType ns st chart metadata = .next (st1, t)) :
    ∃ ext, st1.trace = st.trace ++ ext ∧
      (ext.filterMap Event.fetched).map Prod.fst = metadata ∧
      t.Labels = mergeLabels ∅ (fetchedDescriptors w chart ext) := by
  unfold buildTemplate at h
  cases metadata with
  | nil => simp at h
  | cons first rest =>
    simp only at h
    cases hicon : w.Icon st.trace (first :: rest) with
    | error err => simp [hicon] at h
    | ok icon =>
      obtain ⟨iconFilename, iconURL⟩ := icon
      simp only [hicon] at h
      split at h
      · simp at h
      · rename_i acc hacc
        split at h
        · simp at h
        · rename_i t1 hscope
          injection h with h
          injection h with h1 h2
          subst h1 h2
          rw [(scopeTemplate_versions hscope).2 rfl]
          obtain ⟨ext, hext, hf, hl⟩ := buildVersions_fetch hacc
          simp only at hext hl
          refine ⟨Event.Icon (first :: rest) (.ok (iconFilename, iconURL)) :: ext, ?_, ?_, ?_⟩
          · simp only
            rw [hext]
            simp
          · rw [List.filterMap_cons]
            simp only [Event.fetched]
            exact hf
          · simp only
            rw [hl]
            have : fetchedDescriptors w chart
                (Event.Icon (first :: rest) (.ok (iconFilename, iconURL)) :: ext) =
                fetchedDescriptors w chart ext := by
              simp only [fetchedDescriptors, List.filterMap_cons, Event.fetched]
            rw [this]

/-- C17: for a rebuilt package of a global catalog, the build fetches the files of
every release, one call for each release in release order, and the labels of the
built template are the left-to-right merge (`labels.Merge`, the later map
overriding), starting from the empty map, of the labels of the descriptors of the
fetched files that have a supported name and parse, release after release and, for
one release, in the order of its fetched list; these are the descriptors decoded
by the successful `yaml.Unmarshal` calls of the build.  Every key of such a
descriptor is a key of the result and no other key is, and a key carries the value
given by the last descriptor that has it (so the value of the last release whose
descriptors have the key). -/
theorem labels_merged_across_releases (w : World) (ns : String) (st st1 : LoopState)
    (chart : String) (metadata : ChartVersions) (t : CatalogTemplate)
    (hbuild : buildTemplate w w.CatalogType ns st chart metadata = .next (st1, t)) :
    ∃ ext,
      st1.trace = st.trace ++ ext ∧
      (ext.filterMap Event.fetched).map Prod.fst = metadata ∧
      t.Labels = mergeLabels ∅ (fetchedDescriptors w chart ext) ∧
      t.Labels = mergeLabels ∅ (ext.filterMap Event.parsedValue) ∧
      (∀ key, key ∈ t.Labels ↔ ∃ d ∈ fetchedDescriptors w chart ext, key ∈ d.Labels) ∧
      (∀ key pre d post, fetchedDescriptors w chart ext = pre ++ d :: post →
        key ∈ d.Labels → (∀ x ∈ post, key ∉ x.Labels) →
        t.Labels.lookup key = d.Labels.lookup key) := by
  obtain ⟨ext, htrace, hfetch, hlabels⟩ := buildTemplate_fetch hbuild
  obtain ⟨ext1, htrace1, hlabels1⟩ := buildTemplate_label hbuild
  have hext : ext1 = ext := List.append_cancel_left (htrace1.symm.trans htrace)
  subst hext
  refine ⟨ext1, htrace, hfetch, hlabels, hlabels1, ?_, ?_⟩
  · intro key
    rw [hlabels, mem_mergeLabels]
    simp
  · intro key pre d post hsplit hd hpost
    rw [hlabels, hsplit]
    exact lookup_mergeLabels_last key ∅ pre post d hd hpost

theorem labels_merged_across_releases_witness :
    (((traverseAndUpdate worldLabels "c1" (sampleCatalog ∅ none)).trace.filterMap
          Event.createdTemplate).map
        (fun t => (t.Labels.lookup "tier", t.Labels.lookup "1.0.0", t.Labels.lookup "2.0.0")) =
      [(some "2.0.0", some "yes", some "yes")]) ∧
    ((fetchedDescriptors worldLabels "a"
        (traverseAndUpdate worldLabels "c1" (sampleCatalog ∅ none)).trace).map
      fun d => d.Labels.lookup "tier") = [some "1.0.0", some "2.0.0"] ∧
    ∃ st1 t,
      buildTemplate worldLabels worldLabels.CatalogType "cattle-global-data" sampleState "a"
        [release "1.0.0" "x", release "2.0.0" "y"] = .next (st1, t) ∧
      ∃ ext,
        st1.trace = sampleState.trace ++ ext ∧
        (ext.filterMap Event.fetched).map Prod.fst =
          [release "1.0.0" "x", release "2.0.0" "y"] ∧
        t.Labels = mergeLabels ∅ (fetchedDescriptors worldLabels "a" ext) := by
  refine ⟨by decide, by decide, ?_⟩
  cases h : buildTemplate worldLabels worldLabels.CatalogType "cattle-global-data" sampleState "a"
      [release "1.0.0" "x", release "2.0.0" "y"] with
  | exit r =>
    have hnext : (match buildTemplate worldLabels worldLabels.CatalogType "cattle-global-data"
        sampleState "a" [release "1.0.0" "x", release "2.0.0" "y"] with
      | .next _ => true
      | .exit _ => false) = true := by decide
    rw [h] at hnext
    exact absurd hnext Bool.false_ne_true
  | next p =>
    obtain ⟨st1, t⟩ := p
    obtain ⟨ext, h1, h2, h3, -⟩ := labels_merged_across_releases worldLabels
      "cattle-global-data" sampleState st1 "a" [release "1.0.0" "x", release "2.0.0" "y"] t h
    exact ⟨st1, t, rfl, ext, h1, h2, h3⟩

/-! ## The count check of line 79 -/

theorem hasChanged_of_added (existing : GoMap String) (metadata : ChartVersions)
    (h : ∃ r ∈ metadata, r.Version ∉ existing) : hasChanged existing metadata = true := by
  obtain ⟨r, hr, hnot⟩ := h
  have hloop : (detectLoop existing metadata).hasChanged = true := by
    unfold detectLoop
    rw [detect_foldl_hasChanged]
    refine Or.inr ⟨r, hr, ?_⟩
    rw [AList.lookup_eq_none.mpr hnot]
    simp
  unfold hasChanged
  simp only [hloop, ite_self]

/-- C18 fails as stated: there is no release list and old map where a version is
added (a release whose version is not a key of the old map), another is removed
(a key of the old map that no release has), the count of matched releases equals
the size of the old map, and `hasChanged` stays false: line 71 sets `hasChanged`
for the added version whatever the count is. -/
theorem added_version_is_always_detected :
    ¬ ∃ (existing : GoMap String) (metadata : ChartVersions),
      (∃ r ∈ metadata, r.Version ∉ existing) ∧
      (∃ k, k ∈ existing ∧ ∀ r ∈ metadata, r.Version ≠ k) ∧
      (metadata.filter fun v => decide (v.Version ∈ existing)).length = existing.len ∧
      hasChanged existing metadata = false := by
  rintro ⟨existing, metadata, hadded, -, -, hfalse⟩
  rw [hasChanged_of_added existing metadata hadded] at hfalse
  exact Bool.noConfusion hfalse

/-- C18, as amended: the count check of line 79 misses a removal when the release
list repeats a version.  A release whose version is not a key of the old map
always sets `hasChanged`; but there are a release list and an old map such that
every release has the digest the old map records, one key of the old map has no
release left, the count of matched releases equals the size of the old map, and
`hasChanged` stays false. -/
theorem removal_missed_when_version_repeated :
    (∀ (existing : GoMap String) (metadata : ChartVersions),
      (∃ r ∈ metadata, r.Version ∉ existing) → hasChanged existing metadata = true) ∧
    ∃ (existing : GoMap String) (metadata : ChartVersions),
      (∀ r ∈ metadata, existing.lookup r.Version = some r.Digest) ∧
      (∃ k, k ∈ existing ∧ ∀ r ∈ metadata, r.Version ≠ k) ∧
      (metadata.filter fun v => decide (v.Version ∈ existing)).length = existing.len ∧
      hasChanged existing metadata = false := by
  refine ⟨hasChanged_of_added, (AList.insert "2.0.0" "y" ∅).insert "1.0.0" "x",
    [release "1.0.0" "x", release "1.0.0" "x"], by decide, ⟨"2.0.0", by decide, by decide⟩,
    by decide, by decide⟩

/-! ## The accesses `metadata[0]` (lines 94–98) -/

/-- C19 at the failing input: with the index `{a: []}`, an empty old snapshot and
`hasAllUpdates` false, the chart is not skipped and the run panics at the access
`metadata[0]` of line 94, before any call on the template store. -/
theorem empty_release_list_panics :
    (traverseAndUpdate (sampleWorld indexEmptyReleases) "c1" (sampleCatalog ∅ none)).outcome =
        Outcome.panic ∧
      (sampleWorld indexEmptyReleases).hasAllUpdates
        { Name := "mycatalog", Namespace := "", HelmVersion := "",
          Status := { Commit := "", HelmVersionCommits := ∅, Conditions := none } } = false ∧
      hasChanged ∅ [] = false ∧
      ∀ (w : World) (ct ns : String) (st : LoopState) (chart : String),
        buildTemplate w ct ns st chart [] =
          .exit { outcome := .panic, trace := st.trace, catalog := some st.catalog } := by
  refine ⟨by decide, rfl, by decide, fun _ _ _ _ _ => rfl⟩

/-! ## Node-driver whitelist -/

theorem foldl_rm {σ : Type} (proxy : WhitelistProxy σ) (domains : List String)
    (s : ProxyState σ) :
    (domains.foldl (ProxyState.rm proxy) s).calls = s.calls ++ domains.map ProxyCall.Rm ∧
      (domains.foldl (ProxyState.rm proxy) s).state =
        domains.foldl (fun state d => proxy.Rm d state) s.state := by
  induction domains generalizing s with
  | nil => simp
  | cons d rest ih =>
    obtain ⟨h1, h2⟩ := ih (ProxyState.rm proxy s d)
    simp only [List.foldl_cons, List.map_cons]
    rw [h1, h2]
    simp [ProxyState.rm]

theorem foldl_add {σ : Type} (proxy : WhitelistProxy σ) (domains : List String)
    (s : ProxyState σ) :
    (domains.foldl (ProxyState.add proxy) s).calls = s.calls ++ domains.map ProxyCall.Add ∧
      (domains.foldl (ProxyState.add proxy) s).state =
        domains.foldl (fun state d => proxy.Add d state) s.state := by
  induction domains generalizing s with
  | nil => simp
  | cons d rest ih =>
    obtain ⟨h1, h2⟩ := ih (ProxyState.add proxy s d)
    simp only [List.foldl_cons, List.map_cons]
    rw [h1, h2]
    simp [ProxyState.add]

/-- C20: `sync` returns `(nil, nil)` for every key and node driver; with an empty
key or a nil driver it leaves the whitelist as it is and makes no call; for a
driver with a deletion timestamp its calls are one `whitelist.Proxy.Rm` for each
entry of `Spec.WhitelistDomains`, in order, and nothing else; otherwise they are one
`whitelist.Proxy.Add` for each entry, in order, and nothing else. -/
theorem sync_whitelist {σ : Type} (proxy : WhitelistProxy σ) (key : String)
    (nodeDriver : Option NodeDriver) (s : ProxyState σ) :
    (sync proxy key nodeDriver s).1 = (none, none) ∧
    (key = "" ∨ nodeDriver = none →
      (sync proxy key nodeDriver s).2.state = s.state ∧
      (sync proxy key nodeDriver s).2.calls = s.calls) ∧
    (∀ nd, key ≠ "" → nodeDriver = some nd → nd.DeletionTimestamp ≠ none →
      (sync proxy key nodeDriver s).2.calls = s.calls ++ nd.WhitelistDomains.map ProxyCall.Rm ∧
      (sync proxy key nodeDriver s).2.state =
        nd.WhitelistDomains.foldl (fun state d => proxy.Rm d state) s.state) ∧
    (∀ nd, key ≠ "" → nodeDriver = some nd → nd.DeletionTimestamp = none →
      (sync proxy key nodeDriver s).2.calls = s.calls ++ nd.WhitelistDomains.map ProxyCall.Add ∧
      (sync proxy key nodeDriver s).2.state =
        nd.WhitelistDomains.foldl (fun state d => proxy.Add d state) s.state) := by
  refine ⟨?_, ?_, ?_, ?_⟩
  · unfold sync
    split
    · rfl
    · cases nodeDriver with
      | none => rfl
      | some nd =>
        simp only
        split <;> rfl
  · rintro (hkey | hnil)
    · subst hkey
      simp [sync]
    · subst hnil
      by_cases hkey : key = "" <;> simp [sync, hkey]
  · intro nd hkey hnd hdel
    subst hnd
    simp only [sync, hkey, if_false, hdel, ne_eq, not_false_eq_true, if_true]
    exact foldl_rm proxy nd.WhitelistDomains s
  · intro nd hkey hnd hdel
    subst hnd
    simp only [sync, hkey, if_false, hdel, ne_eq, not_true_eq_false]
    exact foldl_add proxy nd.WhitelistDomains s

/-! ## The keys of the new snapshot (lines 57, 238, 259) -/

theorem Dropped.mono {w : World} {trace : List Event} {chart : String}
    (h : Dropped w trace chart) (ext : List Event) : Dropped w (trace ++ ext) chart := by
  rcases h with ⟨e, he, h1⟩ | ⟨e, he, h1⟩
  · exact Or.inl ⟨e, List.mem_append_left _ he, h1⟩
  · exact Or.inr ⟨e, List.mem_append_left _ he, h1⟩

theorem Dropped.of_ext {w : World} {ext : List Event} {chart : String}
    (h : Dropped w ext chart) (trace : List Event) : Dropped w (trace ++ ext) chart := by
  rcases h with ⟨e, he, h1⟩ | ⟨e, he, h1⟩
  · exact Or.inl ⟨e, List.mem_append_right _ he, h1⟩
  · exact Or.inr ⟨e, List.mem_append_right _ he, h1⟩

/-- Lines 218–239 on the new snapshot: the other charts stay as they are, and the
chart of the template stays a key unless its create, its update or its lookup
failed. -/
theorem reconcile_keys (w : World) (st : LoopState) (t : CatalogTemplate) :
    ∃ ext, (reconcile w st t).trace = st.trace ++ ext ∧
      (∀ chart, chart ≠ t.DisplayName →
        (chart ∈ (reconcile w st t).newHelmVersionCommits ↔ chart ∈ st.newHelmVersionCommits)) ∧
      (t.DisplayName ∈ st.newHelmVersionCommits →
        t.DisplayName ∈ (reconcile w st t).newHelmVersionCommits ∨
          (∃ e ∈ ext, e.failedChart = some t.DisplayName) ∨
          ∃ e ∈ ext, e.lookupFailure = some t.Name) := by
  have herase : ∀ chart, chart ≠ t.DisplayName →
      (chart ∈ st.newHelmVersionCommits.erase t.DisplayName ↔
        chart ∈ st.newHelmVersionCommits) := by
    intro chart hne
    simp [AList.mem_erase, hne]
  cases hgot : w.templateListerGet st.trace t.Namespace t.Name with
  | error err =>
    cases hnf : err.isNotFound with
    | true =>
      cases hres : w.createTemplate
          (st.trace ++ [Event.templateListerGet t.Namespace t.Name (.error err)]) t
          st.catalog with
      | none =>
        simp only [reconcile, hgot, hnf, hres, if_true]
        exact ⟨[Event.templateListerGet t.Namespace t.Name (.error err),
          Event.createTemplate t st.catalog none], by simp, fun _ _ => trivial,
          fun h => Or.inl h⟩
      | some e1 =>
        simp only [reconcile, hgot, hnf, hres, if_true]
        refine ⟨[Event.templateListerGet t.Namespace t.Name (.error err),
          Event.createTemplate t st.catalog (some e1)], by simp, herase,
          fun _ => Or.inr (Or.inl ?_)⟩
        exact ⟨Event.createTemplate t st.catalog (some e1), by simp, rfl⟩
    | false =>
      simp only [reconcile, hgot, hnf, Bool.false_eq_true, if_false]
      refine ⟨[Event.templateListerGet t.Namespace t.Name (.error err)], rfl, herase,
        fun _ => Or.inr (Or.inr ?_)⟩
      exact ⟨Event.templateListerGet t.Namespace t.Name (.error err), by simp,
        by simp [Event.lookupFailure, hnf]⟩
  | ok existing =>
    cases hres : w.updateTemplate
        (st.trace ++ [Event.templateListerGet t.Namespace t.Name (.ok existing)]) existing
        t with
    | none =>
      simp only [reconcile, hgot, hres]
      exact ⟨[Event.templateListerGet t.Namespace t.Name (.ok existing),
        Event.updateTemplate existing t none], by simp, fun _ _ => trivial, fun h => Or.inl h⟩
    | some e1 =>
      simp only [reconcile, hgot, hres]
      refine ⟨[Event.templateListerGet t.Namespace t.Name (.ok existing),
        Event.updateTemplate existing t (some e1)], by simp, herase,
        fun _ => Or.inr (Or.inl ?_)⟩
      exact ⟨Event.updateTemplate existing t (some e1), by simp, rfl⟩

theorem processChart_accounted (w : World) (commit : String) (cmt : CatalogInfo)
    (ct ns : String) {done : List String} {st st1 : LoopState} {chart : String}
    {metadata : ChartVersions} (h : Accounted w done st)
    (hp : processChart w commit cmt ct ns st chart metadata = .next st1) :
    Accounted w (chart :: done) st1 := by
  have hmem : chart ∈ (withEntry st chart metadata).newHelmVersionCommits :=
    (AList.mem_insert _).mpr (Or.inl rfl)
  have hkeep : ∀ c, c ∈ st.newHelmVersionCommits →
      c ∈ (withEntry st chart metadata).newHelmVersionCommits :=
    fun c hc => (AList.mem_insert _).mpr (Or.inr hc)
  rcases processChart_cases w commit cmt ct ns st chart metadata with
    ⟨-, heq⟩ | ⟨-, r, ext, heq, -⟩ | ⟨-, ext, t, catalog, -, hname, htn, -, -, -, -, -, heq⟩
  · rw [heq] at hp
    injection hp with hp
    subst hp
    intro c hc
    rcases List.mem_cons.mp hc with rfl | hc
    · exact Or.inl hmem
    · rcases h c hc with h1 | h1
      · exact Or.inl (hkeep c h1)
      · exact Or.inr h1
  · rw [heq] at hp
    cases hp
  · rw [heq] at hp
    injection hp with hp
    obtain ⟨rext, htr, hother, hself⟩ := reconcile_keys w
      { withEntry st chart metadata with
        errs := st.errs ++ yamlFailures ext, trace := st.trace ++ ext,
        catalog := catalog, projectCatalog := cmt.projectCatalog,
        clusterCatalog := cmt.clusterCatalog } t
    rw [hp] at htr hother hself
    simp only at htr hother hself
    have hchart : chart ∈ st1.newHelmVersionCommits ∨ Dropped w st1.trace chart := by
      rw [hname] at hself
      rcases hself hmem with h1 | ⟨e, he, h1⟩ | ⟨e, he, h1⟩
      · exact Or.inl h1
      · refine Or.inr ?_
        rw [htr]
        exact Dropped.of_ext (Or.inl ⟨e, he, h1⟩) _
      · refine Or.inr ?_
        rw [htr]
        exact Dropped.of_ext (Or.inr ⟨e, he, st.catalog.Name, by rw [h1, htn]⟩) _
    intro c hc
    rcases List.mem_cons.mp hc with rfl | hc
    · exact hchart
    · by_cases hcc : c = chart
      · rw [hcc]; exact hchart
      · rcases h c hc with h1 | h1
        · exact Or.inl ((hother c (by rw [hname]; exact hcc)).mpr (hkeep c h1))
        · refine Or.inr ?_
          rw [htr, List.append_assoc]
          exact h1.mono _

theorem packageLoop_accounted (w : World) (commit : String) (cmt : CatalogInfo)
    (ct ns : String) (rest : List (Σ _ : String, ChartVersions)) (done : List String)
    (st st1 : LoopState) (h : Accounted w done st)
    (hl : packageLoop w commit cmt ct ns rest st = .next st1) :
    Accounted w ((rest.map fun p => p.1).reverse ++ done) st1 := by
  induction rest generalizing done st with
  | nil =>
    simp only [packageLoop] at hl
    injection hl with hl
    subst hl
    simpa using h
  | cons p rest ih =>
    obtain ⟨chart, metadata⟩ := p
    simp only [packageLoop] at hl
    cases hp : processChart w commit cmt ct ns st chart metadata with
    | exit r => simp [hp] at hl
    | next st2 =>
      simp only [hp] at hl
      have := ih (chart :: done) st2 (processChart_accounted w commit cmt ct ns h hp) hl
      simpa [List.map_cons, List.reverse_cons, List.append_assoc] using this

/-- A run that makes the final status persistence went through the whole package
loop and the pruning and ends with lines 256–315. -/
theorem traverseAndUpdate_reaches_end (w : World) (commit : String) (cmt : CatalogInfo)
    (hend : ∃ e ∈ (traverseAndUpdate w commit cmt).trace, e.isFinalPersist = true) :
    ∃ (catalog : Catalog) (index : GoMap ChartVersions) (cmt1 : CatalogInfo) (st : LoopState),
      cmt.catalog = some catalog ∧ w.LoadIndex = .ok index ∧
      traverseAndUpdate w commit cmt =
        endOfRun w commit cmt1 (w.getCatalogType cmt) (w.preprocessCatalog catalog index).1 st ∧
      LoopInv (w.preprocessCatalog catalog index).2
        (((w.preprocessCatalog catalog index).2.entries.map fun p => p.1).reverse ++ []) st ∧
      Accounted w
        (((w.preprocessCatalog catalog index).2.entries.map fun p => p.1).reverse ++ []) st := by
  obtain ⟨e0, he0, hfinal⟩ := hend
  rcases traverseAndUpdate_prelude w commit cmt with
    ⟨htr, -⟩ | ⟨catalog, index, ns, cmt1, trace0, hcat, hidx, -, h0, hrun⟩
  · rcases htr with h | ⟨err, h⟩
    · rw [h] at he0; cases he0
    · rw [h] at he0
      rw [List.mem_singleton.mp he0] at hfinal
      cases hfinal
  · have htrace0 : ∀ e ∈ trace0,
        ∃ cmt ct tn c res, e = Event.updateCatalogInfo cmt ct tn c false res := by
      intro e he
      rcases h0 with ⟨h1, -⟩ | h1
      · rw [h1] at he; cases he
      · rw [h1] at he
        exact ⟨_, _, _, _, _, List.mem_singleton.mp he⟩
    refine ⟨catalog, index, cmt1, ?_⟩
    rw [hrun] at he0 ⊢
    rcases hpre : w.preprocessCatalog catalog index with ⟨ews, entries⟩
    unfold syncCharts at he0 ⊢
    simp only [hpre] at he0 ⊢
    have hinit : LoopInv entries []
        { catalog := catalog, projectCatalog := cmt.projectCatalog,
          clusterCatalog := cmt.clusterCatalog, newHelmVersionCommits := ∅, errs := [],
          updateErrors := [], createErrors := [], trace := trace0 } :=
      Inv.init entries trace0 htrace0
    have hloop := packageLoop_inv w commit cmt1 (w.getCatalogType cmt) ns entries.entries [] _
      hinit
      (by
        intro p hp
        obtain ⟨chart, metadata⟩ := p
        exact AList.mem_lookup_iff.mpr hp)
      (by simpa [AList.keys, List.keys] using entries.nodupKeys)
      (by simp)
    cases hl : packageLoop w commit cmt1 (w.getCatalogType cmt) ns entries.entries
        { catalog := catalog, projectCatalog := cmt.projectCatalog,
          clusterCatalog := cmt.clusterCatalog, newHelmVersionCommits := ∅, errs := [],
          updateErrors := [], createErrors := [], trace := trace0 } with
    | exit r =>
      simp only [hl] at he0 hloop
      rw [hloop e0 he0] at hfinal
      cases hfinal
    | next st =>
      simp only [hl] at he0 hloop ⊢
      have hacc := packageLoop_accounted w commit cmt1 (w.getCatalogType cmt) ns entries.entries
        [] _ st (fun c hc => by cases hc) hl
      cases hd : deleteLoop w ns st.catalog (toDeleteChart w st.catalog index) st.trace with
      | exit r =>
        simp only [hd] at he0
        obtain ⟨ext, hext, hall⟩ := deleteLoop_exit _ hd
        have hinv := Inv.deletes hloop hall
        rw [hext] at he0
        rw [hinv.noFinal e0 he0] at hfinal
        cases hfinal
      | next trace1 =>
        simp only [hd]
        obtain ⟨ext, hext, hall⟩ := deleteLoop_next _ hd
        refine ⟨{ st with trace := trace1 }, hcat, hidx, rfl, ?_, ?_⟩
        · subst hext
          exact Inv.deletes hloop hall
        · subst hext
          intro c hc
          rcases hacc c hc with h1 | h1
          · exact Or.inl h1
          · exact Or.inr (h1.mono _)

/-- C15 fails as stated: with the index `{a, b}` handed whole to the loop, no
create and no update fails, and the snapshot handed to the final persistence has
the key `b` only: the lookup of the template of chart `a` failed with an error
other than not-found, and line 238 took the chart out of the new snapshot. -/
theorem lookup_failure_drops_key :
    worldLookupFails.LoadIndex = .ok indexAB ∧
    ((indexAB.lookup "a").isSome, (indexAB.lookup "b").isSome) = (true, true) ∧
    createFailures (traverseAndUpdate worldLookupFails "c1" (sampleCatalog ∅ none)).trace = [] ∧
    updateFailures (traverseAndUpdate worldLookupFails "c1" (sampleCatalog ∅ none)).trace = [] ∧
    ((traverseAndUpdate worldLookupFails "c1" (sampleCatalog ∅ none)).persistedSnapshot.map
      fun s => ((s.lookup "a").isSome, (s.lookup "b").isSome)) = some (false, true) := by
  refine ⟨rfl, by decide, by decide, by decide, by decide⟩

/-- C15, as amended: in a run that completes the package loop and the pruning (it
makes the final status persistence), every key of the snapshot assigned at line
259 is a package that `preprocessCatalog` handed to the loop, maps every release
version of that package to its digest (the digest of the last release with that
version), and no create or update of that package failed during the run; and
every package handed to the loop that is not a key had a failed create or update,
or a lookup of its template that failed with an error other than not-found. -/
theorem snapshot_keys (w : World) (commit : String) (cmt : CatalogInfo)
    (hend : ∃ e ∈ (traverseAndUpdate w commit cmt).trace, e.isFinalPersist = true) :
    ∃ (catalog : Catalog) (index : GoMap ChartVersions) (cmt1 : CatalogInfo) (st : LoopState),
      cmt.catalog = some catalog ∧ w.LoadIndex = .ok index ∧
      traverseAndUpdate w commit cmt =
        endOfRun w commit cmt1 (w.getCatalogType cmt) (w.preprocessCatalog catalog index).1 st ∧
      (∀ chart, chart ∈ (adoptSnapshot st).Status.HelmVersionCommits →
        ∃ metadata, (w.preprocessCatalog catalog index).2.lookup chart = some metadata ∧
          HoldsDigests (adoptSnapshot st).Status.HelmVersionCommits chart metadata ∧
          ∀ e ∈ (traverseAndUpdate w commit cmt).trace, e.failedChart ≠ some chart) ∧
      (∀ chart, chart ∈ (w.preprocessCatalog catalog index).2 →
        chart ∉ (adoptSnapshot st).Status.HelmVersionCommits →
        Dropped w (traverseAndUpdate w commit cmt).trace chart) := by
  obtain ⟨catalog, index, cmt1, st, hcat, hidx, hrun, hinv, hacc⟩ :=
    traverseAndUpdate_reaches_end w commit cmt hend
  obtain ⟨eF, hfinal, htr⟩ := endOfRun_trace w commit cmt1 (w.getCatalogType cmt)
    (w.preprocessCatalog catalog index).1 st
  rw [← hrun] at htr
  refine ⟨catalog, index, cmt1, st, hcat, hidx, hrun, ?_, ?_⟩
  · intro chart hchart
    obtain ⟨metadata, hmd, hdig⟩ := hinv.content chart hchart
    refine ⟨metadata, hmd, hdig, ?_⟩
    intro e he hfailed
    rw [htr] at he
    rcases List.mem_append.mp he with h1 | h1
    · exact (hinv.failed e h1 chart hfailed).2 hchart
    · have hnf := failedChart_not_final hfailed
      rw [List.mem_singleton.mp h1, hfinal] at hnf
      cases hnf
  · intro chart hchart hnot
    have hdone : chart ∈
        ((w.preprocessCatalog catalog index).2.entries.map fun p => p.1).reverse ++ [] := by
      have hk : chart ∈ (w.preprocessCatalog catalog index).2.entries.keys :=
        AList.mem_keys.mpr hchart
      simpa [List.keys] using hk
    rcases hacc chart hdone with h1 | h1
    · exact absurd h1 hnot
    · rw [htr]
      exact h1.mono _

theorem snapshot_keys_witness :
    (∃ e ∈ (traverseAndUpdate worldLookupFails "c1" (sampleCatalog ∅ none)).trace,
      e.isFinalPersist = true) ∧
    ∃ (catalog : Catalog) (index : GoMap ChartVersions) (cmt1 : CatalogInfo) (st : LoopState),
      (sampleCatalog ∅ none).catalog = some catalog ∧ worldLookupFails.LoadIndex = .ok index ∧
      traverseAndUpdate worldLookupFails "c1" (sampleCatalog ∅ none) =
        endOfRun worldLookupFails "c1" cmt1 (worldLookupFails.getCatalogType (sampleCatalog ∅ none))
          (worldLookupFails.preprocessCatalog catalog index).1 st ∧
      (∀ chart, chart ∈ (worldLookupFails.preprocessCatalog catalog index).2 →
        chart ∉ (adoptSnapshot st).Status.HelmVersionCommits →
        Dropped worldLookupFails
          (traverseAndUpdate worldLookupFails "c1" (sampleCatalog ∅ none)).trace chart) :=
  ⟨by decide, by
    obtain ⟨catalog, index, cmt1, st, h1, h2, h3, -, h5⟩ :=
      snapshot_keys worldLookupFails "c1" (sampleCatalog ∅ none) (by decide)
    exact ⟨catalog, index, cmt1, st, h1, h2, h3, h5⟩⟩

/-! ## A first sync, end to end -/

theorem scanSupported_parse {w : World}
    (hyaml : ∀ contents, ∃ value, w.yamlUnmarshal contents = .ok value)
    (chart : String) (file : File) (names : List String) (s : FileScan) :
    (scanSupported w chart file names s).errs = s.errs := by
  induction names generalizing s with
  | nil => rfl
  | cons f rest ih =>
    unfold scanSupported
    split
    · obtain ⟨value, hv⟩ := hyaml file.Contents
      simp only [hv]
    · exact ih s

theorem scanFiles_parse {w : World}
    (hyaml : ∀ contents, ∃ value, w.yamlUnmarshal contents = .ok value)
    (chart : String) (files : List File) (s : FileScan) :
    (scanFiles w chart files s).errs = s.errs := by
  induction files generalizing s with
  | nil => rfl
  | cons file rest ih =>
    simp only [scanFiles, List.foldl_cons]
    exact (ih _).trans (scanSupported_parse hyaml chart file supportedFiles s)

/-- The build of the template of a chart with one release, for a global catalog,
when the icon and the files are fetched and every descriptor parses: the build
goes on, `errs` stays as it is and the trace grows by build calls. -/
theorem buildTemplate_single {w : World} (ns : String) (st : LoopState) (chart : String)
    (r : ChartVersion)
    (hicon : ∀ trace metadata, ∃ icon, w.Icon trace metadata = .ok icon)
    (hfetch : ∀ trace version, ∃ files, w.FetchLocalFiles trace version = .ok files)
    (hyaml : ∀ contents, ∃ value, w.yamlUnmarshal contents = .ok value) :
    ∃ ext t,
      buildTemplate w w.CatalogType ns st chart [r] =
        .next ({ st with trace := st.trace ++ ext }, t) ∧
      (∀ e ∈ ext, e.isBuild = true) ∧ t.DisplayName = chart ∧
      t.Name = w.getValidTemplateName st.catalog.Name chart ∧ t.Namespace = ns := by
  obtain ⟨⟨iconFilename, iconURL⟩, hi⟩ := hicon st.trace [r]
  obtain ⟨files, hf⟩ := hfetch (st.trace ++ [Event.Icon [r] (.ok (iconFilename, iconURL))]) r
  have hb : ∃ st2 t, buildTemplate w w.CatalogType ns st chart [r] = .next (st2, t) ∧
      st2.errs = st.errs := by
    unfold buildTemplate
    simp only [hi, buildVersions, buildVersion, hf, scopeTemplate, if_true]
    exact ⟨_, _, rfl, scanFiles_parse hyaml chart files _⟩
  obtain ⟨st2, t, hb, herrs2⟩ := hb
  obtain ⟨⟨errs1, trace1, hst2, ext, htrace, hbuild, -⟩, hname, hn, hns, -⟩ :=
    buildTemplate_next hb
  refine ⟨ext, t, ?_, hbuild, hname, hn, hns⟩
  rw [hb, hst2]
  rw [hst2] at herrs2
  simp only at herrs2 htrace
  rw [herrs2, htrace]

theorem detectLoop_single (existing : GoMap String) (r : ChartVersion) :
    (detectLoop existing [r]).commits = AList.insert r.Version r.Digest ∅ := by
  simp only [detectLoop, List.foldl_cons, List.foldl_nil, detectStep]
  cases existing.lookup r.Version <;> rfl

/-- The package loop of a first sync of a single chart with a single release: the
template is built, looked up, not found, and created. -/
theorem packageLoop_first (w : World) (commit : String) (cmt1 : CatalogInfo)
    {catalog c1 : Catalog} (pc : Option ProjectCatalog) (cc : Option ClusterCatalog)
    (chart : String) (r : ChartVersion) (trace0 : List Event)
    (hold : catalog.Status.HelmVersionCommits = ∅)
    (h1 : cmt1.catalog = some c1) (hname1 : c1.Name ≠ "")
    (hicon : ∀ trace metadata, ∃ icon, w.Icon trace metadata = .ok icon)
    (hfetch : ∀ trace version, ∃ files, w.FetchLocalFiles trace version = .ok files)
    (hyaml : ∀ contents, ∃ value, w.yamlUnmarshal contents = .ok value)
    (hup : ∀ c, w.isUpToDate commit c = false)
    (hget : ∀ trace ns name, ∃ err,
      w.templateListerGet trace ns name = .error err ∧ err.isNotFound = true)
    (hcreate : ∀ trace t c, w.createTemplate trace t c = none) :
    ∃ ext t err,
      packageLoop w commit cmt1 w.CatalogType w.GlobalNamespace [⟨chart, [r]⟩]
          { catalog := catalog, projectCatalog := pc, clusterCatalog := cc,
            newHelmVersionCommits := ∅, errs := [], updateErrors := [], createErrors := [],
            trace := trace0 } =
        .next { catalog := c1, projectCatalog := cmt1.projectCatalog,
                clusterCatalog := cmt1.clusterCatalog,
                newHelmVersionCommits :=
                  AList.insert chart ⟨some (AList.insert r.Version r.Digest ∅)⟩ ∅,
                errs := [], updateErrors := [], createErrors := [],
                trace := trace0 ++ ext ++
                  [Event.templateListerGet w.GlobalNamespace
                      (w.getValidTemplateName catalog.Name chart) (.error err),
                    Event.createTemplate t c1 none] } ∧
      (∀ e ∈ ext, e.isBuild = true) ∧
      t.Name = w.getValidTemplateName catalog.Name chart ∧ t.Namespace = w.GlobalNamespace := by
  have hexisting : existingHelmVersionCommits catalog chart = ∅ := by
    simp [existingHelmVersionCommits, hold]
  have hskip : skipsChart w
      { catalog := catalog, projectCatalog := pc, clusterCatalog := cc,
        newHelmVersionCommits := ∅, errs := [], updateErrors := [], createErrors := [],
        trace := trace0 } chart [r] = false := by
    have hc : hasChanged (∅ : GoMap String) [r] = true :=
      hasChanged_of_added ∅ [r] ⟨r, by simp, by simp⟩
    simp [skipsChart, hexisting, hc]
  have hw : withEntry
      { catalog := catalog, projectCatalog := pc, clusterCatalog := cc,
        newHelmVersionCommits := ∅, errs := [], updateErrors := [], createErrors := [],
        trace := trace0 } chart [r] =
      { catalog := catalog, projectCatalog := pc, clusterCatalog := cc,
        newHelmVersionCommits := AList.insert chart ⟨some (AList.insert r.Version r.Digest ∅)⟩ ∅,
        errs := [], updateErrors := [], createErrors := [], trace := trace0 } := by
    simp only [withEntry, detectLoop_single]
  obtain ⟨ext, t, hb, hbuild, hd, hn, hns⟩ := buildTemplate_single w.GlobalNamespace
    { catalog := catalog, projectCatalog := pc, clusterCatalog := cc,
      newHelmVersionCommits := AList.insert chart ⟨some (AList.insert r.Version r.Digest ∅)⟩ ∅,
      errs := [], updateErrors := [], createErrors := [], trace := trace0 }
    chart r hicon hfetch hyaml
  simp only at hb hn
  obtain ⟨err, hg, hnf⟩ := hget (trace0 ++ ext) w.GlobalNamespace
    (w.getValidTemplateName catalog.Name chart)
  refine ⟨ext, t, err, ?_, hbuild, hn, hns⟩
  simp only [packageLoop, processChart_eq, hskip, Bool.false_eq_true, if_false, hw, hb]
  have hr : refreshLocals w commit cmt1
      { catalog := catalog, projectCatalog := pc, clusterCatalog := cc,
        newHelmVersionCommits := AList.insert chart ⟨some (AList.insert r.Version r.Digest ∅)⟩ ∅,
        errs := [], updateErrors := [], createErrors := [], trace := trace0 ++ ext } =
      .next { catalog := c1, projectCatalog := cmt1.projectCatalog,
              clusterCatalog := cmt1.clusterCatalog,
              newHelmVersionCommits :=
                AList.insert chart ⟨some (AList.insert r.Version r.Digest ∅)⟩ ∅,
              errs := [], updateErrors := [], createErrors := [],
              trace := trace0 ++ ext } := by
    simp only [refreshLocals, h1, hname1, if_false, hup, Bool.false_eq_true]
  rw [hr]
  simp only [reconcile, hn, hns, hg, hnf, if_true, hcreate, List.append_assoc,
    List.singleton_append]

/-- Lines 55–315 of a first sync of a single chart with a single release. -/
theorem syncCharts_first (w : World) (commit : String) (cmt1 : CatalogInfo)
    {catalog c1 : Catalog} (pc : Option ProjectCatalog) (cc : Option ClusterCatalog)
    (chart : String) (r : ChartVersion) (trace0 : List Event)
    (hold : catalog.Status.HelmVersionCommits = ∅)
    (hpre : w.preprocessCatalog catalog (AList.insert chart [r] ∅) =
      ([], AList.insert chart [r] ∅))
    (h1 : cmt1.catalog = some c1) (hname1 : c1.Name ≠ "")
    (hold1 : c1.Status.HelmVersionCommits = ∅)
    (hicon : ∀ trace metadata, ∃ icon, w.Icon trace metadata = .ok icon)
    (hfetch : ∀ trace version, ∃ files, w.FetchLocalFiles trace version = .ok files)
    (hyaml : ∀ contents, ∃ value, w.yamlUnmarshal contents = .ok value)
    (hup : ∀ c, w.isUpToDate commit c = false)
    (hget : ∀ trace ns name, ∃ err,
      w.templateListerGet trace ns name = .error err ∧ err.isNotFound = true)
    (hcreate : ∀ trace t c, w.createTemplate trace t c = none)
    (hfinal : ∀ trace info tn c, ∃ info1,
      w.updateCatalogInfo trace info w.CatalogType tn c true = .ok info1) :
    ∃ ext t err cmtF catF res,
      (syncCharts w commit cmt1 w.CatalogType w.GlobalNamespace catalog pc cc
          (AList.insert chart [r] ∅) trace0).trace =
        trace0 ++ ext ++
          [Event.templateListerGet w.GlobalNamespace
              (w.getValidTemplateName catalog.Name chart) (.error err),
            Event.createTemplate t c1 none,
            Event.updateCatalogInfo cmtF w.CatalogType "" true true (.ok res)] ∧
      (∀ e ∈ ext, e.isBuild = true) ∧
      t.Name = w.getValidTemplateName catalog.Name chart ∧ t.Namespace = w.GlobalNamespace ∧
      cmtF.catalog = some catF ∧
      catF.Status.HelmVersionCommits =
        AList.insert chart ⟨some (AList.insert r.Version r.Digest ∅)⟩ ∅ ∧
      catF.Status.Commit = commit ∧
      (syncCharts w commit cmt1 w.CatalogType w.GlobalNamespace catalog pc cc
          (AList.insert chart [r] ∅) trace0).outcome = .returned .nil := by
  obtain ⟨ext, t, err, hloop, hbuild, hn, hns⟩ :=
    packageLoop_first w commit cmt1 pc cc chart r trace0 hold h1 hname1 hicon hfetch hyaml hup hget hcreate
  have hentries : (AList.insert chart [r] (∅ : GoMap ChartVersions)).entries =
      [⟨chart, [r]⟩] := rfl
  have hdel : toDeleteChart w c1 (AList.insert chart [r] ∅) = [] := by
    simp [toDeleteChart, hold1]
  obtain ⟨cmtF, catF, cond, result, heq, hcatF, hsnap, hways⟩ :=
    endOfRun_eq w commit cmt1 w.CatalogType []
      { catalog := c1, projectCatalog := cmt1.projectCatalog,
        clusterCatalog := cmt1.clusterCatalog,
        newHelmVersionCommits := AList.insert chart ⟨some (AList.insert r.Version r.Digest ∅)⟩ ∅,
        errs := [], updateErrors := [], createErrors := [],
        trace := trace0 ++ ext ++
          [Event.templateListerGet w.GlobalNamespace
              (w.getValidTemplateName catalog.Name chart) (.error err),
            Event.createTemplate t c1 none] }
  have hrun : syncCharts w commit cmt1 w.CatalogType w.GlobalNamespace catalog pc cc
      (AList.insert chart [r] ∅) trace0 =
      persistAndReturn w w.CatalogType cond cmtF
        (trace0 ++ ext ++
          [Event.templateListerGet w.GlobalNamespace
              (w.getValidTemplateName catalog.Name chart) (.error err),
            Event.createTemplate t c1 none]) result := by
    unfold syncCharts
    simp only [hpre, hentries, hloop, hdel, deleteLoop]
    exact heq
  obtain ⟨info1, hp⟩ := hfinal
    (trace0 ++ ext ++
      [Event.templateListerGet w.GlobalNamespace
          (w.getValidTemplateName catalog.Name chart) (.error err),
        Event.createTemplate t c1 none]) cmtF "" cond
  rcases hways with ⟨hne, -⟩ | ⟨-, -, hne, -⟩ | ⟨-, -, -, hcond, ⟨-, hcommit, hres⟩ | ⟨hne, -⟩⟩
  · simp at hne
  · exact absurd rfl hne
  · subst hcond hres
    refine ⟨ext, t, err, cmtF, catF, info1, ?_, hbuild, hn, hns, hcatF, hsnap, hcommit, ?_⟩
    · rw [hrun, persistAndReturn_trace, hp]
      simp only [List.append_assoc, List.cons_append, List.nil_append]
    · rw [hrun]
      simp only [persistAndReturn, hp]
  · exact absurd rfl hne

/-- C16 fails as stated: the catalog `mycatalog` has an empty old snapshot, the
index is `{nginx: [1.0.0 with digest a]}`, no entry is invalid, no descriptor
fails to parse, the catalog is not up to date, lookups answer not-found, create
and status persistence succeed; `helm.Icon` fails, and the run returns that error
at line 101 without any `createTemplate` call and without persisting a snapshot. -/
theorem first_sync_stops_when_icon_fails :
    worldIconFails.LoadIndex = .ok indexNginx ∧
    (sampleCatalog ∅ none).catalog.map (fun c => (c.Name, c.Status.HelmVersionCommits.keys)) =
      some ("mycatalog", []) ∧
    yamlFailures (traverseAndUpdate worldIconFails "c1" (sampleCatalog ∅ none)).trace = [] ∧
    ((traverseAndUpdate worldIconFails "c1" (sampleCatalog ∅ none)).trace.filterMap
      Event.createdTemplate).length = 0 ∧
    (traverseAndUpdate worldIconFails "c1" (sampleCatalog ∅ none)).persisted.isSome = false ∧
    (traverseAndUpdate worldIconFails "c1" (sampleCatalog ∅ none)).outcome =
      .returned (.err { text := "icon not reachable", isNotFound := false }) := by
  refine ⟨rfl, by decide, by decide, by decide, by decide, by decide⟩

/-- C16, as amended: a global catalog named `mycatalog` with an empty old
snapshot, an index with a single package that has a single release, no invalid
entry, `helm.Icon` and the fetch of the files succeed, no descriptor fails to
parse, `isUpToDate` is false, the lookup answers not-found, creates succeed, and
every status persistence succeeds and answers a catalog with the name and the
snapshot of the one it was given.  Then the run makes exactly one
`createTemplate` call, for the template named
`getValidTemplateName("mycatalog", chart)` in the global namespace, makes no
update and no delete call, hands to the final persistence a catalog whose
snapshot is `{chart: {version: digest}}` and whose commit is the given commit, and
returns no error. -/
theorem first_sync (w : World) (commit chart : String) (r : ChartVersion) (cmt : CatalogInfo)
    (catalog : Catalog)
    (hcat : cmt.catalog = some catalog) (hname : catalog.Name = "mycatalog")
    (hold : catalog.Status.HelmVersionCommits = ∅)
    (hglobal : w.getCatalogType cmt = w.CatalogType)
    (hidx : w.LoadIndex = .ok (AList.insert chart [r] ∅))
    (hpre : w.preprocessCatalog catalog (AList.insert chart [r] ∅) =
      ([], AList.insert chart [r] ∅))
    (hicon : ∀ trace metadata, ∃ icon, w.Icon trace metadata = .ok icon)
    (hfetch : ∀ trace version, ∃ files, w.FetchLocalFiles trace version = .ok files)
    (hyaml : ∀ contents, ∃ value, w.yamlUnmarshal contents = .ok value)
    (hup : ∀ c, w.isUpToDate commit c = false)
    (hget : ∀ trace ns name, ∃ err,
      w.templateListerGet trace ns name = .error err ∧ err.isNotFound = true)
    (hcreate : ∀ trace t c, w.createTemplate trace t c = none)
    (hpersist : ∀ trace (info : CatalogInfo) tn c u, ∃ info1,
      w.updateCatalogInfo trace info w.CatalogType tn c u = .ok info1 ∧
      ∀ c0, info.catalog = some c0 → ∃ c1, info1.catalog = some c1 ∧ c1.Name = c0.Name ∧
        c1.Status.HelmVersionCommits = c0.Status.HelmVersionCommits) :
    ((traverseAndUpdate w commit cmt).trace.filterMap Event.createdTemplate).map
        (fun t => (t.Name, t.Namespace)) =
      [(w.getValidTemplateName "mycatalog" chart, w.GlobalNamespace)] ∧
    (∀ e ∈ (traverseAndUpdate w commit cmt).trace, e.isUpdate = false ∧ e.isDelete = false) ∧
    (∃ cmtF catF, (traverseAndUpdate w commit cmt).persisted = some cmtF ∧
      cmtF.catalog = some catF ∧
      catF.Status.HelmVersionCommits =
        AList.insert chart ⟨some (AList.insert r.Version r.Digest ∅)⟩ ∅ ∧
      catF.Status.Commit = commit) ∧
    (traverseAndUpdate w commit cmt).outcome = .returned .nil := by
  have hns : templateNamespaceOf w w.CatalogType cmt = some w.GlobalNamespace := by
    simp [templateNamespaceOf]
  have key : ∃ (cmt1 : CatalogInfo) (c1 : Catalog) (trace0 : List Event),
      cmt1.catalog = some c1 ∧ c1.Name ≠ "" ∧ c1.Status.HelmVersionCommits = ∅ ∧
      (∀ e ∈ trace0, e.createdTemplate = none ∧ e.isUpdate = false ∧ e.isDelete = false) ∧
      traverseAndUpdate w commit cmt =
        syncCharts w commit cmt1 w.CatalogType w.GlobalNamespace catalog cmt.projectCatalog
          cmt.clusterCatalog (AList.insert chart [r] ∅) trace0 := by
    unfold traverseAndUpdate
    simp only [hidx, hglobal, hns, hcat]
    by_cases hsync : needsSyncMarker catalog = true
    · obtain ⟨cmt1, hres, hprop⟩ := hpersist [] cmt "sync" true false
      obtain ⟨c1, hc1, hn1, hs1⟩ := hprop catalog hcat
      simp only [hsync, if_true, hres]
      refine ⟨cmt1, c1, _, hc1, by rw [hn1, hname]; decide, by rw [hs1, hold], ?_, rfl⟩
      intro e he
      rw [List.mem_singleton.mp he]
      exact ⟨rfl, rfl, rfl⟩
    · simp only [hsync]
      exact ⟨cmt, catalog, [], hcat, by rw [hname]; decide, hold, by simp, by simp⟩
  obtain ⟨cmt1, c1, trace0, h1, hname1, hold1, h0, hrun⟩ := key
  obtain ⟨ext, t, err, cmtF, catF, res, htr, hbuild, hn, hnsp, hcatF, hsnap, hcommit, hout⟩ :=
    syncCharts_first w commit cmt1 cmt.projectCatalog cmt.clusterCatalog chart r trace0 hold
      hpre h1 hname1 hold1 hicon hfetch hyaml hup hget hcreate (fun trace info tn c => (hpersist trace info tn c true).imp fun _ h => h.1)
  rw [← hrun] at htr hout
  have hext : ∀ e ∈ ext, e.createdTemplate = none ∧ e.isUpdate = false ∧ e.isDelete = false := by
    intro e he
    have := hbuild e he
    cases e <;> simp_all [Event.isBuild, Event.createdTemplate, Event.isUpdate, Event.isDelete]
  refine ⟨?_, ?_, ⟨cmtF, catF, ?_, hcatF, hsnap, hcommit⟩, hout⟩
  · have e1 : trace0.filterMap Event.createdTemplate = [] := by
      rw [List.filterMap_eq_nil_iff]
      exact fun e he => (h0 e he).1
    have e2 : ext.filterMap Event.createdTemplate = [] := by
      rw [List.filterMap_eq_nil_iff]
      exact fun e he => (hext e he).1
    rw [htr, List.filterMap_append, List.filterMap_append, e1, e2]
    simp [Event.createdTemplate, hn, hnsp, hname]
  · intro e he
    rw [htr] at he
    simp only [List.mem_append, List.mem_cons, List.mem_singleton, List.not_mem_nil,
      or_false] at he
    rcases he with (h | h) | h | h | h
    · exact (h0 e h).2
    · exact (hext e h).2
    · rw [h]; exact ⟨rfl, rfl⟩
    · rw [h]; exact ⟨rfl, rfl⟩
    · rw [h]; exact ⟨rfl, rfl⟩
  · unfold Run.persisted
    rw [htr]
    simp

theorem first_sync_witness :
    ((traverseAndUpdate (sampleWorld indexNginx) "c1" (sampleCatalog ∅ none)).trace.filterMap
        Event.createdTemplate).map (fun t => (t.Name, t.Namespace)) =
      [((sampleWorld indexNginx).getValidTemplateName "mycatalog" "nginx",
        (sampleWorld indexNginx).GlobalNamespace)] ∧
    (∀ e ∈ (traverseAndUpdate (sampleWorld indexNginx) "c1" (sampleCatalog ∅ none)).trace,
      e.isUpdate = false ∧ e.isDelete = false) ∧
    (∃ cmtF catF,
      (traverseAndUpdate (sampleWorld indexNginx) "c1" (sampleCatalog ∅ none)).persisted =
        some cmtF ∧
      cmtF.catalog = some catF ∧
      catF.Status.HelmVersionCommits =
        AList.insert "nginx" ⟨some (AList.insert "1.0.0" "a" ∅)⟩ ∅ ∧
      catF.Status.Commit = "c1") ∧
    (traverseAndUpdate (sampleWorld indexNginx) "c1" (sampleCatalog ∅ none)).outcome =
      .returned .nil :=
  first_sync (sampleWorld indexNginx) "c1" "nginx" (release "1.0.0" "a") (sampleCatalog ∅ none)
    { Name := "mycatalog", Namespace := "", HelmVersion := "",
      Status := { Commit := "", HelmVersionCommits := ∅, Conditions := none } }
    rfl rfl rfl rfl rfl rfl (fun _ _ => ⟨_, rfl⟩) (fun _ _ => ⟨_, rfl⟩) (fun _ => ⟨_, rfl⟩)
    (fun _ => rfl) (fun _ _ _ => ⟨_, rfl, rfl⟩) (fun _ _ _ => rfl)
    (fun _ info _ _ _ => ⟨info, rfl, fun c0 h => ⟨c0, h, rfl, rfl⟩⟩)

/-! ## The text of the error of line 293 -/

theorem parsenum_length (format : List Char) (num : Nat) (isnum : Bool) :
    (parsenum format num isnum).2.2.length ≤ format.length := by
  induction format generalizing num isnum with
  | nil => simp [parsenum]
  | cons c rest ih =>
    unfold parsenum
    split
    · split
      · simp
      · exact Nat.le_succ_of_le (ih _ _)
    · simp

theorem argNumber_length (format : List Char) (goodArgNum : Bool) :
    (argNumber format goodArgNum).1.length ≤ format.length := by
  unfold argNumber
  split
  · simp only [List.length_drop]
    omega
  · simp

theorem printWidth_length (format : List Char) (afterIndex goodArgNum : Bool) :
    (printWidth format afterIndex goodArgNum).2.1.length ≤ format.length := by
  unfold printWidth
  split
  · simp only [List.length_drop]
    omega
  · exact parsenum_length format 0 false

theorem printPrecision_length (format : List Char) (afterIndex goodArgNum : Bool) :
    (printPrecision format afterIndex goodArgNum).2.1.length ≤ format.length := by
  have h0 : (format.drop 1).length ≤ format.length := by
    simp only [List.length_drop]
    omega
  by_cases hdot : format.head? = some '.'
  · rcases hA : argNumber (format.drop 1) (if afterIndex then false else goodArgNum) with
      ⟨l, a, g⟩
    have h1 := argNumber_length (format.drop 1) (if afterIndex then false else goodArgNum)
    rw [hA] at h1
    simp only at h1
    by_cases hstar : l.head? = some '*'
    · simp only [printPrecision, hdot, if_true, hA, hstar, List.length_drop]
      omega
    · rcases hP : parsenum l 0 false with ⟨n, b, l2⟩
      have h2 := parsenum_length l 0 false
      rw [hP] at h2
      simp only at h2
      simp only [printPrecision, hdot, if_true, hA, hstar, if_false, hP]
      omega
  · simp only [printPrecision, hdot, if_false]
    exact Nat.le_refl _

/-- A verb takes at least its verb character from the format. -/
theorem printVerb_length {format out left : List Char}
    (h : printVerb format = (out, some left)) : left.length < format.length := by
  have h0 : (format.dropWhile
      fun c => c == '#' || c == '0' || c == '+' || c == '-' || c == ' ').length ≤
      format.length := (List.dropWhile_sublist _).length_le
  rcases hA : argNumber (format.dropWhile
      fun c => c == '#' || c == '0' || c == '+' || c == '-' || c == ' ') true with
    ⟨l1, a1, g1⟩
  have h1 := argNumber_length (format.dropWhile
      fun c => c == '#' || c == '0' || c == '+' || c == '-' || c == ' ') true
  rw [hA] at h1
  rcases hW : printWidth l1 a1 g1 with ⟨o2, l2, a2, g2⟩
  have h2 := printWidth_length l1 a1 g1
  rw [hW] at h2
  rcases hP : printPrecision l2 a2 g2 with ⟨o3, l3, a3, g3⟩
  have h3 := printPrecision_length l2 a2 g2
  rw [hP] at h3
  rcases hN : (if a3 = true then (l3, a3, g3) else argNumber l3 g3) with ⟨l4, a4, g4⟩
  have h4 : l4.length ≤ l3.length := by
    have : (if a3 = true then (l3, a3, g3) else argNumber l3 g3).1.length ≤ l3.length := by
      split
      · exact Nat.le_refl _
      · exact argNumber_length l3 g3
    rw [hN] at this
    exact this
  simp only at h1 h2 h3
  simp only [printVerb, hA, hW, hP, hN] at h
  cases l4 with
  | nil => simp at h
  | cons verb rest =>
    have hleft : left = rest := by
      simp only at h
      split at h
      · injection h with _ h; injection h with h; exact h.symm
      · split at h
        · injection h with _ h; injection h with h; exact h.symm
        · injection h with _ h; injection h with h; exact h.symm
    subst hleft
    simp only [List.length_cons] at h4
    omega

/-- The length of the format is enough fuel for `doPrintf`: more fuel gives the
same text. -/
theorem doPrintf_fuel (fuel1 fuel2 : Nat) (format : List Char)
    (h1 : format.length ≤ fuel1) (h2 : format.length ≤ fuel2) :
    doPrintf fuel1 format = doPrintf fuel2 format := by
  induction fuel1 generalizing fuel2 format with
  | zero =>
    have : format = [] := List.length_eq_zero.mp (Nat.le_zero.mp h1)
    subst this
    cases fuel2 <;> rfl
  | succ n ih =>
    cases format with
    | nil => cases fuel2 <;> rfl
    | cons c rest =>
      cases fuel2 with
      | zero => simp at h2
      | succ m =>
        simp only [List.length_cons, Nat.succ_le_succ_iff] at h1 h2
        simp only [doPrintf]
        split
        · cases hv : printVerb rest with
          | mk out left =>
            cases left with
            | none => rfl
            | some left =>
              have hl := printVerb_length hv
              simp only
              rw [ih m left (by omega) (by omega)]
        · rw [ih m rest h1 h2]

/-- A format without `%` is rendered as it is. -/
theorem doPrintf_plain (fuel : Nat) (format : List Char) (h : format.length ≤ fuel)
    (hplain : '%' ∉ format) : doPrintf fuel format = format := by
  induction fuel generalizing format with
  | zero =>
    have : format = [] := List.length_eq_zero.mp (Nat.le_zero.mp h)
    subst this
    rfl
  | succ n ih =>
    cases format with
    | nil => rfl
    | cons c rest =>
      simp only [List.length_cons, Nat.succ_le_succ_iff] at h
      simp only [List.mem_cons, not_or] at hplain
      have hc : c ≠ '%' := fun hc => hplain.1 hc.symm
      simp only [doPrintf, hc, if_false]
      rw [ih rest h hplain.2]

/-- A format without `%` is the text of the error. -/
theorem Sprintf_plain (format : String) (hplain : '%' ∉ format.data) :
    Sprintf format = format := by
  unfold Sprintf
  rw [doPrintf_plain format.length format.data (Nat.le_refl _) hplain]

/-- C5 at the failing input: the index has the charts `a` and `b`, the creation of
the template of `a` fails with an error whose text is `%d`, the creation of the
template of `b` succeeds, and the final persistence succeeds.  The function
returns `errors.Errorf` with the joined text as its format (line 293); the text of
the returned error is that format rendered with no operand, in which `%d` has
become `%!d(MISSING)`: the text of the failure of `a` does not occur in it. -/
theorem failure_text_used_as_format :
    (traverseAndUpdate worldCreateFailsPercent "c1" (sampleCatalog ∅ none)).trace.filterMap
        Event.failedChart = ["a"] ∧
    (traverseAndUpdate worldCreateFailsPercent "c1" (sampleCatalog ∅ none)).trace.filterMap
        Event.succeededChart = ["b"] ∧
    createFailures (traverseAndUpdate worldCreateFailsPercent "c1" (sampleCatalog ∅ none)).trace =
      [{ text := "%d", isNotFound := false }] ∧
    (traverseAndUpdate worldCreateFailsPercent "c1" (sampleCatalog ∅ none)).persisted.isSome =
      true ∧
    (traverseAndUpdate worldCreateFailsPercent "c1" (sampleCatalog ∅ none)).outcome =
      .returned (.errorf "failed to create templates. Multiple error(s) occurred: [%d];") ∧
    (traverseAndUpdate worldCreateFailsPercent "c1" (sampleCatalog ∅ none)).errorText =
      some "failed to create templates. Multiple error(s) occurred: [%!d(MISSING)];" ∧
    ((traverseAndUpdate worldCreateFailsPercent "c1" (sampleCatalog ∅ none)).errorText.map
      fun text => stringsContains text "%d") = some false := by
  refine ⟨by decide, by decide, by decide, by decide, by decide, by decide, by decide⟩

end Rancher
